import Mathlib

/-!
# go-autostart: a shallow embedding of the platform backends

Go strings are modelled as lists of Unicode characters, the process environment and the
operating system as an explicit `World` value that every operation receives and returns.
Part I holds the definitions, Part II the lemmas and theorems.
-/

namespace Autostart

/-! ## Part I: definitions -/

/-- A Go string, as the list of its characters. -/
abbrev GoString := List Char

/-! ### Strings: `strings.ReplaceAll`, `strings.Join`, XML escaping (app_darwin.go) -/

/-- The call `strings.ReplaceAll(s, old, new)` for a one-character `old`. -/
def replaceAllChar (old : Char) (new : GoString) : GoString → GoString
  | [] => []
  | c :: cs => (if c = old then new else [c]) ++ replaceAllChar old new cs

/-- The function `strings.Join(elems, sep)`. -/
def stringsJoin (sep : GoString) : List GoString → GoString
  | [] => []
  | [x] => x
  | x :: y :: rest => x ++ sep ++ stringsJoin sep (y :: rest)

/-- The function `escapeXML` of app_darwin.go: five replacements, ampersand first. -/
def escapeXML (s : GoString) : GoString :=
  let s := replaceAllChar '&' "&amp;".toList s
  let s := replaceAllChar '<' "&lt;".toList s
  let s := replaceAllChar '>' "&gt;".toList s
  let s := replaceAllChar '"' "&quot;".toList s
  let s := replaceAllChar (Char.ofNat 39) "&apos;".toList s
  s

/-- What `escapeXML` makes of one character. -/
def escapeChar (c : Char) : GoString :=
  if c = '&' then "&amp;".toList
  else if c = '<' then "&lt;".toList
  else if c = '>' then "&gt;".toList
  else if c = '"' then "&quot;".toList
  else if c = (Char.ofNat 39) then "&apos;".toList
  else [c]

/-- The function `escapeArgs` of app_darwin.go: `output[i] = escapeXML(arguments[i])`. -/
def escapeArgs (arguments : List GoString) : List GoString :=
  arguments.map escapeXML

/-- The five predefined XML entities and the character each one stands for. -/
def xmlEntities : List (GoString × Char) :=
  [("&amp;".toList, '&'), ("&lt;".toList, '<'), ("&gt;".toList, '>'),
   ("&quot;".toList, '"'), ("&apos;".toList, (Char.ofNat 39))]

/-- The entity at the head of `s`, if any: the decoded character and the entity's length. -/
def decodeEntityHead (s : GoString) : Option (Char × Nat) :=
  xmlEntities.findSome? (fun e => if e.1.isPrefixOf s then some (e.2, e.1.length) else none)

/-- Entity decoding, left to right; the counter is the number of characters of an entity
already decoded that are still to be skipped. -/
def unescapeXMLGo : Nat → GoString → GoString
  | _, [] => []
  | k + 1, _ :: rest => unescapeXMLGo k rest
  | 0, c :: rest =>
    match decodeEntityHead (c :: rest) with
    | some (d, k) => d :: unescapeXMLGo (k - 1) rest
    | none => c :: unescapeXMLGo 0 rest

/-- Decoding of the XML entities `&amp; &lt; &gt; &quot; &apos;`, as an XML reader does for
character data. -/
def unescapeXML (s : GoString) : GoString := unescapeXMLGo 0 s

/-! ### Go quoting: `strconv.Quote`, and `joinArgs` of app_linux.go -/

/-- A hexadecimal digit, lower case, as `strconv` writes it. -/
def hexDigit (n : Nat) : Char :=
  if n % 16 < 10 then Char.ofNat (48 + n % 16) else Char.ofNat (87 + n % 16)

/-- The `k` low hexadecimal digits of `n`, most significant first. -/
def hexDigits : Nat → Nat → GoString
  | 0, _ => []
  | k + 1, n => hexDigits k (n / 16) ++ [hexDigit n]

/-- The function `strconv.IsPrint`: exact below U+0100, and the Unicode table `tbl` of the Go
release above. -/
def IsPrint (tbl : Nat → Bool) (r : Char) : Bool :=
  if r.toNat ≤ 0xFF then
    if 0x20 ≤ r.toNat ∧ r.toNat ≤ 0x7E then true
    else if 0xA1 ≤ r.toNat then r.toNat ≠ 0xAD
    else false
  else tbl r.toNat

/-- One rune of `strconv.Quote` (`appendEscapedRune` with the double quote as delimiter). -/
def quoteRune (tbl : Nat → Bool) (r : Char) : GoString :=
  if r = '"' ∨ r = '\\' then ['\\', r]
  else if IsPrint tbl r then [r]
  else if r.toNat = 7 then ['\\', 'a']
  else if r.toNat = 8 then ['\\', 'b']
  else if r.toNat = 12 then ['\\', 'f']
  else if r = '\n' then ['\\', 'n']
  else if r = '\r' then ['\\', 'r']
  else if r = '\t' then ['\\', 't']
  else if r.toNat = 11 then ['\\', 'v']
  else if r.toNat < 0x20 ∨ r.toNat = 0x7F then '\\' :: 'x' :: hexDigits 2 r.toNat
  else if r.toNat < 0x10000 then '\\' :: 'u' :: hexDigits 4 r.toNat
  else '\\' :: 'U' :: hexDigits 8 r.toNat

/-- The body of a quoted string: every rune escaped in turn. -/
def quoteBody (tbl : Nat → Bool) : GoString → GoString
  | [] => []
  | r :: rs => quoteRune tbl r ++ quoteBody tbl rs

/-- The function `strconv.Quote`: a double-quoted Go string literal. -/
def Quote (tbl : Nat → Bool) (s : GoString) : GoString :=
  '"' :: quoteBody tbl s ++ ['"']

namespace linux

/-- The function `joinArgs` of app_linux.go: each argument quoted, joined by one space. -/
def joinArgs (tbl : Nat → Bool) (arguments : List GoString) : GoString :=
  stringsJoin [' '] (arguments.map (Quote tbl))

end linux

/-! ### Shell word splitting, the reader that the quoting claim names -/

/-- The mode of the shell word splitter. -/
inductive ShMode where
  | between
  | bare
  | esc (inWord : Bool)
  | dq
  | dqEsc
  | sq
  deriving DecidableEq

/-- Shell blanks that separate words. -/
def isShellBlank (c : Char) : Bool := c = ' ' ∨ c = '\t' ∨ c = '\n'

/-- An unescaped dollar sign or backquote starts an expansion, whose result is not the text
that was written. -/
def startsExpansion (c : Char) : Bool := c = '$' ∨ c = (Char.ofNat 96)

/-- Shell word splitting with quote removal: blanks separate words, double quotes group,
inside double quotes a backslash escapes only dollar, backquote, double quote, backslash and
newline, single quotes keep everything. The result is `none` when the text is not a list of
literal words (an expansion, an open quote, a trailing backslash). -/
def shellSplitGo : ShMode → GoString → List GoString → GoString → Option (List GoString)
  | m, cur, done, [] =>
    match m with
    | .between => some done
    | .bare => some (done ++ [cur])
    | _ => none
  | m, cur, done, c :: rest =>
    match m with
    | .between =>
      if isShellBlank c then shellSplitGo .between [] done rest
      else if c = '"' then shellSplitGo .dq [] done rest
      else if c = (Char.ofNat 39) then shellSplitGo .sq [] done rest
      else if c = '\\' then shellSplitGo (.esc false) [] done rest
      else if startsExpansion c then none
      else shellSplitGo .bare [c] done rest
    | .bare =>
      if isShellBlank c then shellSplitGo .between [] (done ++ [cur]) rest
      else if c = '"' then shellSplitGo .dq cur done rest
      else if c = (Char.ofNat 39) then shellSplitGo .sq cur done rest
      else if c = '\\' then shellSplitGo (.esc true) cur done rest
      else if startsExpansion c then none
      else shellSplitGo .bare (cur ++ [c]) done rest
    | .esc inWord =>
      if c = '\n' then shellSplitGo (if inWord then .bare else .between) cur done rest
      else shellSplitGo .bare (cur ++ [c]) done rest
    | .dq =>
      if c = '"' then shellSplitGo .bare cur done rest
      else if c = '\\' then shellSplitGo .dqEsc cur done rest
      else if startsExpansion c then none
      else shellSplitGo .dq (cur ++ [c]) done rest
    | .dqEsc =>
      if c = '$' ∨ c = (Char.ofNat 96) ∨ c = '"' ∨ c = '\\' then shellSplitGo .dq (cur ++ [c]) done rest
      else if c = '\n' then shellSplitGo .dq cur done rest
      else shellSplitGo .dq (cur ++ ['\\', c]) done rest
    | .sq =>
      if c = (Char.ofNat 39) then shellSplitGo .bare cur done rest
      else shellSplitGo .sq (cur ++ [c]) done rest

/-- The words a shell reads from a command line. -/
def shellSplit (s : GoString) : Option (List GoString) := shellSplitGo .between [] [] s

/-- A character that Go writes as itself (or behind one backslash) and that a shell reads
back as itself inside double quotes. -/
def ShellLiteral (tbl : Nat → Bool) (c : Char) : Prop :=
  IsPrint tbl c = true ∧ c ≠ '$' ∧ c ≠ Char.ofNat 96

instance (tbl : Nat → Bool) (c : Char) : Decidable (ShellLiteral tbl c) := by
  unfold ShellLiteral; infer_instance

/-! ### Paths: `filepath.Clean`, `filepath.Join`, `filepath.Dir` on Unix -/

/-- Split a path at every `/`. -/
def splitSlash : GoString → List GoString
  | [] => [[]]
  | c :: cs =>
    if c = '/' then [] :: splitSlash cs
    else
      match splitSlash cs with
      | [] => [[c]]
      | x :: xs => (c :: x) :: xs

/-- Put components together with `/` between them. -/
def joinSlash : List GoString → GoString
  | [] => []
  | [x] => x
  | x :: y :: rest => x ++ '/' :: joinSlash (y :: rest)

/-- One component of `filepath.Clean`: empty and `.` components vanish, `..` removes the last
kept component, is dropped at the root and is kept at the head of a relative path. The kept
components are held last-first. -/
def cleanStep (rooted : Bool) (stack : List GoString) (comp : GoString) : List GoString :=
  if comp = [] ∨ comp = ['.'] then stack
  else if comp = ['.', '.'] then
    match stack with
    | top :: below => if top = ['.', '.'] then comp :: stack else below
    | [] => if rooted then [] else [comp]
  else comp :: stack

/-- Whether a path starts at the root. -/
def isRooted : GoString → Bool
  | '/' :: _ => true
  | _ => false

/-- The function `filepath.Clean` on Unix, on the components of the path. -/
def Clean (path : GoString) : GoString :=
  if path = [] then ['.']
  else
    let rooted := isRooted path
    let body := joinSlash ((splitSlash path).foldl (cleanStep rooted) []).reverse
    if rooted then '/' :: body
    else if body = [] then ['.'] else body

/-- The function `filepath.Join` on Unix: leading empty elements are skipped, the rest is
joined with `/` and cleaned; no non-empty element gives the empty string. -/
def Join : List GoString → GoString
  | [] => []
  | e :: rest => if e = [] then Join rest else Clean (joinSlash (e :: rest))

/-- The path up to and including its last `/`. -/
def dirPart : GoString → GoString
  | [] => []
  | c :: cs =>
    if '/' ∈ cs then c :: dirPart cs
    else if c = '/' then ['/'] else []

/-- The function `filepath.Dir` on Unix. -/
def Dir (path : GoString) : GoString := Clean (dirPart path)

/-- A plain path component: non-empty, free of separators, neither "." nor "..". -/
def PlainComp (c : GoString) : Prop :=
  c ≠ [] ∧ '/' ∉ c ∧ c ≠ ['.'] ∧ c ≠ ['.', '.']

instance (c : GoString) : Decidable (PlainComp c) := by
  unfold PlainComp; infer_instance

/-- The text that `Clean` puts in front of a trailing run of plain components. -/
def cleanLead (r : Bool) (A : List GoString) : GoString :=
  (if r then ['/'] else []) ++
    (if (A.foldl (cleanStep r) []).reverse = [] then []
     else joinSlash (A.foldl (cleanStep r) []).reverse ++ ['/'])

/-! ### Configuration (autostart.go) -/

/-- The Go type `Mode`, a `uint8`. -/
abbrev Mode := Nat

/-- The constant `ModeUser` (`iota` = 0). -/
def ModeUser : Mode := 0

/-- The constant `ModeSystem` (1). -/
def ModeSystem : Mode := 1

/-- The struct `Options` of autostart.go. -/
structure Options where
  Label : GoString
  Vendor : GoString
  Name : GoString
  Description : GoString
  Mode : Mode
  Arguments : List GoString
  StdOutPath : GoString
  StdErrPath : GoString
  deriving DecidableEq

/-! ### Data directories (appdata/) -/

namespace darwin

/-- The function `SystemDataDir` of appdata_darwin.go. -/
def SystemDataDir (vendor product : GoString) : GoString :=
  Join ["/Library/Application Support".toList, vendor, product]

/-- The function `UserDataDir` of appdata_darwin.go. -/
def UserDataDir (getenv : GoString → GoString) (vendor product : GoString) : GoString :=
  Join [getenv "HOME".toList, "Library".toList, "Application Support".toList, vendor, product]

end darwin

namespace linux

/-- The function `SystemDataDir` of appdata_linux.go. -/
def SystemDataDir (vendor product : GoString) : GoString :=
  Join ["/etc".toList, vendor, product]

/-- The function `UserDataDir` of appdata_linux.go. -/
def UserDataDir (getenv : GoString → GoString) (vendor product : GoString) : GoString :=
  Join [getenv "HOME".toList, ".local".toList, "share".toList, vendor, product]

end linux

namespace windows

/-- The function `SystemDataDir` of appdata_windows.go; `join` is `filepath.Join` of the
Windows build. -/
def SystemDataDir (join : List GoString → GoString) (getenv : GoString → GoString)
    (vendor product : GoString) : GoString :=
  join [getenv "ProgramData".toList, vendor, product]

/-- The function `UserDataDir` of appdata_windows.go. -/
def UserDataDir (join : List GoString → GoString) (getenv : GoString → GoString)
    (vendor product : GoString) : GoString :=
  join [getenv "AppData".toList, vendor, product]

end windows

/-- The build target, which selects the backend. -/
inductive Platform where
  | darwin
  | linux
  | windows
  deriving DecidableEq

/-- The function `appdata.SystemDataDir` of the build for `pf`. -/
def SystemDataDir (pf : Platform) (join : List GoString → GoString)
    (getenv : GoString → GoString) (vendor product : GoString) : GoString :=
  match pf with
  | .darwin => darwin.SystemDataDir vendor product
  | .linux => linux.SystemDataDir vendor product
  | .windows => windows.SystemDataDir join getenv vendor product

/-- The function `appdata.UserDataDir` of the build for `pf`. -/
def UserDataDir (pf : Platform) (join : List GoString → GoString)
    (getenv : GoString → GoString) (vendor product : GoString) : GoString :=
  match pf with
  | .darwin => darwin.UserDataDir getenv vendor product
  | .linux => linux.UserDataDir getenv vendor product
  | .windows => windows.UserDataDir join getenv vendor product

/-- The method `DataDir` of autostart.go. -/
def DataDir (pf : Platform) (join : List GoString → GoString) (getenv : GoString → GoString)
    (o : Options) : GoString :=
  if o.Mode = ModeSystem then SystemDataDir pf join getenv o.Vendor o.Name
  else UserDataDir pf join getenv o.Vendor o.Name

/-! ### Errors (`errutil`, wrap.go) -/

/-- Go error values, as far as the backends tell them apart. -/
inductive Err where
  /-- The sentinel `ErrInvalidMode`, declared outside the sources at hand. -/
  | invalidMode
  /-- A path error for which `os.IsNotExist` holds. -/
  | notExist (path : GoString)
  /-- Any other failure of an operating-system or library call. -/
  | os (op : GoString)
  /-- The service manager's "service does not exist". -/
  | serviceDoesNotExist
  /-- An `*exec.ExitError`: the command ran and exited with a non-zero code. -/
  | exit (code : Nat)
  /-- An error made by `errors.New`. -/
  | text (msg : GoString)
  /-- An error made by `fmt.Errorf` with `%w`: a message around an inner error. -/
  | wrapped (msg : GoString) (inner : Err)
  deriving DecidableEq

/-- A Go `error`: `none` is `nil`. -/
abbrev GoError := Option Err

/-- The function `errutil.Wrap`. -/
def Wrap : GoError → GoError
  | none => none
  | some e => some (.wrapped "autostart".toList e)

/-- The function `errutil.Wrapf`; `msg` is the format with its arguments filled in. -/
def Wrapf (err : GoError) (msg : GoString) : GoError :=
  match err with
  | none => none
  | some e =>
    if msg = [] then some (.wrapped "autostart".toList e)
    else some (.wrapped ("autostart: ".toList ++ msg) e)

/-- The function `os.IsNotExist`; it does not look through `%w` wrappers. -/
def IsNotExist : GoError → Bool
  | some (.notExist _) => true
  | _ => false

/-- The function `errors.Is(err, ErrInvalidMode)`: walks the `%w` chain. -/
def IsInvalidMode : Err → Bool
  | .invalidMode => true
  | .wrapped _ inner => IsInvalidMode inner
  | _ => false

/-! ### The world: file system, subprocesses, native calls -/

/-- What the file system holds at a path. -/
inductive Node where
  | absent
  | file (content : GoString)
  | shortcut (target args : GoString)
  | dir
  /-- Something is there that the process may not inspect: `os.Stat` fails, not with
  "not exist". -/
  | blocked
  deriving DecidableEq

/-- The struct `mgr.Config`, the fields that `enableAdmin` sets. -/
structure Config where
  StartType : Nat
  DisplayName : GoString
  Description : GoString
  deriving DecidableEq

/-- The struct `mgr.RecoveryAction`; `Delay` is a `time.Duration`, in nanoseconds. -/
structure RecoveryAction where
  Type_ : Nat
  Delay : Nat
  deriving DecidableEq

/-- The struct `SC_ACTION` that the service manager receives; `Delay` is in milliseconds. -/
structure SCAction where
  Type_ : Nat
  Delay : Nat
  deriving DecidableEq

/-- The constant `mgr.StartAutomatic` (`SERVICE_AUTO_START`). -/
def StartAutomatic : Nat := 2

/-- The constant `mgr.ServiceRestart` (`SC_ACTION_RESTART`). -/
def ServiceRestart : Nat := 1

/-- A registered service, as the service database holds it. -/
structure Service where
  binaryPath : GoString
  config : Config
  args : List GoString
  actions : List SCAction
  resetPeriod : Nat
  deriving DecidableEq

/-- What the service database holds under a name. -/
inductive SvcEntry where
  | absent
  | present (s : Service)
  /-- A service is there that the process may not open. -/
  | blocked
  deriving DecidableEq

/-- The outcome of `exec.Cmd.Run`. -/
inductive RunResult where
  | startFailed
  | exited (code : Nat)
  deriving DecidableEq

/-- What a template wrote into the file, and whether `Execute` reported an error. -/
structure RenderResult where
  written : GoString
  failed : Bool
  deriving DecidableEq

/-- The struct `plistTemplateData` of app_darwin.go. -/
structure plistTemplateData where
  Options : Options
  BinaryPath : GoString
  EscapedArguments : List GoString
  deriving DecidableEq

/-- The struct `systemdTemplateData` of app_linux.go. -/
structure systemdTemplateData where
  Options : Options
  BinaryPath : GoString
  Arguments : GoString
  WantedBy : GoString
  deriving DecidableEq

/-- The effects a backend has on the world outside the process. -/
inductive Event where
  | mkdirAll (path : GoString)
  | create (path : GoString)
  | remove (path : GoString)
  | exec (argv : List GoString)
  | createShortcut (shortcut target args : GoString)
  | mgrConnect
  | openService (name : GoString)
  | createService (name : GoString)
  | setRecoveryActions (name : GoString)
  | deleteService (name : GoString)
  | openFile (path : GoString)
  deriving DecidableEq

/-- What the outside answers and the backends do not change: the process environment, the
libraries of the build, and what the operating system allows. -/
structure Host where
  /-- The function `os.Getenv`. -/
  getenv : GoString → GoString
  /-- The result of `os.Executable`; `none` is an error. -/
  executable : Option GoString
  /-- Where a path leads once its symbolic links are followed; `none` is an error. -/
  resolve : GoString → Option GoString
  /-- The function `filepath.Join` of the Windows build. -/
  winJoin : List GoString → GoString
  /-- The function `syscall.EscapeArg` of the Windows build. -/
  winEscapeArg : GoString → GoString
  /-- The Unicode table behind `strconv.IsPrint`. -/
  printTable : Nat → Bool
  /-- The embedded launchd template (templates/macos_launchd.plist, not among the sources)
  once parsed: what it renders for given data; `none` is a parse error. -/
  plistTemplate : Option (plistTemplateData → RenderResult)
  /-- The embedded systemd template (templates/linux_systemd.service, not among the
  sources) once parsed: what it renders for given data; `none` is a parse error. -/
  systemdTemplate : Option (systemdTemplateData → RenderResult)
  /-- Directories the system refuses to create. -/
  mkdirRefused : GoString → Bool
  /-- Files the system refuses to create or truncate. -/
  createRefused : GoString → Bool
  /-- Files the system refuses to remove. -/
  removeRefused : GoString → Bool
  /-- What running a command gives, by its argument vector. -/
  run : List GoString → RunResult
  /-- The status that the native `CreateShortcut` returns. -/
  shortcutStatus : GoString → GoString → GoString → Nat
  /-- Whether `mgr.Connect` succeeds. -/
  connectOk : Bool
  /-- Services the manager refuses to create. -/
  createServiceRefused : GoString → Bool
  /-- Services whose recovery actions the manager refuses to set. -/
  setRecoveryRefused : GoString → Bool
  /-- Services the manager refuses to delete. -/
  deleteRefused : GoString → Bool

/-- The host together with what the backends change: the file system, the service database
and the log of effects. -/
structure World where
  host : Host
  /-- The file system. -/
  node : GoString → Node
  /-- The service database. -/
  svc : GoString → SvcEntry
  /-- The effects so far, oldest first. -/
  log : List Event

/-- Record an effect. -/
def World.emit (w : World) (e : Event) : World := { w with log := w.log ++ [e] }

/-- Replace what the file system holds at `p`. -/
def World.setNode (w : World) (p : GoString) (n : Node) : World :=
  { w with node := fun q => if q = p then n else w.node q }

/-- Replace what the service database holds under `name`. -/
def World.setSvc (w : World) (name : GoString) (s : SvcEntry) : World :=
  { w with svc := fun q => if q = name then s else w.svc q }

/-- The world after a successful native `CreateShortcut`. -/
def shortcutWorld (w : World) (lnk bin args : GoString) : World :=
  (w.emit (.createShortcut lnk bin args)).setNode lnk (.shortcut bin args)

/-- The error of `os.Stat`. -/
def osStat (w : World) (p : GoString) : GoError :=
  match w.node p with
  | .absent => some (.notExist p)
  | .blocked => some (.os "stat".toList)
  | _ => none

/-- The function `os.MkdirAll`: nothing to do for a directory, a new directory where nothing
is, an error anywhere else. -/
def osMkdirAll (w : World) (p : GoString) : GoError × World :=
  match w.node p with
  | .dir => (none, w.emit (.mkdirAll p))
  | .absent =>
    if w.host.mkdirRefused p then (some (.os "mkdir".toList), w.emit (.mkdirAll p))
    else (none, (w.emit (.mkdirAll p)).setNode p .dir)
  | _ => (some (.os "mkdir".toList), w.emit (.mkdirAll p))

/-- The function `os.Create`: the parent must be a directory; a new or truncated empty file. -/
def osCreate (w : World) (p : GoString) : GoError × World :=
  if w.host.createRefused p then (some (.os "open".toList), w.emit (.create p))
  else
    match w.node (Dir p) with
    | .dir =>
      match w.node p with
      | .absent => (none, (w.emit (.create p)).setNode p (.file []))
      | .file _ => (none, (w.emit (.create p)).setNode p (.file []))
      | _ => (some (.os "open".toList), w.emit (.create p))
    | .absent => (some (.notExist p), w.emit (.create p))
    | _ => (some (.os "open".toList), w.emit (.create p))

/-- Template output written to the file just created. -/
def writeFile (w : World) (p : GoString) (r : RenderResult) : GoError × World :=
  (if r.failed then some (.os "execute".toList) else none, w.setNode p (.file r.written))

/-- The steps that the macOS and the Linux backend share once the path and the template data
are known: make the directory if `os.Stat` says it does not exist, create the file, render
the template into it. The three messages are those of the three `errutil.Wrapf` calls. -/
def installFile (w : World) (path : GoString) (render : RenderResult)
    (dirMsg createMsg renderMsg : GoString) : GoError × World :=
  let dir := Dir path
  let made : GoError × World :=
    if IsNotExist (osStat w dir) then osMkdirAll w dir else (none, w)
  match made.1 with
  | some e => (Wrapf (some e) dirMsg, made.2)
  | none =>
    match osCreate made.2 path with
    | (some e, w2) => (Wrapf (some e) createMsg, w2)
    | (none, w2) =>
      let out := writeFile w2 path render
      (Wrapf out.1 renderMsg, out.2)

/-- The function `os.Remove`. -/
def osRemove (w : World) (p : GoString) : GoError × World :=
  match w.node p with
  | .absent => (some (.notExist p), w.emit (.remove p))
  | .blocked => (some (.os "remove".toList), w.emit (.remove p))
  | _ =>
    if w.host.removeRefused p then (some (.os "remove".toList), w.emit (.remove p))
    else (none, (w.emit (.remove p)).setNode p .absent)

/-- The function `os.Executable`. -/
def osExecutable (w : World) : Except Err GoString :=
  match w.host.executable with
  | some p => .ok p
  | none => .error (.os "executable".toList)

/-- The function `filepath.EvalSymlinks`: the resolved path, which must exist. -/
def EvalSymlinks (w : World) (p : GoString) : Except Err GoString :=
  match w.host.resolve p with
  | some q =>
    match osStat w q with
    | none => .ok q
    | some e => .error e
  | none => .error (.os "lstat".toList)

/-- The method `exec.Cmd.Run`, with the exit code that `ProcessState.ExitCode` reports
afterwards: an error unless the command starts and exits with code 0. -/
def cmdRun (w : World) (argv : List GoString) : (GoError × Int) × World :=
  match w.host.run argv with
  | .startFailed => ((some (.os "exec".toList), -1), w.emit (.exec argv))
  | .exited code =>
    ((if code = 0 then none else some (.exit code), (code : Int)), w.emit (.exec argv))

/-! ### macOS backend (app_darwin.go) -/

namespace darwin

/-- The method `getPlistDir`. -/
def getPlistDir (w : World) (o : Options) : Except Err GoString :=
  if o.Mode = ModeUser then
    .ok (Join [w.host.getenv "HOME".toList, "Library".toList, "LaunchAgents".toList])
  else if o.Mode = ModeSystem then
    .ok (Join ["/".toList, "Library".toList, "LaunchAgents".toList])
  else .error .invalidMode

/-- The method `getPlistFilePath`. -/
def getPlistFilePath (w : World) (o : Options) : Except Err GoString :=
  match getPlistDir w o with
  | .error e => .error (.wrapped "autostart".toList e)
  | .ok launchAgentsDir => .ok (Join [launchAgentsDir, o.Label ++ ".plist".toList])

/-- The method `IsEnabled`. -/
def IsEnabled (w : World) (o : Options) : (Bool × GoError) × World :=
  match getPlistFilePath w o with
  | .error e => ((false, Wrapf (some e) "getting plist file path".toList), w)
  | .ok plistPath =>
    match osStat w plistPath with
    | some e =>
      if IsNotExist (some e) then ((false, none), w)
      else ((false, Wrapf (some e) "checking if plist file exists".toList), w)
    | none => ((true, none), w)

/-- The method `Enable`. -/
def Enable (w : World) (o : Options) : GoError × World :=
  match osExecutable w with
  | .error e => (Wrapf (some e) "getting executable path".toList, w)
  | .ok binaryPath =>
    match w.host.plistTemplate with
    | none => (Wrapf (some (.os "parse".toList)) "parsing plist template".toList, w)
    | some tmpl =>
      match getPlistFilePath w o with
      | .error e => (Wrap (some e), w)
      | .ok plistPath =>
        let templateData : plistTemplateData :=
          { Options := o, BinaryPath := binaryPath,
            EscapedArguments := escapeArgs o.Arguments }
        installFile w plistPath (tmpl templateData) "creating LaunchAgents directory".toList
          "creating plist file".toList "rendering plist template".toList

/-- The method `Disable`. -/
def Disable (w : World) (o : Options) : GoError × World :=
  match getPlistFilePath w o with
  | .error e => (Wrap (some e), w)
  | .ok plistPath =>
    match osStat w plistPath with
    | none =>
      let out := osRemove w plistPath
      (Wrapf out.1 "deleting plist file".toList, out.2)
    | some _ => (none, w)

end darwin

/-! ### Linux backend (app_linux.go) -/

namespace linux

/-- The method `getSystemdDir`. -/
def getSystemdDir (w : World) (o : Options) : Except Err GoString :=
  if o.Mode = ModeUser then
    .ok (Join [w.host.getenv "HOME".toList, ".config".toList, "systemd".toList, "user".toList])
  else if o.Mode = ModeSystem then
    .ok (Join ["/".toList, "etc".toList, "systemd".toList, "system".toList])
  else .error .invalidMode

/-- The method `getServiceName`. -/
def getServiceName (o : Options) : GoString := o.Label ++ ".service".toList

/-- The method `getSystemdUnitFilePath`. -/
def getSystemdUnitFilePath (w : World) (o : Options) : Except Err GoString :=
  match getSystemdDir w o with
  | .error e => .error (.wrapped "autostart".toList e)
  | .ok systemdDir => .ok (Join [systemdDir, getServiceName o])

/-- The argument vector of `systemctlRun`: with `sudo` for the system scope, none for an
invalid scope. -/
def systemctlArgv (o : Options) (action : GoString) : Option (List GoString) :=
  if o.Mode = ModeUser then some ["systemctl".toList, action, getServiceName o]
  else if o.Mode = ModeSystem then
    some ["sudo".toList, "systemctl".toList, action, getServiceName o]
  else none

/-- The method `systemctlRun`: the exit code (-1 with an error) and the error. -/
def systemctlRun (w : World) (o : Options) (action : GoString) : (Int × GoError) × World :=
  match systemctlArgv o action with
  | none => ((-1, some .invalidMode), w)
  | some argv =>
    match cmdRun w argv with
    | ((some e, _), w1) => ((-1, Wrapf (some e) ("running systemctl ".toList ++ action)), w1)
    | ((none, code), w1) => ((code, none), w1)

/-- The method `IsEnabled`. -/
def IsEnabled (w : World) (o : Options) : (Bool × GoError) × World :=
  match getSystemdUnitFilePath w o with
  | .error e => ((false, Wrap (some e)), w)
  | .ok systemdPath =>
    match osStat w systemdPath with
    | some e =>
      if IsNotExist (some e) then ((false, none), w)
      else ((false, Wrapf (some e) "checking systemd unit file".toList), w)
    | none =>
      match systemctlRun w o "status".toList with
      | ((_, some e), w1) =>
        ((false, Wrapf (some e) "checking systemd service status".toList), w1)
      | ((statusCode, none), w1) => ((decide (statusCode = 0), none), w1)

/-- The method `createSystemdUnitFile`. -/
def createSystemdUnitFile (w : World) (o : Options) : GoError × World :=
  match osExecutable w with
  | .error e => (Wrapf (some e) "getting executable path".toList, w)
  | .ok binaryPath =>
    match w.host.systemdTemplate with
    | none => (Wrapf (some (.os "parse".toList)) "parsing systemd unit template".toList, w)
    | some tmpl =>
      match getSystemdUnitFilePath w o with
      | .error e => (Wrap (some e), w)
      | .ok systemdPath =>
        let templateData : systemdTemplateData :=
          { Options := o, BinaryPath := binaryPath,
            Arguments := joinArgs w.host.printTable o.Arguments,
            WantedBy :=
              if o.Mode = ModeSystem then "multi-user.target".toList
              else "default.target".toList }
        installFile w systemdPath (tmpl templateData) "creating systemd directory".toList
          "creating systemd unit file".toList "rendering systemd template".toList

/-- The method `Enable`. -/
def Enable (w : World) (o : Options) : GoError × World :=
  match createSystemdUnitFile w o with
  | (some e, w1) => (Wrapf (some e) "creating systemd unit file".toList, w1)
  | (none, w1) =>
    match systemctlRun w1 o "enable".toList with
    | ((_, some e), w2) => (Wrapf (some e) "enabling systemd service".toList, w2)
    | ((_, none), w2) => (none, w2)

/-- The method `Disable`. -/
def Disable (w : World) (o : Options) : GoError × World :=
  match systemctlRun w o "disable".toList with
  | ((_, some e), w1) => (Wrapf (some e) "disabling systemd service".toList, w1)
  | ((_, none), w1) =>
    match getSystemdUnitFilePath w1 o with
    | .error e => (Wrap (some e), w1)
    | .ok systemdPath =>
      match osStat w1 systemdPath with
      | none =>
        match osRemove w1 systemdPath with
        | (some e, w2) => (Wrapf (some e) "deleting systemd unit file".toList, w2)
        | (none, w2) => (none, w2)
      | some _ => (none, w1)

end linux

/-! ### Windows backend (app_windows.go) -/

namespace windows

/-- The function `joinArgs` of app_windows.go. -/
def joinArgs (w : World) (arguments : List GoString) : GoString :=
  stringsJoin [' '] (arguments.map w.host.winEscapeArg)

/-- The method `getUserStartupDir`. -/
def getUserStartupDir (w : World) : GoString :=
  w.host.winJoin [w.host.getenv "USERPROFILE".toList, "AppData".toList, "Roaming".toList,
    "Microsoft".toList, "Windows".toList, "Start Menu".toList, "Programs".toList,
    "Startup".toList]

/-- The method `getUserStartupLinkPath`. -/
def getUserStartupLinkPath (w : World) (o : Options) : GoString :=
  w.host.winJoin [getUserStartupDir w, o.Name ++ ".lnk".toList]

/-- Modelled from the spec: the native `CreateShortcut(shortcut, path, args)`, declared in
app_windows.go and implemented in the repository's C source, which is not among the sources.
It is a shortcut-creation call that returns a status code; a non-zero code is an error, and
with code 0 the shortcut to `target` with `args` is at its path afterwards. -/
def CreateShortcut (w : World) (shortcut target args : GoString) : Nat × World :=
  let w1 := w.emit (.createShortcut shortcut target args)
  if w.host.shortcutStatus shortcut target args = 0 then
    (0, w1.setNode shortcut (.shortcut target args))
  else (w.host.shortcutStatus shortcut target args, w1)

/-- The function `mgr.Connect`. -/
def mgrConnect (w : World) : GoError × World :=
  (if w.host.connectOk then none else some (.os "OpenSCManager".toList), w.emit .mgrConnect)

/-- The method `Mgr.OpenService`: the service that was opened, or the error. -/
def OpenService (w : World) (name : GoString) : Except Err Service × World :=
  match w.svc name with
  | .present s => (.ok s, w.emit (.openService name))
  | .absent => (.error .serviceDoesNotExist, w.emit (.openService name))
  | .blocked => (.error (.os "access denied".toList), w.emit (.openService name))

/-- The method `Mgr.CreateService`: fails where the name is taken. -/
def CreateService (w : World) (name exepath : GoString) (c : Config) (args : List GoString) :
    GoError × World :=
  match w.svc name with
  | .absent =>
    if w.host.createServiceRefused name then
      (some (.os "CreateService".toList), w.emit (.createService name))
    else
      (none, (w.emit (.createService name)).setSvc name
        (.present { binaryPath := exepath, config := c, args := args, actions := [],
                    resetPeriod := 0 }))
  | _ => (some (.os "service already exists".toList), w.emit (.createService name))

/-- The conversion inside `Service.SetRecoveryActions`:
`uint32(a.Delay.Nanoseconds() / 1000000)`. -/
def toSCAction (a : RecoveryAction) : SCAction :=
  { Type_ := a.Type_ % 2 ^ 32, Delay := (a.Delay / 1000000) % 2 ^ 32 }

/-- The method `Service.SetRecoveryActions` on the service just created. -/
def SetRecoveryActions (w : World) (name : GoString) (actions : List RecoveryAction)
    (resetPeriod : Nat) : GoError × World :=
  match w.svc name with
  | .present s =>
    if w.host.setRecoveryRefused name then
      (some (.os "ChangeServiceConfig2".toList), w.emit (.setRecoveryActions name))
    else
      (none, (w.emit (.setRecoveryActions name)).setSvc name
        (.present { s with actions := actions.map toSCAction, resetPeriod := resetPeriod }))
  | _ => (some (.os "ChangeServiceConfig2".toList), w.emit (.setRecoveryActions name))

/-- The method `Service.Delete`. -/
def DeleteService (w : World) (name : GoString) : GoError × World :=
  if w.host.deleteRefused name then (some (.os "DeleteService".toList), w.emit (.deleteService name))
  else (none, (w.emit (.deleteService name)).setSvc name .absent)

/-- The method `isEnabledUser`. -/
def isEnabledUser (w : World) (o : Options) : (Bool × GoError) × World :=
  match osStat w (getUserStartupLinkPath w o) with
  | none => ((true, none), w)
  | some e =>
    if IsNotExist (some e) then ((false, none), w)
    else ((false, Wrapf (some e) "checking if plist file exists".toList), w)

/-- The method `enableUser`. -/
def enableUser (w : World) (o : Options) : GoError × World :=
  match osExecutable w with
  | .error e => (Wrapf (some e) "getting executable path".toList, w)
  | .ok binaryPath0 =>
    match EvalSymlinks w binaryPath0 with
    | .error e => (Wrapf (some e) "evaluating symbolic links".toList, w)
    | .ok binaryPath =>
      let startupDir := getUserStartupDir w
      match osMkdirAll w startupDir with
      | (some e, w1) => (Wrapf (some e) "creating startup directory".toList, w1)
      | (none, w1) =>
        let startupLnkPath := getUserStartupLinkPath w1 o
        if binaryPath = startupLnkPath then
          (Wrapf none "binary path is already the symlink path".toList, w1)
        else
          let args := joinArgs w1 o.Arguments
          match CreateShortcut w1 startupLnkPath binaryPath args with
          | (0, w2) => (none, w2)
          | (_ + 1, w2) => (some (.text "autostart: cannot create shortcut".toList), w2)

/-- The method `disableUser`. -/
def disableUser (w : World) (o : Options) : GoError × World :=
  let startupLnkPath := getUserStartupLinkPath w o
  match osStat w startupLnkPath with
  | none => osRemove w startupLnkPath
  | some _ => (none, w)

/-- The method `isEnabledAdmin`. -/
def isEnabledAdmin (w : World) (o : Options) : (Bool × GoError) × World :=
  match mgrConnect w with
  | (some e, w1) => ((false, Wrapf (some e) "connecting to service manager".toList), w1)
  | (none, w1) =>
    match OpenService w1 o.Label with
    | (.error _, w2) => ((false, none), w2)
    | (.ok _, w2) => ((true, none), w2)

/-- The method `enableAdmin`. -/
def enableAdmin (w : World) (o : Options) : GoError × World :=
  match mgrConnect w with
  | (some e, w1) => (Wrapf (some e) "connecting to service manager".toList, w1)
  | (none, w1) =>
    let config : Config :=
      { StartType := StartAutomatic, DisplayName := o.Name, Description := o.Description }
    match osExecutable w1 with
    | .error e => (Wrapf (some e) "getting executable path".toList, w1)
    | .ok binaryPath =>
      match CreateService w1 o.Label binaryPath config o.Arguments with
      | (some e, w2) => (Wrapf (some e) "creating service".toList, w2)
      | (none, w2) =>
        match SetRecoveryActions w2 o.Label [{ Type_ := ServiceRestart, Delay := 60000 }] 0 with
        | (some e, w3) => (Wrapf (some e) "setting recovery actions".toList, w3)
        | (none, w3) => (none, w3)

/-- The method `disableAdmin`. -/
def disableAdmin (w : World) (o : Options) : GoError × World :=
  match mgrConnect w with
  | (some e, w1) => (Wrapf (some e) "connecting to service manager".toList, w1)
  | (none, w1) =>
    match OpenService w1 o.Label with
    | (.error _, w2) => (none, w2)
    | (.ok _, w2) =>
      let out := DeleteService w2 o.Label
      (Wrapf out.1 "deleting service".toList, out.2)

/-- The method `IsEnabled`. -/
def IsEnabled (w : World) (o : Options) : (Bool × GoError) × World :=
  if o.Mode = ModeUser then isEnabledUser w o
  else if o.Mode = ModeSystem then isEnabledAdmin w o
  else ((false, Wrap (some .invalidMode)), w)

/-- The method `Enable`. -/
def Enable (w : World) (o : Options) : GoError × World :=
  if o.Mode = ModeUser then enableUser w o
  else if o.Mode = ModeSystem then enableAdmin w o
  else (some .invalidMode, w)

/-- The method `Disable`. -/
def Disable (w : World) (o : Options) : GoError × World :=
  if o.Mode = ModeUser then disableUser w o
  else if o.Mode = ModeSystem then disableAdmin w o
  else (Wrap (some .invalidMode), w)

end windows

/-- The service that `enableAdmin` registers. -/
def registeredService (o : Options) (bin : GoString) : Service :=
  { binaryPath := bin,
    config := { StartType := StartAutomatic, DisplayName := o.Name,
                Description := o.Description },
    args := o.Arguments,
    actions := [windows.toSCAction { Type_ := ServiceRestart, Delay := 60000 }],
    resetPeriod := 0 }

/-! ### The facade: one backend per build target -/

/-- The method `IsEnabled` of the build for `pf`. -/
def IsEnabled (pf : Platform) (w : World) (o : Options) : (Bool × GoError) × World :=
  match pf with
  | .darwin => darwin.IsEnabled w o
  | .linux => linux.IsEnabled w o
  | .windows => windows.IsEnabled w o

/-- The method `Enable` of the build for `pf`. -/
def Enable (pf : Platform) (w : World) (o : Options) : GoError × World :=
  match pf with
  | .darwin => darwin.Enable w o
  | .linux => linux.Enable w o
  | .windows => windows.Enable w o

/-- The method `Disable` of the build for `pf`. -/
def Disable (pf : Platform) (w : World) (o : Options) : GoError × World :=
  match pf with
  | .darwin => darwin.Disable w o
  | .linux => linux.Disable w o
  | .windows => windows.Disable w o

/-- A configuration whose scope is one of the two the backends know. -/
def ValidMode (o : Options) : Prop := o.Mode = ModeUser ∨ o.Mode = ModeSystem

instance (o : Options) : Decidable (ValidMode o) := by
  unfold ValidMode; infer_instance

/-! ### Registration state and sample worlds -/

/-- Whether something is at a node: `none` where the process cannot tell. -/
def nodeState : Node → Option Bool
  | .absent => some false
  | .blocked => none
  | _ => some true

/-- The registration artifact of a configuration, where the backend of `pf` looks for it:
`some true` when it is there, `some false` when nothing is there, `none` when the scope is
invalid or the place cannot be inspected. -/
def registered (pf : Platform) (w : World) (o : Options) : Option Bool :=
  match pf with
  | .darwin =>
    match darwin.getPlistFilePath w o with
    | .ok p => nodeState (w.node p)
    | .error _ => none
  | .linux =>
    match linux.getSystemdUnitFilePath w o with
    | .ok p => nodeState (w.node p)
    | .error _ => none
  | .windows =>
    if o.Mode = ModeUser then nodeState (w.node (windows.getUserStartupLinkPath w o))
    else if o.Mode = ModeSystem then
      match w.svc o.Label with
      | .absent => some false
      | .present _ => some true
      | .blocked => none
    else none

/-- The configuration of the specification's example scenario. -/
def sampleOptions : Options :=
  { Label := "com.acme.sync".toList, Vendor := "Acme".toList, Name := "Sync".toList,
    Description := "Acme Sync".toList, Mode := ModeUser,
    Arguments := ["--quiet".toList, "--config=/etc/acme & co.conf".toList],
    StdOutPath := [], StdErrPath := [] }

/-- The same configuration for the system scope. -/
def sampleSystemOptions : Options := { sampleOptions with Mode := ModeSystem }

/-- A host on which every call succeeds. -/
def sampleHost : Host :=
  { getenv := fun k => if k = "HOME".toList then "/home/u".toList
      else if k = "USERPROFILE".toList then "C:\\Users\\u".toList else [],
    executable := some "/usr/bin/app".toList,
    resolve := fun p => some p,
    winJoin := stringsJoin ['\\'],
    winEscapeArg := fun s => s,
    printTable := fun _ => false,
    plistTemplate := some (fun d => { written := d.BinaryPath, failed := false }),
    systemdTemplate :=
      some (fun d => { written := d.BinaryPath ++ ' ' :: d.Arguments, failed := false }),
    mkdirRefused := fun _ => false,
    createRefused := fun _ => false,
    removeRefused := fun _ => false,
    run := fun _ => .exited 0,
    shortcutStatus := fun _ _ _ => 0,
    connectOk := true,
    createServiceRefused := fun _ => false,
    setRecoveryRefused := fun _ => false,
    deleteRefused := fun _ => false }

/-- A world in which only the executable exists and nothing is registered. -/
def sampleWorld : World :=
  { host := sampleHost,
    node := fun p => if p = "/usr/bin/app".toList then .file [] else .absent,
    svc := fun _ => .absent,
    log := [] }

/-- A host on which `systemctl disable` exits with code 1 and every other command with 0. -/
def disableFailsHost : Host :=
  { sampleHost with
    run := fun argv => if "disable".toList ∈ argv then .exited 1 else .exited 0 }

/-- Nothing registered, and `systemctl disable` fails. -/
def unregisteredWorld : World := { sampleWorld with host := disableFailsHost }

/-- The unit file of `sampleOptions` is in place, and `systemctl disable` fails. -/
def registeredWorld : World :=
  { unregisteredWorld with
    node := fun p =>
      if p = "/home/u/.config/systemd/user/com.acme.sync.service".toList then .file []
      else if p = "/home/u/.config/systemd/user".toList then .dir
      else .absent }

/-- A service named by the label is there, and the process may not open it. -/
def blockedServiceWorld : World := { sampleWorld with svc := fun _ => .blocked }

/-- The process was started from its own Startup shortcut path. -/
def selfStartWorld : World :=
  { host := { sampleHost with
      executable := some (windows.getUserStartupLinkPath sampleWorld sampleOptions) },
    node := fun p =>
      if p = windows.getUserStartupLinkPath sampleWorld sampleOptions then .file []
      else .absent,
    svc := fun _ => .absent,
    log := [] }

/-! ### Log files (autostart.go, internal/logutil) -/

/-- The constant `appdata.Logs` of the build for `pf`. -/
def Logs (pf : Platform) : GoString :=
  match pf with
  | .darwin => "Logs".toList
  | .linux => "logs".toList
  | .windows => "Logs".toList

/-- The function `filepath.Join` of the build for `pf`; `join` is that of the Windows build. -/
def platformJoin (pf : Platform) (join : List GoString → GoString) :
    List GoString → GoString :=
  match pf with
  | .windows => join
  | _ => Join

/-- The function `filepath.Dir` of the build for `pf`; `winDir` is that of the Windows
build. -/
def platformDir (pf : Platform) (winDir : GoString → GoString) : GoString → GoString :=
  match pf with
  | .windows => winDir
  | _ => Dir

/-- The method `StdOutPath` of autostart.go. -/
def StdOutPath (pf : Platform) (join : List GoString → GoString)
    (getenv : GoString → GoString) (o : Options) : GoString :=
  if o.StdOutPath ≠ [] then o.StdOutPath
  else platformJoin pf join [DataDir pf join getenv o, Logs pf, "stdout.log".toList]

/-- The method `StdErrPath` of autostart.go. -/
def StdErrPath (pf : Platform) (join : List GoString → GoString)
    (getenv : GoString → GoString) (o : Options) : GoString :=
  if o.StdErrPath ≠ [] then o.StdErrPath
  else platformJoin pf join [DataDir pf join getenv o, Logs pf, "stderr.err".toList]

/-- What a process stream is bound to: the stream the process was started with, or a log
file opened by `logutil`. -/
inductive Stream where
  | console
  | logFile (path : GoString)
  deriving DecidableEq

/-- The `io.Writer` that `OverrideStdout` hands back: a stream as it is, or
`io.MultiWriter` over the former stream and the log file. -/
inductive Writer where
  | stream (s : Stream)
  | multi (first second : Stream)
  deriving DecidableEq

/-- The world together with the process-wide variables `os.Stdout` and `os.Stderr`. -/
structure Process where
  world : World
  stdout : Stream
  stderr : Stream

/-- The call `os.OpenFile(p, os.O_APPEND|os.O_CREATE|os.O_WRONLY, 0644)`: the parent must be
a directory; a file that is there is kept, a missing one is created empty. -/
def osOpenAppend (dirOf : GoString → GoString) (w : World) (p : GoString) : GoError × World :=
  if w.host.createRefused p then (some (.os "open".toList), w.emit (.openFile p))
  else
    match w.node (dirOf p) with
    | .dir =>
      match w.node p with
      | .absent => (none, (w.emit (.openFile p)).setNode p (.file []))
      | .file _ => (none, w.emit (.openFile p))
      | _ => (some (.os "open".toList), w.emit (.openFile p))
    | .absent => (some (.notExist p), w.emit (.openFile p))
    | _ => (some (.os "open".toList), w.emit (.openFile p))

/-- The function `logutil.OverrideStdout`; `stdout` is its first argument. -/
def OverrideStdout (dirOf : GoString → GoString) (pr : Process) (stdout : Stream)
    (logFilePath : GoString) : (Option Writer × GoError) × Process :=
  if logFilePath = [] then ((some (.stream stdout), none), pr)
  else
    match osMkdirAll pr.world (dirOf logFilePath) with
    | (some e, w1) =>
      ((none, Wrapf (some e) "creating log directory".toList), { pr with world := w1 })
    | (none, w1) =>
      match osOpenAppend dirOf w1 logFilePath with
      | (some e, w2) =>
        ((none, Wrapf (some e) "opening log file".toList), { pr with world := w2 })
      | (none, w2) =>
        ((some (.multi stdout (.logFile logFilePath)), none),
          { pr with world := w2, stdout := .logFile logFilePath })

/-- The function `logutil.OverrideStderr`; `stderr` is its first argument. -/
def OverrideStderr (dirOf : GoString → GoString) (pr : Process) (_stderr : Stream)
    (logFilePath : GoString) : GoError × Process :=
  if logFilePath = [] then (none, pr)
  else
    match osMkdirAll pr.world (dirOf logFilePath) with
    | (some e, w1) => (Wrapf (some e) "creating log directory".toList, { pr with world := w1 })
    | (none, w1) =>
      match osOpenAppend dirOf w1 logFilePath with
      | (some e, w2) => (Wrapf (some e) "opening log file".toList, { pr with world := w2 })
      | (none, w2) => (none, { pr with world := w2, stderr := .logFile logFilePath })

/-- The method `Stdio` of autostart.go. -/
def Stdio (pf : Platform) (winDir : GoString → GoString) (pr : Process) (o : Options) :
    (Option Writer × GoError) × Process :=
  match OverrideStdout (platformDir pf winDir) pr pr.stdout
      (StdOutPath pf pr.world.host.winJoin pr.world.host.getenv o) with
  | ((_, some e), pr1) => ((none, Wrapf (some e) "wrapping stdout".toList), pr1)
  | ((stdout, none), pr1) =>
    match OverrideStderr (platformDir pf winDir) pr1 pr1.stderr
        (StdErrPath pf pr1.world.host.winJoin pr1.world.host.getenv o) with
    | (some e, pr2) => ((none, Wrapf (some e) "wrapping stderr".toList), pr2)
    | (none, pr2) => ((stdout, none), pr2)

/-- Whether the steps that `Enable` takes before it looks at the scope succeed: none on
Windows, `os.Executable` and the parsing of the template on macOS and on Linux. -/
def preambleOk (pf : Platform) (w : World) : Bool :=
  match pf with
  | .darwin => w.host.executable.isSome && w.host.plistTemplate.isSome
  | .linux => w.host.executable.isSome && w.host.systemdTemplate.isSome
  | .windows => true

/-! ### More sample worlds -/

/-- A configuration whose scope is neither of the two. -/
def invalidOptions : Options := { sampleOptions with Mode := 2 }

/-- A world in which `os.Executable` fails. -/
def noExecutableWorld : World :=
  { sampleWorld with host := { sampleHost with executable := none } }

/-- The unit file of `sampleOptions` is in place, and `systemctl status` exits with code 3,
as it does for a unit that is not active. -/
def inactiveUnitWorld : World :=
  { registeredWorld with
    host := { sampleHost with
      run := fun argv => if "status".toList ∈ argv then .exited 3 else .exited 0 } }

/-- The process of `sampleWorld` with both streams on the console. -/
def sampleProcess : Process := { world := sampleWorld, stdout := .console, stderr := .console }

/-! ### Depth and climb of cleaned paths -/

/-- The components that `Clean` keeps of a list of components, last first. -/
def cleanStack (rooted : Bool) (comps : List GoString) : List GoString :=
  comps.foldl (cleanStep rooted) []

/-- The number of components of an absolute path once cleaned: 0 for the root. -/
def homeDepth (home : GoString) : Nat := (cleanStack true (splitSlash home)).length

/-- How many levels the relative path `vendor/product` climbs above the directory it starts
in: the number of `..` that its cleaned form begins with. -/
def climb (vendor product : GoString) : Nat :=
  (cleanStack false (splitSlash vendor ++ splitSlash product)).count ['.', '.']

/-- A stack of components as `Clean` builds it: each is non-empty and free of `/`. -/
def GoodStack (st : List GoString) : Prop := ∀ x ∈ st, x ≠ [] ∧ '/' ∉ x

/-- The components of `vendor/product` that stay once the path is cleaned. -/
def keptComps (vendor product : GoString) : List GoString :=
  (cleanStack false (splitSlash vendor ++ splitSlash product)).filter
    (fun x => decide (x ≠ ['.', '.']))

/-! ### A path that cannot be inspected -/

/-- The plist path of `sampleOptions` is taken by something that `os.Stat` may not inspect. -/
def blockedPlistWorld : World :=
  { sampleWorld with
    node := fun p =>
      if p = "/home/u/Library/LaunchAgents/com.acme.sync.plist".toList then .blocked
      else sampleWorld.node p }

/-! ## Part II: lemmas and theorems -/

/-! ### Errors and the frame of the system calls -/

@[simp] theorem Wrapf_eq_none (e : GoError) (m : GoString) : Wrapf e m = none ↔ e = none := by
  cases e with
  | none => simp [Wrapf]
  | some x => simp only [Wrapf]; split <;> simp

@[simp] theorem Wrap_eq_none (e : GoError) : Wrap e = none ↔ e = none := by
  cases e <;> simp [Wrap]

@[simp] theorem emit_node (w : World) (e : Event) : (w.emit e).node = w.node := rfl
@[simp] theorem emit_svc (w : World) (e : Event) : (w.emit e).svc = w.svc := rfl
@[simp] theorem emit_host (w : World) (e : Event) : (w.emit e).host = w.host := rfl
@[simp] theorem emit_log (w : World) (e : Event) : (w.emit e).log = w.log ++ [e] := rfl
@[simp] theorem setNode_host (w : World) (p : GoString) (n : Node) :
    (w.setNode p n).host = w.host := rfl
@[simp] theorem setNode_svc (w : World) (p : GoString) (n : Node) :
    (w.setNode p n).svc = w.svc := rfl
@[simp] theorem setNode_log (w : World) (p : GoString) (n : Node) :
    (w.setNode p n).log = w.log := rfl
@[simp] theorem setNode_node_self (w : World) (p : GoString) (n : Node) :
    (w.setNode p n).node p = n := by simp [World.setNode]
theorem setNode_node_other (w : World) (p q : GoString) (n : Node) (h : q ≠ p) :
    (w.setNode p n).node q = w.node q := by simp [World.setNode, h]
@[simp] theorem setSvc_host (w : World) (p : GoString) (s : SvcEntry) :
    (w.setSvc p s).host = w.host := rfl
@[simp] theorem setSvc_node (w : World) (p : GoString) (s : SvcEntry) :
    (w.setSvc p s).node = w.node := rfl
@[simp] theorem setSvc_log (w : World) (p : GoString) (s : SvcEntry) :
    (w.setSvc p s).log = w.log := rfl
@[simp] theorem setSvc_svc_self (w : World) (p : GoString) (s : SvcEntry) :
    (w.setSvc p s).svc p = s := by simp [World.setSvc]

@[simp] theorem osMkdirAll_host (w : World) (p : GoString) : (osMkdirAll w p).2.host = w.host := by
  unfold osMkdirAll; split <;> try split
  all_goals rfl

@[simp] theorem osMkdirAll_svc (w : World) (p : GoString) : (osMkdirAll w p).2.svc = w.svc := by
  unfold osMkdirAll; split <;> try split
  all_goals rfl

theorem osMkdirAll_ok (w : World) (p : GoString) (h : (osMkdirAll w p).1 = none) :
    (osMkdirAll w p).2.node p = .dir ∧
      ∀ q, q ≠ p → (osMkdirAll w p).2.node q = w.node q := by
  unfold osMkdirAll at h ⊢
  split at h
  · rename_i hn; simp [hn]
  · split at h
    · simp at h
    · rename_i hn hr
      simp only [hn, hr]
      exact ⟨by simp, fun q hq => by simp [setNode_node_other _ _ _ _ hq]⟩
  · simp at h

@[simp] theorem osCreate_host (w : World) (p : GoString) : (osCreate w p).2.host = w.host := by
  unfold osCreate
  split
  · rfl
  · split
    · split <;> rfl
    · rfl
    · rfl

/-- What a successful `os.Create` needed and left. -/
theorem osCreate_ok (w : World) (p : GoString) (h : (osCreate w p).1 = none) :
    (osCreate w p).2 = (w.emit (.create p)).setNode p (.file []) ∧
      w.host.createRefused p = false ∧ w.node (Dir p) = .dir ∧
      (w.node p = .absent ∨ ∃ c, w.node p = .file c) := by
  unfold osCreate at h ⊢
  split at h
  · simp at h
  · rename_i hr
    split at h
    · rename_i hd
      split at h
      · rename_i hn; simp [hr, hd, hn]
      · rename_i c hn; simp [hr, hd, hn]
      · simp at h
    · simp at h
    · simp at h

/-- When `os.Create` succeeds. -/
theorem osCreate_of (w : World) (p : GoString) (hr : w.host.createRefused p = false)
    (hd : w.node (Dir p) = .dir) (hn : w.node p = .absent ∨ ∃ c, w.node p = .file c) :
    osCreate w p = (none, (w.emit (.create p)).setNode p (.file [])) := by
  unfold osCreate
  rcases hn with hn | ⟨c, hn⟩ <;> simp [hr, hd, hn]

@[simp] theorem installFile_host (w : World) (p : GoString) (r : RenderResult)
    (a b c : GoString) : (installFile w p r a b c).2.host = w.host := by
  unfold installFile
  have hm : (if IsNotExist (osStat w (Dir p)) = true then osMkdirAll w (Dir p)
      else (none, w)).2.host = w.host := by split <;> simp
  simp only
  split
  · exact hm
  · split
    · rename_i w2 hc
      have := osCreate_host (if IsNotExist (osStat w (Dir p)) = true then osMkdirAll w (Dir p)
        else (none, w)).2 p
      rw [hc] at this; simp only at this; rw [this, hm]
    · rename_i w2 hc
      have := osCreate_host (if IsNotExist (osStat w (Dir p)) = true then osMkdirAll w (Dir p)
        else (none, w)).2 p
      rw [hc] at this; simp only at this
      simp [writeFile, this, hm]

/-- What a successful installation needed and left. -/
theorem installFile_ok (w : World) (p : GoString) (r : RenderResult) (a b c : GoString)
    (h : (installFile w p r a b c).1 = none) :
    r.failed = false ∧ w.host.createRefused p = false ∧
      (installFile w p r a b c).2.node p = .file r.written ∧
      (installFile w p r a b c).2.node (Dir p) = .dir ∧
      (installFile w p r a b c).2.svc = w.svc := by
  unfold installFile at h ⊢
  simp only at h ⊢
  generalize hm : (if IsNotExist (osStat w (Dir p)) = true then osMkdirAll w (Dir p)
      else (none, w)) = made at h ⊢
  have hhost : made.2.host = w.host := by rw [← hm]; split <;> simp
  have hsvc : made.2.svc = w.svc := by rw [← hm]; split <;> simp
  cases hm1 : made.1 with
  | some e => simp [hm1] at h
  | none =>
    simp only [hm1] at h ⊢
    cases hc : osCreate made.2 p with
    | mk ce w2 =>
      cases ce with
      | some e => simp [hc] at h
      | none =>
        obtain ⟨hw2, hr, hd, hn⟩ := osCreate_ok made.2 p (by rw [hc])
        rw [hc] at hw2
        simp only at hw2
        simp only [hc] at h ⊢
        have hne : Dir p ≠ p := by
          intro e
          rw [e] at hd
          rcases hn with hn | ⟨c, hn⟩ <;> rw [hn] at hd <;> simp at hd
        have hf : r.failed = false := by
          simp only [writeFile, Wrapf_eq_none] at h
          cases hrf : r.failed <;> simp [hrf] at h ⊢
        refine ⟨hf, by rw [← hhost]; exact hr, by simp [writeFile], ?_, ?_⟩
        · simp only [writeFile]
          rw [setNode_node_other _ _ _ _ hne, hw2, setNode_node_other _ _ _ _ hne]
          simpa using hd
        · simp [writeFile, hw2, hsvc]

/-- Installing over the file that an earlier installation of the same text left. -/
theorem installFile_again (w : World) (p : GoString) (r : RenderResult) (a b c : GoString)
    (hf : r.failed = false) (hr : w.host.createRefused p = false)
    (hn : w.node p = .file r.written) (hd : w.node (Dir p) = .dir) :
    (installFile w p r a b c).1 = none ∧ (installFile w p r a b c).2.node = w.node ∧
      (installFile w p r a b c).2.svc = w.svc := by
  unfold installFile
  have hstat : IsNotExist (osStat w (Dir p)) = false := by simp [osStat, hd, IsNotExist]
  simp only [hstat, Bool.false_eq_true, if_false]
  rw [osCreate_of w p hr hd (Or.inr ⟨_, hn⟩)]
  simp only [writeFile, hf, Bool.false_eq_true, if_false, Wrapf_eq_none, true_and]
  refine ⟨?_, by simp⟩
  funext q
  by_cases hq : q = p
  · subst hq; simp [hn]
  · simp [setNode_node_other _ _ _ _ hq]

/-! ### macOS backend -/

theorem darwin_path_host (w w2 : World) (o : Options) (h : w2.host = w.host) :
    darwin.getPlistFilePath w2 o = darwin.getPlistFilePath w o := by
  simp [darwin.getPlistFilePath, darwin.getPlistDir, h]

/-- A successful `Enable` on macOS is an installation of the rendered template, and so is
`Enable` in every world of the same host. -/
theorem darwin_enable_shape (w : World) (o : Options) (h : (darwin.Enable w o).1 = none) :
    ∃ path r, darwin.getPlistFilePath w o = .ok path ∧
      ∀ w2 : World, w2.host = w.host →
        darwin.Enable w2 o = installFile w2 path r "creating LaunchAgents directory".toList
          "creating plist file".toList "rendering plist template".toList := by
  unfold darwin.Enable at h
  cases hexe : osExecutable w with
  | error e => simp [hexe] at h
  | ok bin =>
    cases ht : w.host.plistTemplate with
    | none => simp [hexe, ht] at h
    | some tmpl =>
      cases hp : darwin.getPlistFilePath w o with
      | error e => simp [hexe, ht, hp] at h
      | ok path =>
        refine ⟨path, tmpl ⟨o, bin, escapeArgs o.Arguments⟩, rfl, ?_⟩
        intro w2 hw2
        have hexe2 : osExecutable w2 = .ok bin := by
          simpa [osExecutable, hw2] using hexe
        simp [darwin.Enable, hexe2, hw2, ht, darwin_path_host w w2 o hw2, hp]

theorem darwin_isEnabled_present (w : World) (o : Options) (path : GoString)
    (hp : darwin.getPlistFilePath w o = .ok path) (hn : osStat w path = none) :
    (darwin.IsEnabled w o).1 = (true, none) := by
  simp [darwin.IsEnabled, hp, hn]

theorem darwin_isEnabled_absent (w : World) (o : Options) (path : GoString)
    (hp : darwin.getPlistFilePath w o = .ok path) (hn : w.node path = .absent) :
    darwin.IsEnabled w o = ((false, none), w) := by
  simp [darwin.IsEnabled, hp, osStat, hn, IsNotExist]

theorem darwin_enable_then_isEnabled (w : World) (o : Options)
    (h : (darwin.Enable w o).1 = none) :
    (darwin.IsEnabled (darwin.Enable w o).2 o).1 = (true, none) := by
  obtain ⟨path, r, hp, hshape⟩ := darwin_enable_shape w o h
  have hE := hshape w rfl
  rw [hE] at h ⊢
  obtain ⟨_, _, hn, _, _⟩ := installFile_ok w path r _ _ _ h
  apply darwin_isEnabled_present _ o path
  · rw [darwin_path_host w _ o (by simp), hp]
  · unfold osStat; rw [hn]

theorem darwin_enable_twice (w : World) (o : Options) (h : (darwin.Enable w o).1 = none) :
    (darwin.Enable (darwin.Enable w o).2 o).1 = none ∧
      (darwin.Enable (darwin.Enable w o).2 o).2.node = (darwin.Enable w o).2.node ∧
      (darwin.Enable (darwin.Enable w o).2 o).2.svc = (darwin.Enable w o).2.svc := by
  obtain ⟨path, r, hp, hshape⟩ := darwin_enable_shape w o h
  have hE := hshape w rfl
  rw [hE] at h
  obtain ⟨hf, hr, hn, hd, _⟩ := installFile_ok w path r _ _ _ h
  rw [hE, hshape _ (by simp)]
  exact installFile_again _ path r _ _ _ hf (by simpa using hr) hn hd

@[simp] theorem osRemove_host (w : World) (p : GoString) : (osRemove w p).2.host = w.host := by
  unfold osRemove; split <;> try split
  all_goals rfl

theorem osRemove_ok (w : World) (p : GoString) (h : (osRemove w p).1 = none) :
    (osRemove w p).2.node p = .absent := by
  unfold osRemove at h ⊢
  split at h
  · simp at h
  · simp at h
  · split at h
    · simp at h
    · rename_i hr; simp [hr]

theorem darwin_disable_then_isEnabled (w : World) (o : Options) (path : GoString)
    (hp : darwin.getPlistFilePath w o = .ok path) (hstart : w.node path ≠ .blocked)
    (h : (darwin.Disable w o).1 = none) :
    (darwin.IsEnabled (darwin.Disable w o).2 o).1 = (false, none) := by
  unfold darwin.Disable at h ⊢
  simp only [hp] at h ⊢
  cases hs : osStat w path with
  | none =>
    simp only [hs, Wrapf_eq_none] at h ⊢
    rw [darwin_isEnabled_absent _ o path (by rw [darwin_path_host w _ o (by simp), hp])
      (osRemove_ok w path h)]
  | some e =>
    simp only [hs]
    have hn : w.node path = .absent := by
      unfold osStat at hs
      cases hnode : w.node path <;> simp_all
    rw [darwin_isEnabled_absent w o path hp hn]

theorem darwin_disable_absent (w : World) (o : Options) (path : GoString)
    (hp : darwin.getPlistFilePath w o = .ok path) (hn : w.node path = .absent) :
    darwin.Disable w o = (none, w) := by
  simp [darwin.Disable, hp, osStat, hn]

/-! ### Linux backend -/

theorem linux_path_host (w w2 : World) (o : Options) (h : w2.host = w.host) :
    linux.getSystemdUnitFilePath w2 o = linux.getSystemdUnitFilePath w o := by
  simp [linux.getSystemdUnitFilePath, linux.getSystemdDir, h]

@[simp] theorem cmdRun_host (w : World) (argv : List GoString) :
    (cmdRun w argv).2.host = w.host := by
  unfold cmdRun; split <;> rfl

@[simp] theorem cmdRun_node (w : World) (argv : List GoString) :
    (cmdRun w argv).2.node = w.node := by
  unfold cmdRun; split <;> rfl

@[simp] theorem cmdRun_svc (w : World) (argv : List GoString) :
    (cmdRun w argv).2.svc = w.svc := by
  unfold cmdRun; split <;> rfl

theorem cmdRun_ok_iff (w : World) (argv : List GoString) :
    (cmdRun w argv).1.1 = none ↔ w.host.run argv = .exited 0 := by
  unfold cmdRun
  cases hr : w.host.run argv with
  | startFailed => simp
  | exited code => by_cases hc : code = 0 <;> simp [hc]

theorem cmdRun_code (w : World) (argv : List GoString) (h : (cmdRun w argv).1.1 = none) :
    (cmdRun w argv).1.2 = 0 := by
  have h0 := (cmdRun_ok_iff w argv).1 h
  simp [cmdRun, h0]

@[simp] theorem systemctlRun_host (w : World) (o : Options) (a : GoString) :
    (linux.systemctlRun w o a).2.host = w.host := by
  unfold linux.systemctlRun
  split
  · rfl
  · rename_i argv _
    split <;> rename_i hc <;> have := cmdRun_host w argv <;> rw [hc] at this <;> exact this

@[simp] theorem systemctlRun_node (w : World) (o : Options) (a : GoString) :
    (linux.systemctlRun w o a).2.node = w.node := by
  unfold linux.systemctlRun
  split
  · rfl
  · rename_i argv _
    split <;> rename_i hc <;> have := cmdRun_node w argv <;> rw [hc] at this <;> exact this

@[simp] theorem systemctlRun_svc (w : World) (o : Options) (a : GoString) :
    (linux.systemctlRun w o a).2.svc = w.svc := by
  unfold linux.systemctlRun
  split
  · rfl
  · rename_i argv _
    split <;> rename_i hc <;> have := cmdRun_svc w argv <;> rw [hc] at this <;> exact this

/-- The command of `systemctlRun` succeeds exactly when it runs and exits with code 0; the
code handed back is then 0. -/
theorem systemctlRun_ok_iff (w : World) (o : Options) (a : GoString) (argv : List GoString)
    (hargv : linux.systemctlArgv o a = some argv) :
    ((linux.systemctlRun w o a).1.2 = none ↔ w.host.run argv = .exited 0) ∧
      ((linux.systemctlRun w o a).1.2 = none → (linux.systemctlRun w o a).1.1 = 0) := by
  unfold linux.systemctlRun
  simp only [hargv]
  have hiff := cmdRun_ok_iff w argv
  have hcode := cmdRun_code w argv
  cases hc : cmdRun w argv with
  | mk res w1 =>
    cases res with
    | mk e code =>
      rw [hc] at hiff hcode
      cases e with
      | some err => simp at hiff ⊢; simpa using hiff
      | none => simp at hiff hcode ⊢; exact ⟨hiff, hcode⟩

theorem systemctlRun_log (w : World) (o : Options) (a : GoString) (argv : List GoString)
    (hargv : linux.systemctlArgv o a = some argv) :
    (linux.systemctlRun w o a).2.log = w.log ++ [.exec argv] := by
  unfold linux.systemctlRun
  simp only [hargv]
  have : (cmdRun w argv).2.log = w.log ++ [.exec argv] := by
    unfold cmdRun; split <;> rfl
  split <;> rename_i hc <;> rw [hc] at this <;> exact this

theorem systemctlArgv_valid (o : Options) (a : GoString) (h : ValidMode o) :
    ∃ argv, linux.systemctlArgv o a = some argv := by
  unfold linux.systemctlArgv
  by_cases hu : o.Mode = ModeUser
  · exact ⟨_, if_pos hu⟩
  · have hs : o.Mode = ModeSystem := h.resolve_left hu
    exact ⟨_, by rw [if_neg hu, if_pos hs]⟩

theorem linux_create_shape (w : World) (o : Options)
    (h : (linux.createSystemdUnitFile w o).1 = none) :
    ∃ path r, linux.getSystemdUnitFilePath w o = .ok path ∧
      ∀ w2 : World, w2.host = w.host →
        linux.createSystemdUnitFile w2 o =
          installFile w2 path r "creating systemd directory".toList
            "creating systemd unit file".toList "rendering systemd template".toList := by
  unfold linux.createSystemdUnitFile at h
  cases hexe : osExecutable w with
  | error e => simp [hexe] at h
  | ok bin =>
    cases ht : w.host.systemdTemplate with
    | none => simp [hexe, ht] at h
    | some tmpl =>
      cases hp : linux.getSystemdUnitFilePath w o with
      | error e => simp [hexe, ht, hp] at h
      | ok path =>
        refine ⟨path, tmpl ⟨o, bin, linux.joinArgs w.host.printTable o.Arguments,
          if o.Mode = ModeSystem then "multi-user.target".toList
          else "default.target".toList⟩, rfl, ?_⟩
        intro w2 hw2
        have hexe2 : osExecutable w2 = .ok bin := by
          simpa [osExecutable, hw2] using hexe
        simp [linux.createSystemdUnitFile, hexe2, hw2, ht, linux_path_host w w2 o hw2, hp]

/-- What a successful `Enable` on Linux went through. -/
theorem linux_enable_ok (w : World) (o : Options) (h : (linux.Enable w o).1 = none) :
    (linux.createSystemdUnitFile w o).1 = none ∧
      (linux.systemctlRun (linux.createSystemdUnitFile w o).2 o "enable".toList).1.2 = none ∧
      linux.Enable w o =
        (none, (linux.systemctlRun (linux.createSystemdUnitFile w o).2 o "enable".toList).2) := by
  unfold linux.Enable at h ⊢
  split at h
  · simp at h
  · rename_i w1 hc
    split at h
    · simp at h
    · rename_i code w2 hs
      rw [hc]
      simp only
      rw [hs]
      simp

theorem linux_isEnabled_absent (w : World) (o : Options) (path : GoString)
    (hp : linux.getSystemdUnitFilePath w o = .ok path) (hn : w.node path = .absent) :
    linux.IsEnabled w o = ((false, none), w) := by
  simp [linux.IsEnabled, hp, osStat, hn, IsNotExist]

theorem systemctlRun_ok_valid (w : World) (o : Options) (a : GoString)
    (h : (linux.systemctlRun w o a).1.2 = none) : ValidMode o := by
  unfold linux.systemctlRun at h
  split at h
  · simp at h
  · rename_i argv hargv
    unfold linux.systemctlArgv at hargv
    unfold ValidMode
    by_cases hu : o.Mode = ModeUser
    · exact Or.inl hu
    · by_cases hs : o.Mode = ModeSystem
      · exact Or.inr hs
      · simp [hu, hs] at hargv

theorem linux_isEnabled_present (w : World) (o : Options) (path : GoString)
    (hp : linux.getSystemdUnitFilePath w o = .ok path) (hn : osStat w path = none)
    (hrun : (linux.systemctlRun w o "status".toList).1.2 = none)
    (hcode : (linux.systemctlRun w o "status".toList).1.1 = 0) :
    (linux.IsEnabled w o).1 = (true, none) := by
  unfold linux.IsEnabled
  rw [hp]
  simp only
  rw [hn]
  simp only
  split
  · rename_i hs; rw [hs] at hrun; simp at hrun
  · rename_i hs; rw [hs] at hcode; simp at hcode; simp [hcode]

theorem linux_enable_then_isEnabled (w : World) (o : Options)
    (h : (linux.Enable w o).1 = none)
    (hstatus : ∀ argv, linux.systemctlArgv o "status".toList = some argv →
      w.host.run argv = .exited 0) :
    (linux.IsEnabled (linux.Enable w o).2 o).1 = (true, none) := by
  obtain ⟨hc, hs, hE⟩ := linux_enable_ok w o h
  obtain ⟨path, r, hp, hshape⟩ := linux_create_shape w o hc
  have hC := hshape w rfl
  have hvalid := systemctlRun_ok_valid _ o _ hs
  obtain ⟨argv, hargv⟩ := systemctlArgv_valid o "status".toList hvalid
  rw [hE]
  simp only
  have hhost : (linux.systemctlRun (linux.createSystemdUnitFile w o).2 o
      "enable".toList).2.host = w.host := by
    rw [systemctlRun_host, hC, installFile_host]
  obtain ⟨hiff, hcode⟩ := systemctlRun_ok_iff
    (linux.systemctlRun (linux.createSystemdUnitFile w o).2 o "enable".toList).2 o
    "status".toList argv hargv
  have hrun := hiff.2 (by rw [hhost]; exact hstatus argv hargv)
  apply linux_isEnabled_present _ o path _ _ hrun (hcode hrun)
  · rw [linux_path_host w _ o hhost, hp]
  · rw [hC] at hc
    obtain ⟨_, _, hn, _, _⟩ := installFile_ok w path r _ _ _ hc
    unfold osStat
    rw [systemctlRun_node, hC, hn]

theorem linux_enable_twice (w : World) (o : Options) (h : (linux.Enable w o).1 = none) :
    (linux.Enable (linux.Enable w o).2 o).1 = none ∧
      (linux.Enable (linux.Enable w o).2 o).2.node = (linux.Enable w o).2.node ∧
      (linux.Enable (linux.Enable w o).2 o).2.svc = (linux.Enable w o).2.svc := by
  obtain ⟨hc, hs, hE⟩ := linux_enable_ok w o h
  obtain ⟨path, r, hp, hshape⟩ := linux_create_shape w o hc
  have hC := hshape w rfl
  have hvalid := systemctlRun_ok_valid _ o _ hs
  obtain ⟨argv, hargv⟩ := systemctlArgv_valid o "enable".toList hvalid
  have hrun0 := (systemctlRun_ok_iff _ o _ argv hargv).1.1 hs
  rw [hC] at hc
  obtain ⟨hf, hr, hn, hd, _⟩ := installFile_ok w path r _ _ _ hc
  generalize hw2 : (linux.Enable w o).2 = w2
  have hw2host : w2.host = w.host := by rw [← hw2, hE]; simp [hC]
  have hw2node : w2.node = (installFile w path r "creating systemd directory".toList
      "creating systemd unit file".toList "rendering systemd template".toList).2.node := by
    rw [← hw2, hE]; simp [hC]
  have hC2 := hshape w2 hw2host
  obtain ⟨h1, h2, h3⟩ := installFile_again w2 path r "creating systemd directory".toList
    "creating systemd unit file".toList "rendering systemd template".toList hf
    (by rw [hw2host]; exact hr) (by rw [hw2node]; exact hn) (by rw [hw2node]; exact hd)
  have hrun2 : (linux.systemctlRun (linux.createSystemdUnitFile w2 o).2 o
      "enable".toList).1.2 = none := by
    apply (systemctlRun_ok_iff _ o _ argv hargv).1.2
    rw [hC2, installFile_host, hw2host]
    simpa [hC] using hrun0
  unfold linux.Enable
  split
  · rename_i e w3 hc3; rw [hC2] at hc3; rw [hc3] at h1; simp at h1
  · rename_i w3 hc3
    have hw3 : (linux.createSystemdUnitFile w2 o).2 = w3 := by rw [hc3]
    rw [hw3] at hrun2
    split
    · rename_i e w4 hs4; rw [hs4] at hrun2; simp at hrun2
    · rename_i code w4 hs4
      have hw4 : (linux.systemctlRun w3 o "enable".toList).2 = w4 := by rw [hs4]
      refine ⟨rfl, ?_, ?_⟩
      · simp only; rw [← hw4, systemctlRun_node, ← hw3, hC2, h2]
      · simp only; rw [← hw4, systemctlRun_svc, ← hw3, hC2, h3]

theorem linux_disable_then_isEnabled (w : World) (o : Options) (path : GoString)
    (hp : linux.getSystemdUnitFilePath w o = .ok path) (hstart : w.node path ≠ .blocked)
    (h : (linux.Disable w o).1 = none) :
    (linux.IsEnabled (linux.Disable w o).2 o).1 = (false, none) := by
  unfold linux.Disable at h ⊢
  split at h
  · simp at h
  · rename_i code w1 hs
    have hw1 : (linux.systemctlRun w o "disable".toList).2 = w1 := by rw [hs]
    have hhost : w1.host = w.host := by rw [← hw1]; simp
    have hnode : w1.node = w.node := by rw [← hw1]; simp
    have hp1 : linux.getSystemdUnitFilePath w1 o = .ok path := by
      rw [linux_path_host w w1 o hhost, hp]
    rw [hp1] at h ⊢
    simp only at h ⊢
    cases hst : osStat w1 path with
    | none =>
      rw [hst] at h
      simp only at h ⊢
      split at h
      · simp at h
      · rename_i w2 hrm
        have hw2 : (osRemove w1 path).2 = w2 := by rw [hrm]
        have habs : w2.node path = .absent := by
          rw [← hw2]; exact osRemove_ok w1 path (by rw [hrm])
        have hp2 : linux.getSystemdUnitFilePath w2 o = .ok path := by
          rw [linux_path_host w1 w2 o (by rw [← hw2]; simp), hp1]
        rw [linux_isEnabled_absent w2 o path hp2 habs]
    | some e =>
      simp only
      have habs : w1.node path = .absent := by
        unfold osStat at hst
        rw [hnode] at hst ⊢
        cases hnn : w.node path <;> simp_all
      rw [linux_isEnabled_absent w1 o path hp1 habs]

/-- `Disable` on Linux where no unit file is: the file system and the service database stay
as they were, the `disable` command is run all the same, and its outcome decides the result. -/
theorem linux_disable_absent (w : World) (o : Options) (path : GoString)
    (argv : List GoString) (hp : linux.getSystemdUnitFilePath w o = .ok path)
    (hargv : linux.systemctlArgv o "disable".toList = some argv)
    (hn : w.node path = .absent) :
    (linux.Disable w o).2.node = w.node ∧ (linux.Disable w o).2.svc = w.svc ∧
      (linux.Disable w o).2.log = w.log ++ [.exec argv] ∧
      ((linux.Disable w o).1 = none ↔ w.host.run argv = .exited 0) := by
  have hiff := (systemctlRun_ok_iff w o "disable".toList argv hargv).1
  have hlog := systemctlRun_log w o "disable".toList argv hargv
  unfold linux.Disable
  split
  · rename_i e w1 hs
    have hw1 : (linux.systemctlRun w o "disable".toList).2 = w1 := by rw [hs]
    rw [hs] at hiff
    refine ⟨by rw [← hw1]; simp, by rw [← hw1]; simp, by rw [← hw1]; exact hlog, ?_⟩
    simp only [Wrapf_eq_none]
    simpa using hiff
  · rename_i code w1 hs
    have hw1 : (linux.systemctlRun w o "disable".toList).2 = w1 := by rw [hs]
    rw [hs] at hiff
    have hhost : w1.host = w.host := by rw [← hw1]; simp
    have hnode : w1.node = w.node := by rw [← hw1]; simp
    have hp1 : linux.getSystemdUnitFilePath w1 o = .ok path := by
      rw [linux_path_host w w1 o hhost, hp]
    have hst : osStat w1 path = some (.notExist path) := by
      unfold osStat; rw [hnode, hn]
    rw [hp1]
    simp only
    rw [hst]
    simp only
    refine ⟨hnode, by rw [← hw1]; simp, by rw [← hw1]; exact hlog, ?_⟩
    simpa using hiff

/-! ### Windows backend, user scope -/

theorem osStat_congr (w w2 : World) (p : GoString) (h : w2.node p = w.node p) :
    osStat w2 p = osStat w p := by
  unfold osStat; rw [h]

theorem osMkdirAll_keeps_present (w : World) (p q : GoString)
    (hq : osStat w q = none) (h : (osMkdirAll w p).1 = none) :
    osStat (osMkdirAll w p).2 q = none := by
  obtain ⟨hd, hother⟩ := osMkdirAll_ok w p h
  by_cases hqp : q = p
  · subst hqp; unfold osStat; rw [hd]
  · rw [osStat_congr w _ q (hother q hqp)]; exact hq

theorem osMkdirAll_of_dir (w : World) (p : GoString) (h : w.node p = .dir) :
    osMkdirAll w p = (none, w.emit (.mkdirAll p)) := by
  unfold osMkdirAll; rw [h]

theorem windows_lnk_host (w w2 : World) (o : Options) (h : w2.host = w.host) :
    windows.getUserStartupLinkPath w2 o = windows.getUserStartupLinkPath w o ∧
      windows.getUserStartupDir w2 = windows.getUserStartupDir w ∧
      windows.joinArgs w2 o.Arguments = windows.joinArgs w o.Arguments := by
  simp [windows.getUserStartupLinkPath, windows.getUserStartupDir, windows.joinArgs, h]

theorem EvalSymlinks_ok (w : World) (p q : GoString) (h : EvalSymlinks w p = .ok q) :
    w.host.resolve p = some q ∧ osStat w q = none := by
  unfold EvalSymlinks at h
  split at h
  · rename_i q2 hr
    split at h
    · rename_i hs
      have : q2 = q := by simpa using h
      subst this
      exact ⟨hr, hs⟩
    · simp at h
  · simp at h

theorem EvalSymlinks_of (w : World) (p q : GoString) (hr : w.host.resolve p = some q)
    (hs : osStat w q = none) : EvalSymlinks w p = .ok q := by
  unfold EvalSymlinks; rw [hr]; simp only; rw [hs]

/-- What a successful `enableUser` went through: the executable resolved to an existing
file, the Startup directory is in place, and then either the executable is the shortcut
itself and nothing more is done, or the native call answered 0 and left the shortcut. -/
theorem windows_enableUser_ok (w : World) (o : Options)
    (h : (windows.enableUser w o).1 = none) :
    ∃ bin0 bin, w.host.executable = some bin0 ∧ w.host.resolve bin0 = some bin ∧
      osStat w bin = none ∧ (osMkdirAll w (windows.getUserStartupDir w)).1 = none ∧
      ((bin = windows.getUserStartupLinkPath w o ∧
          windows.enableUser w o = (none, (osMkdirAll w (windows.getUserStartupDir w)).2)) ∨
       (bin ≠ windows.getUserStartupLinkPath w o ∧
          w.host.shortcutStatus (windows.getUserStartupLinkPath w o) bin
            (windows.joinArgs w o.Arguments) = 0 ∧
          windows.enableUser w o =
            (none, shortcutWorld (osMkdirAll w (windows.getUserStartupDir w)).2
              (windows.getUserStartupLinkPath w o) bin (windows.joinArgs w o.Arguments)))) := by
  unfold windows.enableUser at h ⊢
  cases hexe : w.host.executable with
  | none => simp [osExecutable, hexe] at h
  | some bin0 =>
    have hexe2 : osExecutable w = .ok bin0 := by simp [osExecutable, hexe]
    rw [hexe2] at h ⊢
    simp only at h ⊢
    cases hev : EvalSymlinks w bin0 with
    | error e => rw [hev] at h; simp at h
    | ok bin =>
      obtain ⟨hres, hst⟩ := EvalSymlinks_ok w bin0 bin hev
      rw [hev] at h
      simp only at h ⊢
      cases hmk : osMkdirAll w (windows.getUserStartupDir w) with
      | mk me w1 =>
        have hw1 : (osMkdirAll w (windows.getUserStartupDir w)).2 = w1 := by rw [hmk]
        have hh1 : w1.host = w.host := by rw [← hw1]; simp
        obtain ⟨hl, _, ha⟩ := windows_lnk_host w w1 o hh1
        cases me with
        | some e => rw [hmk] at h; simp at h
        | none =>
          rw [hmk] at h
          simp only at h ⊢
          refine ⟨bin0, bin, by simp, hres, hst, by simp, ?_⟩
          rw [hl, ha] at h ⊢
          by_cases hb : bin = windows.getUserStartupLinkPath w o
          · left
            refine ⟨hb, ?_⟩
            rw [if_pos hb]
            simp
          · right
            rw [if_neg hb] at h ⊢
            unfold windows.CreateShortcut at h ⊢
            simp only [hh1] at h ⊢
            by_cases hs0 : w.host.shortcutStatus (windows.getUserStartupLinkPath w o) bin
                (windows.joinArgs w o.Arguments) = 0
            · refine ⟨hb, hs0, ?_⟩
              rw [if_pos hs0]
              rfl
            · rw [if_neg hs0] at h
              exfalso
              revert h
              cases hsv : w.host.shortcutStatus (windows.getUserStartupLinkPath w o) bin
                (windows.joinArgs w o.Arguments) with
              | zero => exact absurd hsv hs0
              | succ n => simp

theorem windows_enableUser_self (w : World) (o : Options) (bin0 bin : GoString)
    (hexe : w.host.executable = some bin0) (hres : w.host.resolve bin0 = some bin)
    (hst : osStat w bin = none)
    (hmk : (osMkdirAll w (windows.getUserStartupDir w)).1 = none)
    (hb : bin = windows.getUserStartupLinkPath w o) :
    windows.enableUser w o = (none, (osMkdirAll w (windows.getUserStartupDir w)).2) := by
  have hexe2 : osExecutable w = .ok bin0 := by simp [osExecutable, hexe]
  have hev := EvalSymlinks_of w bin0 bin hres hst
  unfold windows.enableUser
  rw [hexe2]
  simp only
  rw [hev]
  simp only
  cases hm : osMkdirAll w (windows.getUserStartupDir w) with
  | mk me w1 =>
    rw [hm] at hmk
    simp only at hmk
    subst hmk
    have hw1 : (osMkdirAll w (windows.getUserStartupDir w)).2 = w1 := by rw [hm]
    have hh1 : w1.host = w.host := by rw [← hw1]; simp
    obtain ⟨hl, _, _⟩ := windows_lnk_host w w1 o hh1
    simp only
    rw [hl, if_pos hb]
    simp

theorem windows_enableUser_create (w : World) (o : Options) (bin0 bin : GoString)
    (hexe : w.host.executable = some bin0) (hres : w.host.resolve bin0 = some bin)
    (hst : osStat w bin = none)
    (hmk : (osMkdirAll w (windows.getUserStartupDir w)).1 = none)
    (hb : bin ≠ windows.getUserStartupLinkPath w o)
    (hs0 : w.host.shortcutStatus (windows.getUserStartupLinkPath w o) bin
      (windows.joinArgs w o.Arguments) = 0) :
    windows.enableUser w o =
      (none, shortcutWorld (osMkdirAll w (windows.getUserStartupDir w)).2
        (windows.getUserStartupLinkPath w o) bin (windows.joinArgs w o.Arguments)) := by
  have hexe2 : osExecutable w = .ok bin0 := by simp [osExecutable, hexe]
  have hev := EvalSymlinks_of w bin0 bin hres hst
  unfold windows.enableUser
  rw [hexe2]
  simp only
  rw [hev]
  simp only
  cases hm : osMkdirAll w (windows.getUserStartupDir w) with
  | mk me w1 =>
    rw [hm] at hmk
    simp only at hmk
    subst hmk
    have hw1 : (osMkdirAll w (windows.getUserStartupDir w)).2 = w1 := by rw [hm]
    have hh1 : w1.host = w.host := by rw [← hw1]; simp
    obtain ⟨hl, _, ha⟩ := windows_lnk_host w w1 o hh1
    simp only
    rw [hl, ha, if_neg hb]
    unfold windows.CreateShortcut
    simp only [hh1]
    rw [if_pos hs0]
    rfl

theorem windows_isEnabledUser_present (w : World) (o : Options)
    (h : osStat w (windows.getUserStartupLinkPath w o) = none) :
    windows.isEnabledUser w o = ((true, none), w) := by
  unfold windows.isEnabledUser; rw [h]

theorem windows_isEnabledUser_absent (w : World) (o : Options)
    (h : w.node (windows.getUserStartupLinkPath w o) = .absent) :
    windows.isEnabledUser w o = ((false, none), w) := by
  unfold windows.isEnabledUser osStat; rw [h]; simp [IsNotExist]

theorem windows_enableUser_then_isEnabled (w : World) (o : Options)
    (h : (windows.enableUser w o).1 = none) :
    (windows.isEnabledUser (windows.enableUser w o).2 o).1 = (true, none) := by
  obtain ⟨bin0, bin, _, _, hst, hmk, hcase⟩ := windows_enableUser_ok w o h
  rcases hcase with ⟨hb, hE⟩ | ⟨hb, hs0, hE⟩
  · rw [hE]
    simp only
    rw [windows_isEnabledUser_present]
    rw [(windows_lnk_host w _ o (osMkdirAll_host w _)).1, ← hb]
    exact osMkdirAll_keeps_present w _ bin hst hmk
  · rw [hE]
    simp only
    rw [windows_isEnabledUser_present]
    have hl := (windows_lnk_host w (shortcutWorld (osMkdirAll w (windows.getUserStartupDir w)).2
      (windows.getUserStartupLinkPath w o) bin (windows.joinArgs w o.Arguments)) o
      (by simp [shortcutWorld])).1
    rw [hl]
    unfold osStat shortcutWorld
    rw [setNode_node_self]

theorem windows_enableUser_twice (w : World) (o : Options)
    (hne : windows.getUserStartupLinkPath w o ≠ windows.getUserStartupDir w)
    (h : (windows.enableUser w o).1 = none) :
    (windows.enableUser (windows.enableUser w o).2 o).1 = none ∧
      (windows.enableUser (windows.enableUser w o).2 o).2.node =
        (windows.enableUser w o).2.node ∧
      (windows.enableUser (windows.enableUser w o).2 o).2.svc =
        (windows.enableUser w o).2.svc := by
  obtain ⟨bin0, bin, hexe, hres, hst, hmk, hcase⟩ := windows_enableUser_ok w o h
  obtain ⟨hdir, hother⟩ := osMkdirAll_ok w _ hmk
  generalize hw1 : (windows.enableUser w o).2 = w1 at *
  have hdir1 : w1.node (windows.getUserStartupDir w) = .dir := by
    rcases hcase with ⟨hb, hE⟩ | ⟨hb, hs0, hE⟩
    · rw [← hw1, hE]; exact hdir
    · rw [← hw1, hE]
      simp only [shortcutWorld]
      rw [setNode_node_other _ _ _ _ hne.symm]
      exact hdir
  have hh1 : w1.host = w.host := by
    rcases hcase with ⟨hb, hE⟩ | ⟨hb, hs0, hE⟩
    · rw [← hw1, hE]; simp
    · rw [← hw1, hE]; simp [shortcutWorld]
  have hst1 : osStat w1 bin = none := by
    rcases hcase with ⟨hb, hE⟩ | ⟨hb, hs0, hE⟩
    · rw [← hw1, hE]; exact osMkdirAll_keeps_present w _ bin hst hmk
    · rw [← hw1, hE]
      simp only [shortcutWorld]
      rw [osStat_congr (osMkdirAll w (windows.getUserStartupDir w)).2 _ bin
        (by rw [setNode_node_other _ _ _ _ hb]; rfl)]
      exact osMkdirAll_keeps_present w _ bin hst hmk
  obtain ⟨hl, hd, ha⟩ := windows_lnk_host w w1 o hh1
  have hmk1 : osMkdirAll w1 (windows.getUserStartupDir w1) =
      (none, w1.emit (.mkdirAll (windows.getUserStartupDir w1))) := by
    rw [hd]; exact osMkdirAll_of_dir w1 _ hdir1
  rcases hcase with ⟨hb, hE⟩ | ⟨hb, hs0, hE⟩
  · rw [windows_enableUser_self w1 o bin0 bin (by rw [hh1]; exact hexe)
      (by rw [hh1]; exact hres) hst1 (by rw [hmk1]) (by rw [hl]; exact hb), hmk1]
    simp
  · rw [windows_enableUser_create w1 o bin0 bin (by rw [hh1]; exact hexe)
      (by rw [hh1]; exact hres) hst1 (by rw [hmk1]) (by rw [hl]; exact hb)
      (by rw [hh1, hl, ha]; exact hs0), hmk1]
    have hlnk1 : w1.node (windows.getUserStartupLinkPath w o) =
        .shortcut bin (windows.joinArgs w o.Arguments) := by
      rw [← hw1, hE]
      simp only [shortcutWorld]
      rw [setNode_node_self]
    refine ⟨rfl, ?_, by simp [shortcutWorld]⟩
    simp only [shortcutWorld]
    funext q
    by_cases hq : q = windows.getUserStartupLinkPath w1 o
    · rw [hq, setNode_node_self, hl, ha, hlnk1]
    · rw [setNode_node_other _ _ _ _ hq]; rfl

theorem windows_disableUser_then_isEnabled (w : World) (o : Options)
    (hstart : w.node (windows.getUserStartupLinkPath w o) ≠ .blocked)
    (h : (windows.disableUser w o).1 = none) :
    (windows.isEnabledUser (windows.disableUser w o).2 o).1 = (false, none) := by
  unfold windows.disableUser at h ⊢
  simp only at h ⊢
  cases hs : osStat w (windows.getUserStartupLinkPath w o) with
  | none =>
    rw [hs] at h
    simp only at h ⊢
    rw [windows_isEnabledUser_absent]
    rw [(windows_lnk_host w _ o (osRemove_host w _)).1]
    exact osRemove_ok w _ h
  | some e =>
    simp only
    rw [windows_isEnabledUser_absent]
    unfold osStat at hs
    cases hn : w.node (windows.getUserStartupLinkPath w o) <;> simp_all

theorem windows_disableUser_absent (w : World) (o : Options)
    (hn : w.node (windows.getUserStartupLinkPath w o) = .absent) :
    windows.disableUser w o = (none, w) := by
  unfold windows.disableUser osStat
  simp only
  rw [hn]

/-! ### Windows backend, system scope -/

theorem isEnabledAdmin_eq (w : World) (o : Options) :
    (windows.isEnabledAdmin w o).1 =
      if w.host.connectOk then
        (match w.svc o.Label with
          | .present _ => (true, none)
          | _ => (false, none))
      else (false, Wrapf (some (.os "OpenSCManager".toList))
        "connecting to service manager".toList) := by
  unfold windows.isEnabledAdmin windows.mgrConnect windows.OpenService
  by_cases hc : w.host.connectOk = true
  · simp only [hc, if_true, emit_svc]
    cases hs : w.svc o.Label <;> rfl
  · simp only [hc, if_false]
    rfl

@[simp] theorem isEnabledAdmin_svc (w : World) (o : Options) :
    (windows.isEnabledAdmin w o).2.svc = w.svc := by
  unfold windows.isEnabledAdmin windows.mgrConnect windows.OpenService
  by_cases hc : w.host.connectOk = true
  · simp only [hc, if_true, emit_svc]
    cases hs : w.svc o.Label <;> rfl
  · simp only [hc, if_false]
    rfl

/-- What a successful `enableAdmin` needed and left. -/
theorem windows_enableAdmin_ok (w : World) (o : Options)
    (h : (windows.enableAdmin w o).1 = none) :
    w.host.connectOk = true ∧ w.svc o.Label = .absent ∧
      (windows.enableAdmin w o).2.host = w.host ∧
      (windows.enableAdmin w o).2.node = w.node ∧
      ∃ bin, w.host.executable = some bin ∧
        (windows.enableAdmin w o).2.svc o.Label = .present (registeredService o bin) := by
  unfold windows.enableAdmin windows.mgrConnect at h ⊢
  by_cases hc : w.host.connectOk = true
  · simp only [hc, if_true] at h ⊢
    cases hexe : w.host.executable with
    | none => simp [osExecutable, hexe] at h
    | some bin =>
      have hexe2 : osExecutable (w.emit .mgrConnect) = .ok bin := by
        simp [osExecutable, hexe]
      rw [hexe2] at h ⊢
      simp only at h ⊢
      unfold windows.CreateService at h ⊢
      simp only [emit_svc, emit_host] at h ⊢
      cases hs : w.svc o.Label with
      | present s => rw [hs] at h; simp at h
      | blocked => rw [hs] at h; simp at h
      | absent =>
        rw [hs] at h
        simp only at h ⊢
        by_cases hr : w.host.createServiceRefused o.Label = true
        · rw [if_pos hr] at h; simp at h
        · rw [if_neg hr] at h ⊢
          simp only at h ⊢
          unfold windows.SetRecoveryActions at h ⊢
          simp only [setSvc_svc_self, setSvc_host, emit_host] at h ⊢
          by_cases hr2 : w.host.setRecoveryRefused o.Label = true
          · rw [if_pos hr2] at h; simp at h
          · rw [if_neg hr2]
            refine ⟨trivial, trivial, rfl, rfl, bin, rfl, ?_⟩
            simp [registeredService]
  · simp [hc] at h

theorem windows_enableAdmin_then_isEnabled (w : World) (o : Options)
    (h : (windows.enableAdmin w o).1 = none) :
    (windows.isEnabledAdmin (windows.enableAdmin w o).2 o).1 = (true, none) := by
  obtain ⟨hc, _, hh, _, bin, _, hs⟩ := windows_enableAdmin_ok w o h
  rw [isEnabledAdmin_eq, hh, if_pos hc, hs]

/-- A second `enableAdmin` fails at `CreateService` and leaves the service as it was. -/
theorem windows_enableAdmin_again (w : World) (o : Options) (s : Service)
    (hs : w.svc o.Label = .present s) :
    (windows.enableAdmin w o).1 ≠ none ∧ (windows.enableAdmin w o).2.svc = w.svc ∧
      (windows.enableAdmin w o).2.node = w.node := by
  unfold windows.enableAdmin windows.mgrConnect
  by_cases hc : w.host.connectOk = true
  · simp only [hc, if_true]
    cases hexe : osExecutable (w.emit .mgrConnect) with
    | error e => simp [Wrapf]
    | ok bin =>
      simp only
      unfold windows.CreateService
      simp only [emit_svc]
      rw [hs]
      simp [Wrapf]
  · simp only [hc, if_false]
    simp [Wrapf]

theorem windows_disableAdmin_then_isEnabled (w : World) (o : Options)
    (h : (windows.disableAdmin w o).1 = none) :
    (windows.isEnabledAdmin (windows.disableAdmin w o).2 o).1 = (false, none) := by
  unfold windows.disableAdmin windows.mgrConnect at h ⊢
  by_cases hc : w.host.connectOk = true
  · simp only [hc, if_true] at h ⊢
    unfold windows.OpenService at h ⊢
    simp only [emit_svc] at h ⊢
    cases hs : w.svc o.Label with
    | absent =>
      simp only
      rw [isEnabledAdmin_eq]
      simp [hc, hs]
    | blocked =>
      simp only
      rw [isEnabledAdmin_eq]
      simp [hc, hs]
    | present s =>
      rw [hs] at h
      simp only [Wrapf_eq_none] at h ⊢
      unfold windows.DeleteService at h ⊢
      by_cases hd : w.host.deleteRefused o.Label = true
      · simp [hd] at h
      · rw [isEnabledAdmin_eq]
        simp [hd, hc]
  · simp [hc] at h

/-- `disableAdmin` where no service is registered: nothing changes, and the result is nil
exactly when the service manager can be reached. -/
theorem windows_disableAdmin_absent (w : World) (o : Options) (hs : w.svc o.Label = .absent) :
    (windows.disableAdmin w o).2.node = w.node ∧ (windows.disableAdmin w o).2.svc = w.svc ∧
      ((windows.disableAdmin w o).1 = none ↔ w.host.connectOk = true) := by
  unfold windows.disableAdmin windows.mgrConnect
  by_cases hc : w.host.connectOk = true
  · simp only [hc, if_true]
    unfold windows.OpenService
    simp only [emit_svc]
    rw [hs]
    simp
  · simp only [hc, if_false]
    simp

/-! ### Quoting for the unit file -/

theorem quoteRune_literal (tbl : Nat → Bool) (c : Char) (h : ShellLiteral tbl c) :
    quoteRune tbl c = if c = '"' ∨ c = '\\' then ['\\', c] else [c] := by
  unfold quoteRune
  by_cases hq : c = '"' ∨ c = '\\'
  · rw [if_pos hq, if_pos hq]
  · rw [if_neg hq, if_neg hq, if_pos h.1]

theorem shellSplitGo_dq_body (tbl : Nat → Bool) (a : GoString)
    (h : ∀ c ∈ a, ShellLiteral tbl c) :
    ∀ (cur : GoString) (done : List GoString) (rest : GoString),
      shellSplitGo .dq cur done (quoteBody tbl a ++ rest) =
        shellSplitGo .dq (cur ++ a) done rest := by
  induction a with
  | nil => intro cur done rest; simp [quoteBody]
  | cons c cs ih =>
    intro cur done rest
    have hc : ShellLiteral tbl c := h c (by simp)
    have hcs : ∀ d ∈ cs, ShellLiteral tbl d := fun d hd => h d (by simp [hd])
    have hexp : startsExpansion c = false := by
      simp [startsExpansion, hc.2.1, hc.2.2]
    simp only [quoteBody, quoteRune_literal tbl c hc]
    by_cases hq : c = '"'
    · subst hq
      simp [shellSplitGo, ih hcs]
    · by_cases hb : c = '\\'
      · subst hb
        simp [shellSplitGo, ih hcs]
      · simp [hq, hb, shellSplitGo, hexp, ih hcs]

theorem shellSplitGo_quoted (tbl : Nat → Bool) (a : GoString)
    (h : ∀ c ∈ a, ShellLiteral tbl c) (done : List GoString) (rest : GoString) :
    shellSplitGo .between [] done (Quote tbl a ++ rest) = shellSplitGo .bare a done rest := by
  unfold Quote
  have h1 : shellSplitGo .between [] done ('"' :: quoteBody tbl a ++ ['"'] ++ rest) =
      shellSplitGo .dq [] done (quoteBody tbl a ++ ('"' :: rest)) := by
    simp [shellSplitGo, isShellBlank]
  rw [h1, shellSplitGo_dq_body tbl a h]
  simp [shellSplitGo]

theorem shellSplitGo_joinArgs (tbl : Nat → Bool) (args : List GoString)
    (h : ∀ a ∈ args, ∀ c ∈ a, ShellLiteral tbl c) :
    ∀ done : List GoString,
      shellSplitGo .between [] done (linux.joinArgs tbl args) = some (done ++ args) := by
  induction args with
  | nil => intro done; simp [linux.joinArgs, stringsJoin, shellSplitGo]
  | cons a rest ih =>
    intro done
    have ha : ∀ c ∈ a, ShellLiteral tbl c := h a (by simp)
    have hrest : ∀ b ∈ rest, ∀ c ∈ b, ShellLiteral tbl c := fun b hb => h b (by simp [hb])
    cases rest with
    | nil =>
      have hq := shellSplitGo_quoted tbl a ha done []
      simp only [List.append_nil] at hq
      have hj : linux.joinArgs tbl [a] = Quote tbl a := by simp [linux.joinArgs, stringsJoin]
      rw [hj, hq]
      simp [shellSplitGo]
    | cons b more =>
      have hj : linux.joinArgs tbl (a :: b :: more) =
          Quote tbl a ++ (' ' :: linux.joinArgs tbl (b :: more)) := by
        simp [linux.joinArgs, stringsJoin]
      rw [hj, shellSplitGo_quoted tbl a ha]
      have := ih hrest (done ++ [a])
      simp [shellSplitGo, isShellBlank, this]

theorem shellSplit_joinArgs_literal (tbl : Nat → Bool) (args : List GoString)
    (h : ∀ a ∈ args, ∀ c ∈ a, ShellLiteral tbl c) :
    shellSplit (linux.joinArgs tbl args) = some args := by
  have := shellSplitGo_joinArgs tbl args h []
  simpa [shellSplit] using this

/-! ### Data directories -/

theorem splitSlash_ne_nil (s : GoString) : splitSlash s ≠ [] := by
  cases s with
  | nil => simp [splitSlash]
  | cons c cs =>
    simp only [splitSlash]
    split
    · simp
    · split <;> simp

theorem splitSlash_append_slash (a b : GoString) :
    splitSlash (a ++ '/' :: b) = splitSlash a ++ splitSlash b := by
  induction a with
  | nil => simp [splitSlash]
  | cons c cs ih =>
    by_cases hc : c = '/'
    · simp [splitSlash, hc, ih]
    · show splitSlash (c :: (cs ++ '/' :: b)) = splitSlash (c :: cs) ++ splitSlash b
      simp only [splitSlash, hc, if_false]
      rw [ih]
      cases hA : splitSlash cs with
      | nil => exact absurd hA (splitSlash_ne_nil cs)
      | cons x xs => simp

theorem splitSlash_noslash (c : GoString) (h : '/' ∉ c) : splitSlash c = [c] := by
  induction c with
  | nil => rfl
  | cons x xs ih =>
    have hx : x ≠ '/' := fun e => h (by simp [e])
    have hxs : '/' ∉ xs := fun e => h (by simp [e])
    simp [splitSlash, hx, ih hxs]

theorem cleanStep_plain (r : Bool) (st : List GoString) (c : GoString) (h : PlainComp c) :
    cleanStep r st c = c :: st := by
  obtain ⟨h1, _, h3, h4⟩ := h
  simp [cleanStep, h1, h3, h4]

theorem foldl_cleanStep_plain (r : Bool) (L : List GoString) (hL : ∀ c ∈ L, PlainComp c) :
    ∀ st, L.foldl (cleanStep r) st = L.reverse ++ st := by
  induction L with
  | nil => intro st; rfl
  | cons c cs ih =>
    intro st
    have hc : PlainComp c := hL c (by simp)
    have hcs : ∀ d ∈ cs, PlainComp d := fun d hd => hL d (by simp [hd])
    simp [List.foldl, cleanStep_plain r st c hc, ih hcs]

theorem joinSlash_append (R L : List GoString) (hL : L ≠ []) :
    joinSlash (R ++ L) = (if R = [] then [] else joinSlash R ++ ['/']) ++ joinSlash L := by
  induction R with
  | nil => simp
  | cons x xs ih =>
    cases xs with
    | nil =>
      cases L with
      | nil => exact absurd rfl hL
      | cons y ys => simp [joinSlash]
    | cons z zs =>
      simp only [List.cons_append, joinSlash] at ih ⊢
      simp [ih]

theorem joinSlash_ne_nil (L : List GoString) (hL : L ≠ []) (hc : ∀ c ∈ L, c ≠ []) :
    joinSlash L ≠ [] := by
  cases L with
  | nil => exact absurd rfl hL
  | cons x xs =>
    have hx : x ≠ [] := hc x (by simp)
    cases xs with
    | nil => simpa [joinSlash] using hx
    | cons y ys => simp [joinSlash, hx]

theorem Clean_of_split (path : GoString) (A L : List GoString) (hp : path ≠ [])
    (hs : splitSlash path = A ++ L) (hL : L ≠ []) (hplain : ∀ c ∈ L, PlainComp c) :
    Clean path = cleanLead (isRooted path) A ++ joinSlash L := by
  have hne : joinSlash L ≠ [] := joinSlash_ne_nil L hL (fun c hc => (hplain c hc).1)
  unfold Clean cleanLead
  simp only [hp, if_false, hs, List.foldl_append, foldl_cleanStep_plain _ L hplain,
    List.reverse_append, List.reverse_reverse, joinSlash_append _ L hL]
  cases hr : isRooted path
  · simp [hne]
  · simp

theorem splitSlash_joinSlash_plain (L : List GoString) (hL : L ≠ [])
    (hplain : ∀ c ∈ L, PlainComp c) : splitSlash (joinSlash L) = L := by
  induction L with
  | nil => exact absurd rfl hL
  | cons x xs ih =>
    have hx : PlainComp x := hplain x (by simp)
    cases xs with
    | nil => simpa [joinSlash] using splitSlash_noslash x hx.2.1
    | cons y ys =>
      have hrest : ∀ c ∈ y :: ys, PlainComp c := fun c hc => hplain c (by simp [hc])
      simp only [joinSlash]
      rw [splitSlash_append_slash, splitSlash_noslash x hx.2.1, ih (by simp) hrest]
      rfl

theorem isRooted_append (e t : GoString) (he : e ≠ []) : isRooted (e ++ t) = isRooted e := by
  cases e with
  | nil => exact absurd rfl he
  | cons c cs => by_cases hc : c = '/' <;> simp [isRooted, hc]

theorem isRooted_joinSlash_plain (L : List GoString) (hL : L ≠ [])
    (hplain : ∀ c ∈ L, PlainComp c) : isRooted (joinSlash L) = false := by
  cases L with
  | nil => exact absurd rfl hL
  | cons x xs =>
    have hx : PlainComp x := hplain x (by simp)
    cases x with
    | nil => exact absurd rfl hx.1
    | cons c cs =>
      have hc : c ≠ '/' := fun e => hx.2.1 (by simp [e])
      cases xs <;> simp [joinSlash, isRooted, hc]

/-- `Join` of a leading element followed by plain components. -/
theorem Join_cons_plain (e : GoString) (L : List GoString) (hL : L ≠ [])
    (hplain : ∀ c ∈ L, PlainComp c) :
    Join (e :: L) =
      (if e = [] then [] else cleanLead (isRooted e) (splitSlash e)) ++ joinSlash L := by
  have hne : joinSlash L ≠ [] := joinSlash_ne_nil L hL (fun c hc => (hplain c hc).1)
  by_cases he : e = []
  · subst he
    cases L with
    | nil => exact absurd rfl hL
    | cons x xs =>
      have hx : x ≠ [] := (hplain x (by simp)).1
      simp only [Join, if_true, hx, if_false]
      rw [Clean_of_split (joinSlash (x :: xs)) [] (x :: xs) hne
        (by simpa using splitSlash_joinSlash_plain (x :: xs) hL hplain) hL hplain,
        isRooted_joinSlash_plain (x :: xs) hL hplain]
      simp [cleanLead]
  · cases L with
    | nil => exact absurd rfl hL
    | cons x xs =>
      simp only [Join, he, if_false, joinSlash]
      rw [Clean_of_split (e ++ '/' :: joinSlash (x :: xs)) (splitSlash e) (x :: xs) (by simp [he])
        (by rw [splitSlash_append_slash, splitSlash_joinSlash_plain (x :: xs) hL hplain]) hL hplain,
        isRooted_append e _ he]

theorem cleanStep_stack_nonempty (r : Bool) (st : List GoString) (c : GoString)
    (h : ∀ x ∈ st, x ≠ []) : ∀ x ∈ cleanStep r st c, x ≠ [] := by
  unfold cleanStep
  split
  · exact h
  · rename_i h1
    split
    · rename_i hdd
      cases st with
      | nil => cases r <;> simp [hdd]
      | cons top below =>
        simp only
        split
        · intro x hx
          rcases List.mem_cons.1 hx with hx | hx
          · rw [hx, hdd]; simp
          · exact h x hx
        · intro x hx; exact h x (by simp [hx])
    · intro x hx
      rcases List.mem_cons.1 hx with hx | hx
      · rw [hx]; intro e; exact h1 (Or.inl e)
      · exact h x hx

theorem foldl_cleanStep_nonempty (r : Bool) (A : List GoString) :
    ∀ st : List GoString, (∀ x ∈ st, x ≠ []) → ∀ x ∈ A.foldl (cleanStep r) st, x ≠ [] := by
  induction A with
  | nil => intro st h; exact h
  | cons c cs ih => intro st h; exact ih _ (cleanStep_stack_nonempty r st c h)

/-- The lead that `Clean` gives is the root alone only for a rooted path without any kept
component. -/
theorem cleanLead_eq_root (r : Bool) (A : List GoString) (h : cleanLead r A = ['/']) :
    r = true ∧ (A.foldl (cleanStep r) []).reverse = [] := by
  unfold cleanLead at h
  have hne : ∀ x ∈ (A.foldl (cleanStep r) []).reverse, x ≠ [] := by
    intro x hx
    exact foldl_cleanStep_nonempty r A [] (by simp) x (List.mem_reverse.1 hx)
  by_cases hR : (A.foldl (cleanStep r) []).reverse = []
  · rw [if_pos hR] at h
    cases r with
    | true => exact ⟨rfl, hR⟩
    | false => simp at h
  · rw [if_neg hR] at h
    have hj := joinSlash_ne_nil _ hR hne
    exfalso
    cases r with
    | true =>
      cases hjs : joinSlash (A.foldl (cleanStep true) []).reverse with
      | nil => exact hj hjs
      | cons x xs => rw [hjs] at h; simp at h
    | false =>
      cases hjs : joinSlash (A.foldl (cleanStep false) []).reverse with
      | nil => exact hj hjs
      | cons x xs =>
        rw [hjs] at h
        cases xs <;> simp at h

theorem Clean_root_of_lead (e : GoString) (he : e ≠ [])
    (h : cleanLead (isRooted e) (splitSlash e) = ['/']) : Clean e = ['/'] := by
  obtain ⟨hr, hR⟩ := cleanLead_eq_root _ _ h
  unfold Clean
  rw [if_neg he]
  simp only [hr, if_true]
  rw [hr] at hR
  rw [hR]
  rfl

theorem linux_dirs_distinct (getenv : GoString → GoString) (vendor product : GoString)
    (hv : PlainComp vendor) (hp : PlainComp product) :
    linux.SystemDataDir vendor product ≠ linux.UserDataDir getenv vendor product := by
  unfold linux.SystemDataDir linux.UserDataDir
  have h2 : ∀ c ∈ [vendor, product], PlainComp c := by
    intro c hc
    rcases List.mem_cons.1 hc with hc | hc
    · rw [hc]; exact hv
    · rw [List.mem_singleton.1 hc]; exact hp
  have h4 : ∀ c ∈ [".local".toList, "share".toList, vendor, product], PlainComp c := by
    intro c hc
    rcases List.mem_cons.1 hc with hc | hc
    · rw [hc]; decide
    · rcases List.mem_cons.1 hc with hc | hc
      · rw [hc]; decide
      · exact h2 c hc
  rw [Join_cons_plain _ _ (by simp) h2, Join_cons_plain _ _ (by simp) h4]
  intro heq
  have hsys : (if "/etc".toList = [] then [] else
      cleanLead (isRooted "/etc".toList) (splitSlash "/etc".toList)) = "/etc/".toList := by
    decide
  rw [hsys] at heq
  simp only [joinSlash] at heq
  generalize (if getenv "HOME".toList = [] then ([] : GoString)
    else cleanLead (isRooted (getenv "HOME".toList)) (splitSlash (getenv "HOME".toList))) = X
    at heq
  have h' : "/etc".toList ++ ('/' :: (vendor ++ '/' :: product)) =
      (X ++ ".local/share".toList) ++ ('/' :: (vendor ++ '/' :: product)) := by
    simpa using heq
  have h'' := List.append_cancel_right h'
  have hlast := congrArg List.getLast? h''
  simp at hlast

theorem darwin_dirs_distinct (getenv : GoString → GoString) (vendor product : GoString)
    (hv : PlainComp vendor) (hp : PlainComp product)
    (hhome : Clean (getenv "HOME".toList) ≠ ['/']) :
    darwin.SystemDataDir vendor product ≠ darwin.UserDataDir getenv vendor product := by
  unfold darwin.SystemDataDir darwin.UserDataDir
  have h2 : ∀ c ∈ [vendor, product], PlainComp c := by
    intro c hc
    rcases List.mem_cons.1 hc with hc | hc
    · rw [hc]; exact hv
    · rw [List.mem_singleton.1 hc]; exact hp
  have h4 : ∀ c ∈ ["Library".toList, "Application Support".toList, vendor, product],
      PlainComp c := by
    intro c hc
    rcases List.mem_cons.1 hc with hc | hc
    · rw [hc]; decide
    · rcases List.mem_cons.1 hc with hc | hc
      · rw [hc]; decide
      · exact h2 c hc
  rw [Join_cons_plain _ _ (by simp) h2, Join_cons_plain _ _ (by simp) h4]
  intro heq
  have hsys : (if "/Library/Application Support".toList = [] then [] else
      cleanLead (isRooted "/Library/Application Support".toList)
        (splitSlash "/Library/Application Support".toList)) =
      "/Library/Application Support/".toList := by
    decide
  rw [hsys] at heq
  simp only [joinSlash] at heq
  by_cases he : getenv "HOME".toList = []
  · rw [if_pos he] at heq
    simp at heq
  · rw [if_neg he] at heq
    apply hhome
    apply Clean_root_of_lead _ he
    generalize cleanLead (isRooted (getenv "HOME".toList))
      (splitSlash (getenv "HOME".toList)) = X at heq
    have h' : ['/'] ++ ("Library/Application Support".toList ++
        ('/' :: (vendor ++ '/' :: product))) =
        X ++ ("Library/Application Support".toList ++
          ('/' :: (vendor ++ '/' :: product))) := by
      simpa using heq
    exact (List.append_cancel_right h').symm

theorem windows_dirs_equal (join : List GoString → GoString) (getenv : GoString → GoString)
    (vendor product : GoString)
    (h : getenv "ProgramData".toList = getenv "AppData".toList) :
    windows.SystemDataDir join getenv vendor product =
      windows.UserDataDir join getenv vendor product := by
  unfold windows.SystemDataDir windows.UserDataDir
  rw [h]

/-! ### The contract of the three backends -/

theorem nodeState_eq_false (n : Node) (h : nodeState n = some false) : n = .absent := by
  cases n <;> simp [nodeState] at h ⊢

theorem nodeState_ne_none (n : Node) (h : nodeState n ≠ none) : n ≠ .blocked := by
  intro e; rw [e] at h; exact h rfl

theorem ModeUser_ne_ModeSystem : ¬ ModeSystem = ModeUser := by decide

theorem Enable_windows_user (w : World) (o : Options) (h : o.Mode = ModeUser) :
    Enable .windows w o = windows.enableUser w o := by
  simp [Enable, windows.Enable, h]

theorem Enable_windows_system (w : World) (o : Options) (h : o.Mode = ModeSystem) :
    Enable .windows w o = windows.enableAdmin w o := by
  simp [Enable, windows.Enable, h, ModeUser_ne_ModeSystem]

theorem IsEnabled_windows_user (w : World) (o : Options) (h : o.Mode = ModeUser) :
    IsEnabled .windows w o = windows.isEnabledUser w o := by
  simp [IsEnabled, windows.IsEnabled, h]

theorem IsEnabled_windows_system (w : World) (o : Options) (h : o.Mode = ModeSystem) :
    IsEnabled .windows w o = windows.isEnabledAdmin w o := by
  simp [IsEnabled, windows.IsEnabled, h, ModeUser_ne_ModeSystem]

theorem Disable_windows_user (w : World) (o : Options) (h : o.Mode = ModeUser) :
    Disable .windows w o = windows.disableUser w o := by
  simp [Disable, windows.Disable, h]

theorem Disable_windows_system (w : World) (o : Options) (h : o.Mode = ModeSystem) :
    Disable .windows w o = windows.disableAdmin w o := by
  simp [Disable, windows.Disable, h, ModeUser_ne_ModeSystem]

theorem registered_darwin (w : World) (o : Options) (b : Option Bool)
    (h : registered .darwin w o = b) (hb : b ≠ none) :
    ∃ path, darwin.getPlistFilePath w o = .ok path ∧ nodeState (w.node path) = b := by
  unfold registered at h
  simp only at h
  cases hp : darwin.getPlistFilePath w o with
  | error e => rw [hp] at h; exact absurd h.symm hb
  | ok path => rw [hp] at h; exact ⟨path, rfl, h⟩

theorem registered_linux (w : World) (o : Options) (b : Option Bool)
    (h : registered .linux w o = b) (hb : b ≠ none) :
    ∃ path, linux.getSystemdUnitFilePath w o = .ok path ∧ nodeState (w.node path) = b := by
  unfold registered at h
  simp only at h
  cases hp : linux.getSystemdUnitFilePath w o with
  | error e => rw [hp] at h; exact absurd h.symm hb
  | ok path => rw [hp] at h; exact ⟨path, rfl, h⟩

theorem registered_windows_user (w : World) (o : Options) (h : o.Mode = ModeUser) :
    registered .windows w o = nodeState (w.node (windows.getUserStartupLinkPath w o)) := by
  simp [registered, h]

theorem registered_windows_system (w : World) (o : Options) (h : o.Mode = ModeSystem) :
    registered .windows w o =
      (match w.svc o.Label with
        | .absent => some false
        | .present _ => some true
        | .blocked => none) := by
  simp [registered, h, ModeUser_ne_ModeSystem]

/-- C1: on every backend and for every configuration of user or system scope, if `Enable`
returns nil then `IsEnabled` right after it returns `(true, nil)`; on Linux under the
hypothesis that the `systemctl status` command exits with code zero. -/
theorem contract_enable_query (pf : Platform) (w : World) (o : Options)
    (hmode : ValidMode o) (hen : (Enable pf w o).1 = none)
    (hstatus : pf = .linux → ∀ argv, linux.systemctlArgv o "status".toList = some argv →
      w.host.run argv = .exited 0) :
    (IsEnabled pf (Enable pf w o).2 o).1 = (true, none) := by
  cases pf with
  | darwin => exact darwin_enable_then_isEnabled w o hen
  | linux => exact linux_enable_then_isEnabled w o hen (hstatus rfl)
  | windows =>
    by_cases hu : o.Mode = ModeUser
    · rw [Enable_windows_user w o hu] at hen ⊢
      rw [IsEnabled_windows_user _ o hu]
      exact windows_enableUser_then_isEnabled w o hen
    · have hs : o.Mode = ModeSystem := hmode.resolve_left hu
      rw [Enable_windows_system w o hs] at hen ⊢
      rw [IsEnabled_windows_system _ o hs]
      exact windows_enableAdmin_then_isEnabled w o hen

theorem contract_enable_query_witness :
    ValidMode sampleOptions ∧ (Enable .linux sampleWorld sampleOptions).1 = none ∧
      (IsEnabled .linux (Enable .linux sampleWorld sampleOptions).2 sampleOptions).1 =
        (true, none) :=
  ⟨by decide, by decide,
    contract_enable_query .linux sampleWorld sampleOptions (by decide) (by decide)
      (fun _ _ _ => rfl)⟩

/-- Where the artifact path can be inspected, a `Disable` that returns nil is followed by an
`IsEnabled` that returns `(false, nil)`. -/
theorem disable_query_inspectable (pf : Platform) (w : World) (o : Options)
    (hmode : ValidMode o) (hstart : registered pf w o ≠ none)
    (h : (Disable pf w o).1 = none) :
    (IsEnabled pf (Disable pf w o).2 o).1 = (false, none) := by
  cases pf with
  | darwin =>
    obtain ⟨path, hp, hn⟩ := registered_darwin w o _ rfl hstart
    exact darwin_disable_then_isEnabled w o path hp
      (nodeState_ne_none _ (by rw [hn]; exact hstart)) h
  | linux =>
    obtain ⟨path, hp, hn⟩ := registered_linux w o _ rfl hstart
    exact linux_disable_then_isEnabled w o path hp
      (nodeState_ne_none _ (by rw [hn]; exact hstart)) h
  | windows =>
    by_cases hu : o.Mode = ModeUser
    · rw [Disable_windows_user w o hu] at h ⊢
      rw [IsEnabled_windows_user _ o hu]
      rw [registered_windows_user w o hu] at hstart
      exact windows_disableUser_then_isEnabled w o (nodeState_ne_none _ hstart) h
    · have hs : o.Mode = ModeSystem := hmode.resolve_left hu
      rw [Disable_windows_system w o hs] at h ⊢
      rw [IsEnabled_windows_system _ o hs]
      exact windows_disableAdmin_then_isEnabled w o h

theorem nodeState_eq_none (n : Node) (h : nodeState n = none) : n = .blocked := by
  cases n <;> simp [nodeState] at h ⊢

theorem darwin_path_valid (w : World) (o : Options) (h : ValidMode o) :
    ∃ path, darwin.getPlistFilePath w o = .ok path := by
  unfold darwin.getPlistFilePath darwin.getPlistDir
  by_cases hu : o.Mode = ModeUser
  · exact ⟨_, by rw [if_pos hu]⟩
  · have hs : o.Mode = ModeSystem := h.resolve_left hu
    exact ⟨_, by rw [if_neg hu, if_pos hs]⟩

theorem linux_path_valid (w : World) (o : Options) (h : ValidMode o) :
    ∃ path, linux.getSystemdUnitFilePath w o = .ok path := by
  unfold linux.getSystemdUnitFilePath linux.getSystemdDir
  by_cases hu : o.Mode = ModeUser
  · exact ⟨_, by rw [if_pos hu]⟩
  · have hs : o.Mode = ModeSystem := h.resolve_left hu
    exact ⟨_, by rw [if_neg hu, if_pos hs]⟩

theorem darwin_blocked (w : World) (o : Options) (path : GoString)
    (hp : darwin.getPlistFilePath w o = .ok path) (hb : w.node path = .blocked) :
    darwin.Disable w o = (none, w) ∧
      (darwin.IsEnabled w o).1.1 = false ∧ (darwin.IsEnabled w o).1.2 ≠ none := by
  have hst : osStat w path = some (.os "stat".toList) := by unfold osStat; rw [hb]
  refine ⟨?_, ?_, ?_⟩
  · unfold darwin.Disable; rw [hp]; simp only; rw [hst]
  · unfold darwin.IsEnabled; rw [hp]; simp only; rw [hst]; simp [IsNotExist]
  · unfold darwin.IsEnabled; rw [hp]; simp only; rw [hst]; simp [IsNotExist, Wrapf]

theorem linux_isEnabled_blocked (w : World) (o : Options) (path : GoString)
    (hp : linux.getSystemdUnitFilePath w o = .ok path) (hb : w.node path = .blocked) :
    (linux.IsEnabled w o).1.1 = false ∧ (linux.IsEnabled w o).1.2 ≠ none := by
  have hst : osStat w path = some (.os "stat".toList) := by unfold osStat; rw [hb]
  refine ⟨?_, ?_⟩
  · unfold linux.IsEnabled; rw [hp]; simp only; rw [hst]; simp [IsNotExist]
  · unfold linux.IsEnabled; rw [hp]; simp only; rw [hst]; simp [IsNotExist, Wrapf]

theorem linux_disable_blocked (w : World) (o : Options) (path : GoString)
    (hp : linux.getSystemdUnitFilePath w o = .ok path) (hb : w.node path = .blocked) :
    (linux.Disable w o).2.host = w.host ∧ (linux.Disable w o).2.node = w.node := by
  unfold linux.Disable
  split
  · rename_i e w1 hs
    have hw1 : (linux.systemctlRun w o "disable".toList).2 = w1 := by rw [hs]
    exact ⟨by rw [← hw1]; simp, by rw [← hw1]; simp⟩
  · rename_i code w1 hs
    have hw1 : (linux.systemctlRun w o "disable".toList).2 = w1 := by rw [hs]
    have hhost : w1.host = w.host := by rw [← hw1]; simp
    have hnode : w1.node = w.node := by rw [← hw1]; simp
    have hp1 : linux.getSystemdUnitFilePath w1 o = .ok path := by
      rw [linux_path_host w w1 o hhost, hp]
    have hst : osStat w1 path = some (.os "stat".toList) := by
      unfold osStat; rw [hnode, hb]
    rw [hp1]
    simp only
    rw [hst]
    exact ⟨hhost, hnode⟩

theorem windows_user_blocked (w : World) (o : Options)
    (hb : w.node (windows.getUserStartupLinkPath w o) = .blocked) :
    windows.disableUser w o = (none, w) ∧
      (windows.isEnabledUser w o).1.1 = false ∧ (windows.isEnabledUser w o).1.2 ≠ none := by
  have hst : osStat w (windows.getUserStartupLinkPath w o) = some (.os "stat".toList) := by
    unfold osStat; rw [hb]
  refine ⟨?_, ?_, ?_⟩
  · unfold windows.disableUser; simp only; rw [hst]
  · unfold windows.isEnabledUser; rw [hst]; simp [IsNotExist]
  · unfold windows.isEnabledUser; rw [hst]; simp [IsNotExist, Wrapf]

/-- C2, as stated, fails, in two ways. On Linux, with the unit file in place and a
`systemctl disable` that exits with code 1, `Disable` returns its error before removing the
file, and `IsEnabled` right after it returns `(true, nil)`. On macOS, where `os.Stat` of the
plist path fails with an error other than not-exist, `Disable` does nothing and returns nil,
and `IsEnabled` right after it returns false together with that error. -/
theorem disable_query_not_false_nil :
    (ValidMode sampleOptions ∧ registered .linux registeredWorld sampleOptions = some true ∧
      (Disable .linux registeredWorld sampleOptions).1 ≠ none ∧
      (IsEnabled .linux (Disable .linux registeredWorld sampleOptions).2 sampleOptions).1 =
        (true, none)) ∧
      (osStat blockedPlistWorld "/home/u/Library/LaunchAgents/com.acme.sync.plist".toList =
          some (.os "stat".toList) ∧
        (Disable .darwin blockedPlistWorld sampleOptions).1 = none ∧
        (IsEnabled .darwin (Disable .darwin blockedPlistWorld sampleOptions).2
          sampleOptions).1 =
          (false, some (.wrapped "autostart: checking if plist file exists".toList
            (.os "stat".toList)))) := by
  decide

/-- C2, amended: on every backend and for every configuration of user or system scope, from
any starting state, if `Disable` returns nil then `IsEnabled` right after it answers false;
its error is nil, except where `os.Stat` of the artifact path (plist, unit file, shortcut)
fails with an error other than not-exist: there `Disable` has removed nothing and
`IsEnabled` returns that error with its false. -/
theorem contract_disable_query (pf : Platform) (w : World) (o : Options)
    (hmode : ValidMode o) (h : (Disable pf w o).1 = none) :
    (IsEnabled pf (Disable pf w o).2 o).1.1 = false ∧
      ((IsEnabled pf (Disable pf w o).2 o).1.2 = none ↔
        (registered pf w o ≠ none ∨ (pf = .windows ∧ o.Mode = ModeSystem))) := by
  by_cases hstart : registered pf w o ≠ none
  · have hq := disable_query_inspectable pf w o hmode hstart h
    rw [hq]
    exact ⟨rfl, by simp [hstart]⟩
  · have hnone : registered pf w o = none := by simpa using hstart
    cases pf with
    | darwin =>
      obtain ⟨path, hp⟩ := darwin_path_valid w o hmode
      have hb : w.node path = .blocked := by
        unfold registered at hnone
        simp only at hnone
        rw [hp] at hnone
        exact nodeState_eq_none _ hnone
      obtain ⟨hD, h1, h2⟩ := darwin_blocked w o path hp hb
      unfold Disable IsEnabled
      simp only
      rw [hD]
      refine ⟨h1, ?_⟩
      constructor
      · intro he; exact absurd he h2
      · intro hor
        rcases hor with hr | ⟨hpf, _⟩
        · exact absurd hnone hr
        · exact absurd hpf (by decide)
    | linux =>
      obtain ⟨path, hp⟩ := linux_path_valid w o hmode
      have hb : w.node path = .blocked := by
        unfold registered at hnone
        simp only at hnone
        rw [hp] at hnone
        exact nodeState_eq_none _ hnone
      obtain ⟨hhost, hnode⟩ := linux_disable_blocked w o path hp hb
      unfold Disable IsEnabled
      simp only
      obtain ⟨h1, h2⟩ := linux_isEnabled_blocked (linux.Disable w o).2 o path
        (by rw [linux_path_host w _ o hhost, hp]) (by rw [hnode, hb])
      refine ⟨h1, ?_⟩
      constructor
      · intro he; exact absurd he h2
      · intro hor
        rcases hor with hr | ⟨hpf, _⟩
        · exact absurd hnone hr
        · exact absurd hpf (by decide)
    | windows =>
      by_cases hu : o.Mode = ModeUser
      · rw [registered_windows_user w o hu] at hnone
        have hb := nodeState_eq_none _ hnone
        obtain ⟨hD, h1, h2⟩ := windows_user_blocked w o hb
        rw [Disable_windows_user w o hu, hD]
        simp only
        rw [IsEnabled_windows_user w o hu]
        refine ⟨h1, ?_⟩
        constructor
        · intro he; exact absurd he h2
        · intro hor
          rcases hor with hr | ⟨_, hsys⟩
          · exact absurd (by rw [registered_windows_user w o hu]; exact hnone) hr
          · rw [hu] at hsys; exact absurd hsys (by decide)
      · have hs : o.Mode = ModeSystem := hmode.resolve_left hu
        rw [Disable_windows_system w o hs] at h ⊢
        rw [IsEnabled_windows_system _ o hs]
        have hq := windows_disableAdmin_then_isEnabled w o h
        rw [hq]
        exact ⟨rfl, by simp [hs]⟩

theorem contract_disable_query_witness :
    ValidMode sampleOptions ∧
      (Disable .darwin (Enable .darwin sampleWorld sampleOptions).2 sampleOptions).1 = none ∧
      ((IsEnabled .darwin
          (Disable .darwin (Enable .darwin sampleWorld sampleOptions).2 sampleOptions).2
          sampleOptions).1.1 = false ∧
        ((IsEnabled .darwin
            (Disable .darwin (Enable .darwin sampleWorld sampleOptions).2 sampleOptions).2
            sampleOptions).1.2 = none ↔
          (registered .darwin (Enable .darwin sampleWorld sampleOptions).2 sampleOptions ≠
              none ∨
            (Platform.darwin = Platform.windows ∧ sampleOptions.Mode = ModeSystem)))) :=
  ⟨by decide, by decide,
    contract_disable_query .darwin (Enable .darwin sampleWorld sampleOptions).2 sampleOptions
      (by decide) (by decide)⟩

/-- C3, as stated, fails: on the Windows system backend the first `Enable` succeeds and the
second one, finding the service already there, returns an error. -/
theorem second_enable_fails_on_service :
    ValidMode sampleSystemOptions ∧
      (Enable .windows sampleWorld sampleSystemOptions).1 = none ∧
      (Enable .windows (Enable .windows sampleWorld sampleSystemOptions).2
        sampleSystemOptions).1 ≠ none := by
  decide

/-- C3, amended: on every backend, after an `Enable` that returned nil, a second `Enable`
leaves the file system and the service database exactly as the first one left them; it
returns nil on macOS, on Linux and in the Windows user scope, and an error in the Windows
system scope. (In the Windows user scope the shortcut path is taken to differ from the
Startup directory.) -/
theorem contract_enable_again (pf : Platform) (w : World) (o : Options) (hmode : ValidMode o)
    (hlnk : pf = .windows → o.Mode = ModeUser →
      windows.getUserStartupLinkPath w o ≠ windows.getUserStartupDir w)
    (h : (Enable pf w o).1 = none) :
    (Enable pf (Enable pf w o).2 o).2.node = (Enable pf w o).2.node ∧
      (Enable pf (Enable pf w o).2 o).2.svc = (Enable pf w o).2.svc ∧
      ((Enable pf (Enable pf w o).2 o).1 = none ↔
        ¬ (pf = .windows ∧ o.Mode = ModeSystem)) := by
  cases pf with
  | darwin =>
    obtain ⟨h1, h2, h3⟩ := darwin_enable_twice w o h
    exact ⟨h2, h3, by simp [Enable, h1]⟩
  | linux =>
    obtain ⟨h1, h2, h3⟩ := linux_enable_twice w o h
    exact ⟨h2, h3, by simp [Enable, h1]⟩
  | windows =>
    by_cases hu : o.Mode = ModeUser
    · rw [Enable_windows_user w o hu] at h ⊢
      rw [Enable_windows_user _ o hu]
      obtain ⟨h1, h2, h3⟩ := windows_enableUser_twice w o (hlnk rfl hu) h
      refine ⟨h2, h3, ?_⟩
      have hns : ¬ o.Mode = ModeSystem := by rw [hu]; decide
      simp [h1, hns]
    · have hs : o.Mode = ModeSystem := hmode.resolve_left hu
      rw [Enable_windows_system w o hs] at h ⊢
      rw [Enable_windows_system _ o hs]
      obtain ⟨_, _, _, _, bin, _, hsvc⟩ := windows_enableAdmin_ok w o h
      obtain ⟨h1, h2, h3⟩ := windows_enableAdmin_again (windows.enableAdmin w o).2 o _ hsvc
      exact ⟨h3, h2, by simp [h1, hs]⟩

theorem contract_enable_again_witness :
    ValidMode sampleOptions ∧ (Enable .linux sampleWorld sampleOptions).1 = none ∧
      ((Enable .linux (Enable .linux sampleWorld sampleOptions).2 sampleOptions).2.node =
          (Enable .linux sampleWorld sampleOptions).2.node ∧
        (Enable .linux (Enable .linux sampleWorld sampleOptions).2 sampleOptions).2.svc =
          (Enable .linux sampleWorld sampleOptions).2.svc ∧
        ((Enable .linux (Enable .linux sampleWorld sampleOptions).2 sampleOptions).1 = none ↔
          ¬ (Platform.linux = Platform.windows ∧ sampleOptions.Mode = ModeSystem))) :=
  ⟨by decide, by decide,
    contract_enable_again .linux sampleWorld sampleOptions (by decide)
      (fun hpf => absurd hpf (by decide)) (by decide)⟩

/-- C4, as stated, fails: on Linux, with no unit file and a `systemctl disable` that exits
with code 1 for the unit that is not there, `Disable` returns an error. -/
theorem disable_absent_unit_fails :
    ValidMode sampleOptions ∧ registered .linux unregisteredWorld sampleOptions = some false ∧
      (Disable .linux unregisteredWorld sampleOptions).1 ≠ none := by
  decide

/-- C4, amended: on every backend and for every configuration of user or system scope,
when no registration artifact exists `Disable` leaves the file system and the service
database unchanged, and it returns nil exactly when the call it makes to the outside
succeeds: always on macOS and in the Windows user scope, when the `systemctl disable`
command (which is run although the unit is absent) exits with code 0 on Linux, and when the
service manager can be reached in the Windows system scope. -/
theorem contract_disable_absent (pf : Platform) (w : World) (o : Options) (hmode : ValidMode o)
    (habs : registered pf w o = some false) :
    (Disable pf w o).2.node = w.node ∧ (Disable pf w o).2.svc = w.svc ∧
      ((Disable pf w o).1 = none ↔
        ((pf = .linux → ∀ argv, linux.systemctlArgv o "disable".toList = some argv →
            w.host.run argv = .exited 0) ∧
          (pf = .windows → o.Mode = ModeSystem → w.host.connectOk = true))) ∧
      (pf = .linux → ∀ argv, linux.systemctlArgv o "disable".toList = some argv →
        (Disable pf w o).2.log = w.log ++ [.exec argv]) := by
  cases pf with
  | darwin =>
    obtain ⟨path, hp, hn⟩ := registered_darwin w o _ habs (by simp)
    have hD := darwin_disable_absent w o path hp (nodeState_eq_false _ hn)
    unfold Disable
    simp only
    rw [hD]
    simp
  | linux =>
    obtain ⟨path, hp, hn⟩ := registered_linux w o _ habs (by simp)
    obtain ⟨argv, hargv⟩ := systemctlArgv_valid o "disable".toList hmode
    obtain ⟨h1, h2, h3, h4⟩ :=
      linux_disable_absent w o path argv hp hargv (nodeState_eq_false _ hn)
    unfold Disable
    simp only
    refine ⟨h1, h2, ?_, ?_⟩
    · rw [h4]
      constructor
      · intro hr
        refine ⟨fun _ argv2 hargv2 => ?_, fun hpf => absurd hpf (by decide)⟩
        rw [hargv] at hargv2
        cases hargv2
        exact hr
      · intro hr
        exact hr.1 (by first | rfl | trivial) argv hargv
    · intro _ argv2 hargv2
      rw [hargv] at hargv2
      cases hargv2
      exact h3
  | windows =>
    by_cases hu : o.Mode = ModeUser
    · rw [Disable_windows_user w o hu]
      rw [registered_windows_user w o hu] at habs
      rw [windows_disableUser_absent w o (nodeState_eq_false _ habs)]
      have hns : ¬ o.Mode = ModeSystem := by rw [hu]; decide
      simp [hns]
    · have hs : o.Mode = ModeSystem := hmode.resolve_left hu
      rw [Disable_windows_system w o hs]
      rw [registered_windows_system w o hs] at habs
      have hsv : w.svc o.Label = .absent := by
        cases hsvc : w.svc o.Label <;> rw [hsvc] at habs <;> simp at habs
      obtain ⟨h1, h2, h3⟩ := windows_disableAdmin_absent w o hsv
      refine ⟨h1, h2, ?_, fun hpf => absurd hpf (by decide)⟩
      rw [h3]
      simp [hs]

theorem contract_disable_absent_witness :
    ValidMode sampleOptions ∧ registered .linux sampleWorld sampleOptions = some false ∧
      ((Disable .linux sampleWorld sampleOptions).2.node = sampleWorld.node ∧
        (Disable .linux sampleWorld sampleOptions).2.svc = sampleWorld.svc ∧
        ((Disable .linux sampleWorld sampleOptions).1 = none ↔
          ((Platform.linux = Platform.linux →
              ∀ argv, linux.systemctlArgv sampleOptions "disable".toList = some argv →
                sampleWorld.host.run argv = .exited 0) ∧
            (Platform.linux = Platform.windows → sampleOptions.Mode = ModeSystem →
              sampleWorld.host.connectOk = true))) ∧
        (Platform.linux = Platform.linux →
          ∀ argv, linux.systemctlArgv sampleOptions "disable".toList = some argv →
            (Disable .linux sampleWorld sampleOptions).2.log =
              sampleWorld.log ++ [.exec argv])) :=
  ⟨by decide, by decide, contract_disable_absent .linux sampleWorld sampleOptions (by decide)
    (by decide)⟩

/-! ### Argument escaping for the property list -/

theorem replaceAllChar_append (old : Char) (new a b : GoString) :
    replaceAllChar old new (a ++ b) = replaceAllChar old new a ++ replaceAllChar old new b := by
  induction a with
  | nil => rfl
  | cons c cs ih => simp [replaceAllChar, ih]

theorem escapeXML_append (a b : GoString) : escapeXML (a ++ b) = escapeXML a ++ escapeXML b := by
  simp [escapeXML, replaceAllChar_append]

theorem escapeXML_singleton (c : Char) : escapeXML [c] = escapeChar c := by
  unfold escapeXML escapeChar
  by_cases h1 : c = '&'
  · subst h1; decide
  by_cases h2 : c = '<'
  · subst h2; decide
  by_cases h3 : c = '>'
  · subst h3; decide
  by_cases h4 : c = '"'
  · subst h4; decide
  by_cases h5 : c = (Char.ofNat 39)
  · subst h5; decide
  simp [replaceAllChar, h1, h2, h3, h4, h5]

theorem escapeXML_cons (c : Char) (s : GoString) :
    escapeXML (c :: s) = escapeChar c ++ escapeXML s := by
  have h := escapeXML_append [c] s
  rw [escapeXML_singleton] at h
  simpa using h

theorem decodeEntityHead_plain (c : Char) (t : GoString) (h : c ≠ '&') :
    decodeEntityHead (c :: t) = none := by
  have hc : ¬ '&' = c := fun e => h e.symm
  simp [decodeEntityHead, xmlEntities, List.findSome?, hc]

theorem unescapeXMLGo_escapeChar (c : Char) (t : GoString) :
    unescapeXMLGo 0 (escapeChar c ++ t) = c :: unescapeXMLGo 0 t := by
  unfold escapeChar
  by_cases h1 : c = '&'
  · subst h1; simp [unescapeXMLGo, decodeEntityHead, xmlEntities]
  by_cases h2 : c = '<'
  · subst h2; simp [unescapeXMLGo, decodeEntityHead, xmlEntities]
  by_cases h3 : c = '>'
  · subst h3; simp [unescapeXMLGo, decodeEntityHead, xmlEntities]
  by_cases h4 : c = '"'
  · subst h4; simp [unescapeXMLGo, decodeEntityHead, xmlEntities]
  by_cases h5 : c = (Char.ofNat 39)
  · subst h5; simp [unescapeXMLGo, decodeEntityHead, xmlEntities]
  simp [h1, h2, h3, h4, h5, unescapeXMLGo, decodeEntityHead_plain c t h1]

theorem unescapeXML_escapeXML (s : GoString) : unescapeXML (escapeXML s) = s := by
  unfold unescapeXML
  induction s with
  | nil => rfl
  | cons c cs ih => rw [escapeXML_cons, unescapeXMLGo_escapeChar, ih]

/-- C5: `escapeArgs` keeps the length and the order of the argument list, and decoding the
XML entities of its i-th element gives back the i-th argument, whatever characters the
argument holds. -/
theorem escapeArgs_roundtrip (args : List GoString) :
    (escapeArgs args).length = args.length ∧
      (escapeArgs args).map unescapeXML = args ∧
      ∀ i : Nat, ((escapeArgs args)[i]?).map unescapeXML = args[i]? := by
  have hmap : (escapeArgs args).map unescapeXML = args := by
    unfold escapeArgs
    rw [List.map_map]
    have : unescapeXML ∘ escapeXML = id := by
      funext s; exact unescapeXML_escapeXML s
    rw [this, List.map_id]
  refine ⟨by simp [escapeArgs], hmap, ?_⟩
  intro i
  rw [← List.getElem?_map, hmap]

/-! ### The claims on quoting, directories and the Windows backend -/

/-- C6, as stated, fails: Go writes a newline as backslash and `n`, which a shell inside
double quotes reads as those two characters, so the argument does not come back. -/
theorem newline_not_shell_roundtrip :
    shellSplit (linux.joinArgs (fun _ => false) ["a\nb".toList]) = some ["a\\nb".toList] ∧
      shellSplit (linux.joinArgs (fun _ => false) ["a\nb".toList]) ≠ some ["a\nb".toList] := by
  decide

/-- C6, amended: for every argument list whose characters are all printable for Go and are
neither a dollar sign nor a backquote, `joinArgs` (each argument Go-quoted, joined by single
spaces), split back into words by the shell rules, gives exactly the arguments in their
order; spaces, double quotes, backslashes and printable non-ASCII characters are covered. -/
theorem joinArgs_shell_roundtrip (tbl : Nat → Bool) (args : List GoString)
    (h : ∀ a ∈ args, ∀ c ∈ a, ShellLiteral tbl c) :
    shellSplit (linux.joinArgs tbl args) = some args :=
  shellSplit_joinArgs_literal tbl args h

theorem joinArgs_shell_roundtrip_witness :
    (∀ a ∈ ["a b".toList, "c\"d\\e".toList, "é".toList],
        ∀ c ∈ a, ShellLiteral (fun _ => false) c) ∧
      shellSplit (linux.joinArgs (fun _ => false)
          ["a b".toList, "c\"d\\e".toList, "é".toList]) =
        some ["a b".toList, "c\"d\\e".toList, "é".toList] :=
  ⟨by decide, joinArgs_shell_roundtrip (fun _ => false)
    ["a b".toList, "c\"d\\e".toList, "é".toList] (by decide)⟩

/-! ### When the two data directories are the same path -/

theorem splitSlash_mem_noslash (s : GoString) : ∀ c ∈ splitSlash s, '/' ∉ c := by
  induction s with
  | nil => intro c hc; simp [splitSlash] at hc; rw [hc]; simp
  | cons x xs ih =>
    intro c hc
    by_cases hx : x = '/'
    · simp only [splitSlash, hx, if_true] at hc
      rcases List.mem_cons.1 hc with h | h
      · rw [h]; simp
      · exact ih c h
    · simp only [splitSlash, hx, if_false] at hc
      cases hs : splitSlash xs with
      | nil => exact absurd hs (splitSlash_ne_nil xs)
      | cons y ys =>
        rw [hs] at hc ih
        simp only at hc
        rcases List.mem_cons.1 hc with h | h
        · rw [h]
          have hy : '/' ∉ y := ih y (by simp)
          intro hmem
          rcases List.mem_cons.1 hmem with h1 | h1
          · exact hx h1.symm
          · exact hy h1
        · exact ih c (by simp [h])

theorem cleanStep_good (r : Bool) (st : List GoString) (c : GoString) (hc : '/' ∉ c)
    (h : GoodStack st) : GoodStack (cleanStep r st c) := by
  unfold cleanStep
  split
  · exact h
  · rename_i h1
    split
    · rename_i hdd
      cases st with
      | nil =>
        cases r
        · intro x hx
          simp at hx
          rw [hx, hdd]
          exact ⟨by simp, by decide⟩
        · intro x hx; simp at hx
      | cons top below =>
        simp only
        split
        · intro x hx
          rcases List.mem_cons.1 hx with hx | hx
          · rw [hx, hdd]; exact ⟨by simp, by decide⟩
          · exact h x hx
        · intro x hx; exact h x (by simp [hx])
    · intro x hx
      rcases List.mem_cons.1 hx with hx | hx
      · rw [hx]; exact ⟨fun e => h1 (Or.inl e), hc⟩
      · exact h x hx

theorem foldl_cleanStep_good (r : Bool) (T : List GoString) (hT : ∀ c ∈ T, '/' ∉ c) :
    ∀ st : List GoString, GoodStack st → GoodStack (T.foldl (cleanStep r) st) := by
  induction T with
  | nil => intro st h; exact h
  | cons c cs ih =>
    intro st h
    exact ih (fun d hd => hT d (by simp [hd])) _
      (cleanStep_good r st c (hT c (by simp)) h)

theorem cleanStack_good (r : Bool) (s : GoString) : GoodStack (cleanStack r (splitSlash s)) :=
  foldl_cleanStep_good r _ (splitSlash_mem_noslash s) [] (by intro x hx; simp at hx)

theorem cleanStep_rooted_nodots (st : List GoString) (c : GoString)
    (h : ['.', '.'] ∉ st) : ['.', '.'] ∉ cleanStep true st c := by
  unfold cleanStep
  split
  · exact h
  · split
    · cases st with
      | nil => simp
      | cons top below =>
        simp only
        have htop : top ≠ ['.', '.'] := fun e => h (by simp [e])
        rw [if_neg htop]
        intro hm; exact h (by simp [hm])
    · rename_i h2
      intro hm
      rcases List.mem_cons.1 hm with hm | hm
      · exact h2 hm.symm
      · exact h hm

theorem foldl_cleanStep_rooted_nodots (T : List GoString) :
    ∀ st : List GoString, ['.', '.'] ∉ st → ['.', '.'] ∉ T.foldl (cleanStep true) st := by
  induction T with
  | nil => intro st h; exact h
  | cons c cs ih => intro st h; exact ih _ (cleanStep_rooted_nodots st c h)

/-- One component, read once over a relative path that has climbed `k` levels and once over
an absolute base `B`: the two stacks keep the same components on top, and the base has lost
as many components as the relative path has climbed. -/
theorem cleanStep_sim (B : List GoString) (hB : ['.', '.'] ∉ B) (c : GoString)
    (reals : List GoString) (k : Nat) (hreals : ['.', '.'] ∉ reals) :
    ∃ (reals2 : List GoString) (k2 : Nat),
      cleanStep false (reals ++ List.replicate k ['.', '.']) c =
          reals2 ++ List.replicate k2 ['.', '.'] ∧
        ['.', '.'] ∉ reals2 ∧
        cleanStep true (reals ++ B.drop k) c = reals2 ++ B.drop k2 := by
  by_cases h1 : c = [] ∨ c = ['.']
  · exact ⟨reals, k, by simp [cleanStep, h1], hreals, by simp [cleanStep, h1]⟩
  · by_cases h2 : c = ['.', '.']
    · cases reals with
      | cons top r =>
        have htop : top ≠ ['.', '.'] := fun e => hreals (by simp [e])
        have hr : ['.', '.'] ∉ r := fun e => hreals (by simp [e])
        refine ⟨r, k, ?_, hr, ?_⟩
        · simp [cleanStep, h2, htop]
        · simp [cleanStep, h2, htop]
      | nil =>
        refine ⟨[], k + 1, ?_, by simp, ?_⟩
        · cases k with
          | zero => simp [cleanStep, h2]
          | succ n => simp [cleanStep, h2, List.replicate_succ]
        · cases hd : B.drop k with
          | nil =>
            have : B.drop (k + 1) = [] := by
              rw [← List.drop_drop, hd]; rfl
            simp [cleanStep, h2, hd, this]
          | cons top below =>
            have hmem : top ∈ B := List.mem_of_mem_drop (by rw [hd]; simp)
            have htop : top ≠ ['.', '.'] := fun e => hB (by rw [← e]; exact hmem)
            have : B.drop (k + 1) = below := by
              rw [← List.drop_drop, hd]; rfl
            simp [cleanStep, h2, hd, htop, this]
    · refine ⟨c :: reals, k, ?_, ?_, ?_⟩
      · simp [cleanStep, h1, h2]
      · intro hm
        rcases List.mem_cons.1 hm with hm | hm
        · exact h2 hm.symm
        · exact hreals hm
      · simp [cleanStep, h1, h2]

theorem foldl_cleanStep_sim (B : List GoString) (hB : ['.', '.'] ∉ B) (T : List GoString) :
    ∀ (reals : List GoString) (k : Nat), ['.', '.'] ∉ reals →
      ∃ (reals2 : List GoString) (k2 : Nat),
        T.foldl (cleanStep false) (reals ++ List.replicate k ['.', '.']) =
            reals2 ++ List.replicate k2 ['.', '.'] ∧
          ['.', '.'] ∉ reals2 ∧
          T.foldl (cleanStep true) (reals ++ B.drop k) = reals2 ++ B.drop k2 := by
  induction T with
  | nil => intro reals k h; exact ⟨reals, k, rfl, h, rfl⟩
  | cons c cs ih =>
    intro reals k h
    obtain ⟨r2, k2, e1, hr2, e2⟩ := cleanStep_sim B hB c reals k h
    obtain ⟨r3, k3, f1, hr3, f2⟩ := ih r2 k2 hr2
    refine ⟨r3, k3, ?_, hr3, ?_⟩
    · simp only [List.foldl]; rw [e1, f1]
    · simp only [List.foldl]; rw [e2, f2]

/-- Reading `vendor/product` over an absolute base: the base loses `climb` components and
gains the kept ones. -/
theorem foldl_over_base (B : List GoString) (hB : ['.', '.'] ∉ B) (vendor product : GoString) :
    (splitSlash vendor ++ splitSlash product).foldl (cleanStep true) B =
      keptComps vendor product ++ B.drop (climb vendor product) := by
  obtain ⟨r, k, e1, hr, e2⟩ :=
    foldl_cleanStep_sim B hB (splitSlash vendor ++ splitSlash product) [] 0 (by simp)
  simp only [List.replicate_zero, List.append_nil, List.nil_append, List.drop_zero] at e1 e2
  have hcount : climb vendor product = k := by
    unfold climb cleanStack
    rw [e1, List.count_append, List.count_replicate_self,
      List.count_eq_zero_of_not_mem hr, Nat.zero_add]
  have hkept : keptComps vendor product = r := by
    unfold keptComps cleanStack
    rw [e1, List.filter_append]
    have h1 : List.filter (fun x => decide (x ≠ ['.', '.'])) r = r := by
      rw [List.filter_eq_self]
      intro x hx
      simp only [decide_eq_true_eq]
      intro e; exact hr (by rw [← e]; exact hx)
    have h2 : List.filter (fun x => decide (x ≠ ['.', '.']))
        (List.replicate k ['.', '.']) = [] := by
      rw [List.filter_eq_nil_iff]
      intro x hx
      have := List.eq_of_mem_replicate hx
      simp [this]
    rw [h1, h2, List.append_nil]
  rw [e2, hcount, hkept]

theorem isRooted_ne_nil (path : GoString) (h : isRooted path = true) : path ≠ [] := by
  intro e; rw [e] at h; simp [isRooted] at h

theorem Clean_rooted (path : GoString) (h : isRooted path = true) :
    Clean path = '/' :: joinSlash (cleanStack true (splitSlash path)).reverse := by
  unfold Clean cleanStack
  rw [if_neg (isRooted_ne_nil path h)]
  simp [h]

theorem joinSlash_head (L : List GoString) (hL : L ≠ []) (hgood : GoodStack L) :
    ∃ c t, joinSlash L = c :: t ∧ c ≠ '/' := by
  cases L with
  | nil => exact absurd rfl hL
  | cons x xs =>
    obtain ⟨hx, hxs⟩ := hgood x (by simp)
    cases x with
    | nil => exact absurd rfl hx
    | cons c cs =>
      have hc : c ≠ '/' := fun e => hxs (by simp [e])
      cases xs with
      | nil => exact ⟨c, cs, rfl, hc⟩
      | cons y ys => exact ⟨c, _, rfl, hc⟩

theorem GoodStack_reverse (L : List GoString) (h : GoodStack L) : GoodStack L.reverse :=
  fun x hx => h x (List.mem_reverse.1 hx)

theorem Clean_unrooted_head (path : GoString) (h : isRooted path = false) :
    ∃ c t, Clean path = c :: t ∧ c ≠ '/' := by
  unfold Clean
  by_cases hp : path = []
  · rw [if_pos hp]; exact ⟨'.', [], rfl, by decide⟩
  · rw [if_neg hp]
    simp only [h]
    by_cases hb : joinSlash ((splitSlash path).foldl (cleanStep false) []).reverse = []
    · simp only [hb]
      exact ⟨'.', [], by simp, by decide⟩
    · have hne : ((splitSlash path).foldl (cleanStep false) []).reverse ≠ [] := by
        intro e; rw [e] at hb; exact hb rfl
      obtain ⟨c, t, hj, hc⟩ := joinSlash_head _ hne
        (GoodStack_reverse _ (cleanStack_good false path))
      refine ⟨c, t, ?_, hc⟩
      simp [hb, hj]

theorem Clean_unrooted_ne_rooted (x y : GoString) (hx : isRooted x = false)
    (hy : isRooted y = true) : Clean y ≠ Clean x := by
  obtain ⟨c, t, hc, hne⟩ := Clean_unrooted_head x hx
  rw [Clean_rooted y hy, hc]
  intro e
  injection e with e1 _
  exact hne e1.symm

theorem splitSlash_joinSlash_noslash (L : List GoString) (hL : L ≠ [])
    (h : ∀ c ∈ L, '/' ∉ c) : splitSlash (joinSlash L) = L := by
  induction L with
  | nil => exact absurd rfl hL
  | cons x xs ih =>
    have hx : '/' ∉ x := h x (by simp)
    cases xs with
    | nil => simpa [joinSlash] using splitSlash_noslash x hx
    | cons y ys =>
      have hrest : ∀ c ∈ y :: ys, '/' ∉ c := fun c hc => h c (by simp [hc])
      simp only [joinSlash]
      rw [splitSlash_append_slash, splitSlash_noslash x hx, ih (by simp) hrest]
      rfl

theorem joinSlash_inj (A B : List GoString) (hA : GoodStack A) (hB : GoodStack B)
    (h : joinSlash A = joinSlash B) : A = B := by
  by_cases ha : A = []
  · subst ha
    by_cases hb : B = []
    · exact hb.symm
    · exact absurd h.symm (joinSlash_ne_nil B hb (fun c hc => (hB c hc).1))
  · by_cases hb : B = []
    · subst hb
      exact absurd h (joinSlash_ne_nil A ha (fun c hc => (hA c hc).1))
    · rw [← splitSlash_joinSlash_noslash A ha (fun c hc => (hA c hc).2), h,
        splitSlash_joinSlash_noslash B hb (fun c hc => (hB c hc).2)]

theorem cleanStack_good_append (vendor product : GoString) :
    GoodStack (cleanStack false (splitSlash vendor ++ splitSlash product)) := by
  apply foldl_cleanStep_good false _ _ [] (by intro x hx; simp at hx)
  intro c hc
  rcases List.mem_append.1 hc with h | h
  · exact splitSlash_mem_noslash vendor c h
  · exact splitSlash_mem_noslash product c h

/-- What `Clean` makes of `vendor/product` under an absolute base path `b`. -/
theorem Clean_over_base (b vendor product : GoString) (hb : isRooted b = true) :
    Clean (b ++ '/' :: (vendor ++ '/' :: product)) =
      '/' :: joinSlash (keptComps vendor product ++
        (cleanStack true (splitSlash b)).drop (climb vendor product)).reverse := by
  have hr : isRooted (b ++ '/' :: (vendor ++ '/' :: product)) = true := by
    rw [isRooted_append b _ (isRooted_ne_nil b hb)]; exact hb
  rw [Clean_rooted _ hr]
  unfold cleanStack
  rw [splitSlash_append_slash, splitSlash_append_slash, List.foldl_append,
    foldl_over_base _ (foldl_cleanStep_rooted_nodots _ [] (by simp)) vendor product]

theorem Clean_over_base_good (b vendor product : GoString) :
    GoodStack (keptComps vendor product ++
      (cleanStack true (splitSlash b)).drop (climb vendor product)) := by
  intro x hx
  rcases List.mem_append.1 hx with h | h
  · unfold keptComps at h
    exact cleanStack_good_append vendor product x (List.mem_of_mem_filter h)
  · exact cleanStack_good true b x (List.mem_of_mem_drop h)

/-- Under two absolute bases the cleaned paths of `vendor/product` are the same exactly when
the bases, less the components that `vendor/product` climbs over, are the same. -/
theorem Clean_over_base_eq_iff (b1 b2 vendor product : GoString) (h1 : isRooted b1 = true)
    (h2 : isRooted b2 = true) :
    Clean (b1 ++ '/' :: (vendor ++ '/' :: product)) =
        Clean (b2 ++ '/' :: (vendor ++ '/' :: product)) ↔
      (cleanStack true (splitSlash b1)).drop (climb vendor product) =
        (cleanStack true (splitSlash b2)).drop (climb vendor product) := by
  rw [Clean_over_base b1 vendor product h1, Clean_over_base b2 vendor product h2]
  constructor
  · intro h
    injection h with _ h
    have := joinSlash_inj _ _ (GoodStack_reverse _ (Clean_over_base_good b1 vendor product))
      (GoodStack_reverse _ (Clean_over_base_good b2 vendor product)) h
    have := List.reverse_injective this
    exact List.append_cancel_left this
  · intro h; rw [h]

theorem Join_three (e vendor product : GoString) (he : e ≠ []) :
    Join [e, vendor, product] = Clean (e ++ '/' :: (vendor ++ '/' :: product)) := by
  simp [Join, he, joinSlash]

theorem Join_five (home a b vendor product : GoString) (hh : home ≠ []) :
    Join [home, a, b, vendor, product] =
      Clean ((home ++ '/' :: (a ++ '/' :: b)) ++ '/' :: (vendor ++ '/' :: product)) := by
  simp [Join, hh, joinSlash]

theorem Join_five_nil (a b vendor product : GoString) (ha : a ≠ []) :
    Join [[], a, b, vendor, product] = Clean (joinSlash [a, b, vendor, product]) := by
  simp [Join, ha]

theorem cleanStack_two_plain (home a b : GoString) (ha : PlainComp a) (hb : PlainComp b) :
    cleanStack true (splitSlash (home ++ '/' :: (a ++ '/' :: b))) =
      b :: a :: cleanStack true (splitSlash home) := by
  unfold cleanStack
  rw [splitSlash_append_slash, splitSlash_append_slash, splitSlash_noslash a ha.2.1,
    splitSlash_noslash b hb.2.1, List.foldl_append, List.foldl_append]
  simp only [List.foldl]
  rw [cleanStep_plain true _ a ha, cleanStep_plain true _ b hb]

theorem drop_base_eq_iff (P Q S : List GoString) (k : Nat) :
    (P.drop k = (Q ++ S).drop k → P.length = Q.length → S = [] ∨ Q.length + S.length ≤ k) ∧
      (P.drop k = (Q ++ S).drop k → P.length < Q.length → Q.length + S.length ≤ k) ∧
      (Q.length + S.length ≤ k → P.length ≤ Q.length → P.drop k = (Q ++ S).drop k) := by
  refine ⟨?_, ?_, ?_⟩
  · intro h hl
    have := congrArg List.length h
    simp only [List.length_drop, List.length_append] at this
    by_cases hS : S.length = 0
    · exact Or.inl (List.length_eq_zero.1 hS)
    · right; omega
  · intro h hl
    have := congrArg List.length h
    simp only [List.length_drop, List.length_append] at this
    omega
  · intro h hl
    rw [List.drop_eq_nil_of_le (by omega),
      List.drop_eq_nil_of_le (by rw [List.length_append]; exact h)]

/-- On Linux the two directories are the same path exactly when `HOME` is absolute and
`vendor/product` climbs over the whole of `HOME/.local/share`. -/
theorem linux_dirs_eq_iff (getenv : GoString → GoString) (vendor product : GoString) :
    linux.SystemDataDir vendor product = linux.UserDataDir getenv vendor product ↔
      (isRooted (getenv "HOME".toList) = true ∧
        homeDepth (getenv "HOME".toList) + 2 ≤ climb vendor product) := by
  unfold linux.SystemDataDir linux.UserDataDir
  rw [Join_three _ vendor product (by decide)]
  by_cases hr : isRooted (getenv "HOME".toList) = true
  · have hne := isRooted_ne_nil _ hr
    rw [Join_five _ _ _ vendor product hne]
    have hb : isRooted (getenv "HOME".toList ++ '/' :: (".local".toList ++ '/' ::
        "share".toList)) = true := by
      rw [isRooted_append _ _ hne]; exact hr
    rw [Clean_over_base_eq_iff _ _ vendor product (by decide) hb,
      cleanStack_two_plain _ _ _ (by decide) (by decide)]
    have hetc : cleanStack true (splitSlash "/etc".toList) = ["etc".toList] := by decide
    rw [hetc]
    simp only [hr, true_and]
    obtain ⟨_, h2, h3⟩ := drop_base_eq_iff ["etc".toList] ["share".toList, ".local".toList]
      (cleanStack true (splitSlash (getenv "HOME".toList))) (climb vendor product)
    constructor
    · intro h
      have := h2 h (by decide)
      simp only [List.length_cons, List.length_nil] at this
      unfold homeDepth
      omega
    · intro h
      apply h3
      · simp only [List.length_cons, List.length_nil]
        unfold homeDepth at h
        omega
      · decide
  · have hr2 : isRooted (getenv "HOME".toList) = false := by
      cases h : isRooted (getenv "HOME".toList)
      · rfl
      · exact absurd h hr
    simp only [hr2, Bool.false_eq_true, false_and, iff_false]
    have hsys : isRooted ("/etc".toList ++ '/' :: (vendor ++ '/' :: product)) = true := by
      rw [isRooted_append _ _ (by decide)]; decide
    by_cases hne : getenv "HOME".toList = []
    · rw [hne, Join_five_nil _ _ vendor product (by decide)]
      exact Clean_unrooted_ne_rooted _ _ (by simp [joinSlash, isRooted]) hsys
    · rw [Join_five _ _ _ vendor product hne]
      apply Clean_unrooted_ne_rooted _ _ _ hsys
      rw [List.append_assoc, isRooted_append _ _ hne]
      exact hr2

/-- On macOS the two directories are the same path exactly when `HOME` is absolute and
either cleans to the root or is climbed over, with `Library/Application Support`, by
`vendor/product`. -/
theorem darwin_dirs_eq_iff (getenv : GoString → GoString) (vendor product : GoString) :
    darwin.SystemDataDir vendor product = darwin.UserDataDir getenv vendor product ↔
      (isRooted (getenv "HOME".toList) = true ∧
        (homeDepth (getenv "HOME".toList) = 0 ∨
          homeDepth (getenv "HOME".toList) + 2 ≤ climb vendor product)) := by
  unfold darwin.SystemDataDir darwin.UserDataDir
  rw [Join_three _ vendor product (by decide)]
  by_cases hr : isRooted (getenv "HOME".toList) = true
  · have hne := isRooted_ne_nil _ hr
    rw [Join_five _ _ _ vendor product hne]
    have hb : isRooted (getenv "HOME".toList ++ '/' :: ("Library".toList ++ '/' ::
        "Application Support".toList)) = true := by
      rw [isRooted_append _ _ hne]; exact hr
    rw [Clean_over_base_eq_iff _ _ vendor product (by decide) hb,
      cleanStack_two_plain _ _ _ (by decide) (by decide)]
    have hlib : cleanStack true (splitSlash "/Library/Application Support".toList) =
        ["Application Support".toList, "Library".toList] := by decide
    rw [hlib]
    simp only [hr, true_and]
    obtain ⟨h1, _, h3⟩ := drop_base_eq_iff
      ["Application Support".toList, "Library".toList]
      ["Application Support".toList, "Library".toList]
      (cleanStack true (splitSlash (getenv "HOME".toList))) (climb vendor product)
    constructor
    · intro h
      rcases h1 h rfl with hS | hle
      · left; unfold homeDepth; rw [hS]; rfl
      · right
        simp only [List.length_cons, List.length_nil] at hle
        unfold homeDepth
        omega
    · intro h
      rcases h with h0 | hle
      · unfold homeDepth at h0
        rw [List.length_eq_zero.1 h0]
      · apply h3
        · simp only [List.length_cons, List.length_nil]
          unfold homeDepth at hle
          omega
        · exact Nat.le_refl _
  · have hr2 : isRooted (getenv "HOME".toList) = false := by
      cases h : isRooted (getenv "HOME".toList)
      · rfl
      · exact absurd h hr
    simp only [hr2, Bool.false_eq_true, false_and, iff_false]
    have hsys : isRooted ("/Library/Application Support".toList ++
        '/' :: (vendor ++ '/' :: product)) = true := by
      rw [isRooted_append _ _ (by decide)]; decide
    by_cases hne : getenv "HOME".toList = []
    · rw [hne, Join_five_nil _ _ vendor product (by decide)]
      exact Clean_unrooted_ne_rooted _ _ (by simp [joinSlash, isRooted]) hsys
    · rw [Join_five _ _ _ vendor product hne]
      apply Clean_unrooted_ne_rooted _ _ _ hsys
      rw [List.append_assoc, isRooted_append _ _ hne]
      exact hr2

theorem cleanStep_unrooted_nodots (st : List GoString) (c : GoString)
    (hc : c ≠ ['.', '.']) (h : ['.', '.'] ∉ st) : ['.', '.'] ∉ cleanStep false st c := by
  unfold cleanStep
  split
  · exact h
  · intro hm
    rcases List.mem_cons.1 hm with hm | hm
    · exact hc hm.symm
    · exact h hm

theorem foldl_cleanStep_unrooted_nodots (T : List GoString)
    (hT : ∀ c ∈ T, c ≠ ['.', '.']) :
    ∀ st : List GoString, ['.', '.'] ∉ st → ['.', '.'] ∉ T.foldl (cleanStep false) st := by
  induction T with
  | nil => intro st h; exact h
  | cons c cs ih =>
    intro st h
    exact ih (fun d hd => hT d (by simp [hd])) _
      (cleanStep_unrooted_nodots st c (hT c (by simp)) h)

/-- A `vendor/product` without any `..` element does not climb. -/
theorem climb_eq_zero (vendor product : GoString)
    (h : ∀ c ∈ splitSlash vendor ++ splitSlash product, c ≠ ['.', '.']) :
    climb vendor product = 0 := by
  unfold climb cleanStack
  exact List.count_eq_zero_of_not_mem (foldl_cleanStep_unrooted_nodots _ h [] (by simp))

/-- C7, as stated, fails on each platform. On macOS with `HOME` set to the root directory
the user and the system data directory of the same vendor and product are the same path, and
so are the `DataDir` of the user-scope and of the system-scope configuration. On Linux with
`HOME` set to the root directory and vendor and product both `..` the two are the root
directory. On Windows with `ProgramData` and `AppData` both unset the two are the same
path, whatever `filepath.Join` does. -/
theorem scopes_share_a_directory :
    (darwin.SystemDataDir "Acme".toList "Sync".toList =
        darwin.UserDataDir (fun _ => "/".toList) "Acme".toList "Sync".toList ∧
      DataDir .darwin (stringsJoin ['\\']) (fun _ => "/".toList) sampleOptions =
        DataDir .darwin (stringsJoin ['\\']) (fun _ => "/".toList) sampleSystemOptions) ∧
      (linux.SystemDataDir "..".toList "..".toList =
        linux.UserDataDir (fun _ => "/".toList) "..".toList "..".toList) ∧
      (∀ join : List GoString → GoString,
        windows.SystemDataDir join (fun _ => []) "Acme".toList "Sync".toList =
          windows.UserDataDir join (fun _ => []) "Acme".toList "Sync".toList) :=
  ⟨by decide, by decide, fun _ => rfl⟩

/-- C7, amended: the data directories are functions of the platform, the environment, the
vendor and the product, and for a user-scope and a system-scope configuration with the same
vendor and name `DataDir` gives the same path in exactly these cases. On Linux: `HOME` is
an absolute path and `vendor/name` climbs, through `..` elements, over all of
`HOME/.local/share`. On macOS: `HOME` is an absolute path and either cleans to the root
directory or is climbed over, with `Library/Application Support`, by `vendor/name`. On
Windows, where `filepath.Join` leaves both `ProgramData` and `AppData` unchanged in front
of `\vendor\name` (as for clean absolute paths): `ProgramData` and `AppData` hold the same
value. A `vendor/name` without any `..` element does not climb. -/
theorem dataDir_scopes (join : List GoString → GoString) (getenv : GoString → GoString)
    (u s : Options) (hu : u.Mode = ModeUser) (hs : s.Mode = ModeSystem)
    (hv : u.Vendor = s.Vendor) (hn : u.Name = s.Name) :
    (DataDir .linux join getenv u = DataDir .linux join getenv s ↔
        (isRooted (getenv "HOME".toList) = true ∧
          homeDepth (getenv "HOME".toList) + 2 ≤ climb s.Vendor s.Name)) ∧
      (DataDir .darwin join getenv u = DataDir .darwin join getenv s ↔
        (isRooted (getenv "HOME".toList) = true ∧
          (homeDepth (getenv "HOME".toList) = 0 ∨
            homeDepth (getenv "HOME".toList) + 2 ≤ climb s.Vendor s.Name))) ∧
      (join [getenv "ProgramData".toList, s.Vendor, s.Name] =
          getenv "ProgramData".toList ++ '\\' :: (s.Vendor ++ '\\' :: s.Name) →
        join [getenv "AppData".toList, s.Vendor, s.Name] =
          getenv "AppData".toList ++ '\\' :: (s.Vendor ++ '\\' :: s.Name) →
        (DataDir .windows join getenv u = DataDir .windows join getenv s ↔
          getenv "ProgramData".toList = getenv "AppData".toList)) ∧
      ((∀ c ∈ splitSlash s.Vendor ++ splitSlash s.Name, c ≠ ['.', '.']) →
        climb s.Vendor s.Name = 0) := by
  have hus : ¬ u.Mode = ModeSystem := by rw [hu]; decide
  unfold DataDir SystemDataDir UserDataDir
  simp only [hus, hs, if_true, if_false, hv, hn]
  refine ⟨?_, ?_, ?_, climb_eq_zero s.Vendor s.Name⟩
  · rw [eq_comm]; exact linux_dirs_eq_iff getenv s.Vendor s.Name
  · rw [eq_comm]; exact darwin_dirs_eq_iff getenv s.Vendor s.Name
  · intro hP hA
    unfold windows.SystemDataDir windows.UserDataDir
    rw [hP, hA]
    constructor
    · intro h; exact (List.append_cancel_right h).symm
    · intro h; rw [h]

theorem dataDir_scopes_witness :
    sampleOptions.Mode = ModeUser ∧ sampleSystemOptions.Mode = ModeSystem ∧
      sampleOptions.Vendor = sampleSystemOptions.Vendor ∧
      sampleOptions.Name = sampleSystemOptions.Name ∧
      (DataDir .linux sampleHost.winJoin sampleHost.getenv sampleOptions =
          DataDir .linux sampleHost.winJoin sampleHost.getenv sampleSystemOptions ↔
        (isRooted (sampleHost.getenv "HOME".toList) = true ∧
          homeDepth (sampleHost.getenv "HOME".toList) + 2 ≤
            climb sampleSystemOptions.Vendor sampleSystemOptions.Name)) ∧
      DataDir .linux sampleHost.winJoin sampleHost.getenv sampleOptions ≠
        DataDir .linux sampleHost.winJoin sampleHost.getenv sampleSystemOptions ∧
      DataDir .darwin sampleHost.winJoin sampleHost.getenv sampleOptions ≠
        DataDir .darwin sampleHost.winJoin sampleHost.getenv sampleSystemOptions :=
  ⟨by decide, by decide, by decide, by decide,
    (dataDir_scopes sampleHost.winJoin sampleHost.getenv sampleOptions sampleSystemOptions
      (by decide) (by decide) (by decide) (by decide)).1,
    by decide, by decide⟩

/-- C8: the code at a failing input. The service named by the label exists and opening it
fails with an error that is not "service does not exist"; `IsEnabled` in the system scope
answers `(false, nil)` where the claim asks for a non-nil error. -/
theorem isEnabledAdmin_swallows_open_error :
    (windows.OpenService (windows.mgrConnect blockedServiceWorld).2
        sampleSystemOptions.Label).1 = .error (.os "access denied".toList) ∧
      (IsEnabled .windows blockedServiceWorld sampleSystemOptions).1 = (false, none) :=
  ⟨rfl, by decide⟩

theorem osMkdirAll_log (w : World) (p : GoString) :
    (osMkdirAll w p).2.log = w.log ++ [.mkdirAll p] := by
  unfold osMkdirAll; split <;> try split
  all_goals rfl

/-- C9, as stated, fails: started from its own Startup shortcut path, `enableUser` finds the
resolved executable path identical to the shortcut path and returns nil, not an error. -/
theorem self_shortcut_returns_nil :
    EvalSymlinks selfStartWorld (windows.getUserStartupLinkPath selfStartWorld sampleOptions) =
        .ok (windows.getUserStartupLinkPath selfStartWorld sampleOptions) ∧
      osExecutable selfStartWorld =
        .ok (windows.getUserStartupLinkPath selfStartWorld sampleOptions) ∧
      (windows.enableUser selfStartWorld sampleOptions).1 = none :=
  ⟨rfl, rfl, by decide⟩

/-- C9, amended: whenever the symlink-resolved executable path is identical to the Startup
shortcut path, `enableUser` never invokes the native `CreateShortcut` (its only effect is
the `MkdirAll` of the Startup directory), and it returns nil, not an error, once that
directory is in place; the only error it can return is that of creating the directory. -/
theorem enableUser_self_shortcut (w : World) (o : Options) (bin0 : GoString)
    (hexe : osExecutable w = .ok bin0)
    (hev : EvalSymlinks w bin0 = .ok (windows.getUserStartupLinkPath w o)) :
    (windows.enableUser w o).2 = (osMkdirAll w (windows.getUserStartupDir w)).2 ∧
      (windows.enableUser w o).2.log = w.log ++ [.mkdirAll (windows.getUserStartupDir w)] ∧
      ((windows.enableUser w o).1 = none ↔
        (osMkdirAll w (windows.getUserStartupDir w)).1 = none) := by
  have key : (windows.enableUser w o).2 = (osMkdirAll w (windows.getUserStartupDir w)).2 ∧
      ((windows.enableUser w o).1 = none ↔
        (osMkdirAll w (windows.getUserStartupDir w)).1 = none) := by
    unfold windows.enableUser
    rw [hexe]
    simp only
    rw [hev]
    simp only
    cases hm : osMkdirAll w (windows.getUserStartupDir w) with
    | mk me w1 =>
      have hw1 : (osMkdirAll w (windows.getUserStartupDir w)).2 = w1 := by rw [hm]
      have hh1 : w1.host = w.host := by rw [← hw1]; simp
      obtain ⟨hl, _, _⟩ := windows_lnk_host w w1 o hh1
      cases me with
      | some e => simp
      | none =>
        simp only
        rw [hl, if_pos rfl]
        simp
  refine ⟨key.1, ?_, key.2⟩
  rw [key.1, osMkdirAll_log]

theorem enableUser_self_shortcut_witness :
    osExecutable selfStartWorld =
        .ok (windows.getUserStartupLinkPath selfStartWorld sampleOptions) ∧
      EvalSymlinks selfStartWorld (windows.getUserStartupLinkPath selfStartWorld sampleOptions) =
        .ok (windows.getUserStartupLinkPath selfStartWorld sampleOptions) ∧
      ((windows.enableUser selfStartWorld sampleOptions).2 =
          (osMkdirAll selfStartWorld (windows.getUserStartupDir selfStartWorld)).2 ∧
        (windows.enableUser selfStartWorld sampleOptions).2.log =
          selfStartWorld.log ++ [.mkdirAll (windows.getUserStartupDir selfStartWorld)] ∧
        ((windows.enableUser selfStartWorld sampleOptions).1 = none ↔
          (osMkdirAll selfStartWorld (windows.getUserStartupDir selfStartWorld)).1 = none)) :=
  ⟨rfl, rfl,
    enableUser_self_shortcut selfStartWorld sampleOptions
      (windows.getUserStartupLinkPath selfStartWorld sampleOptions) rfl rfl⟩

/-- C10: the code at a failing input. A successful `enableAdmin` registers the service under
the label with automatic start, the name as display name, the description and the arguments
in order, and one recovery action of type restart; but the delay the service manager
receives is 0 milliseconds, where the claim says 60000: the 60000 is handed over as a
`time.Duration`, that is as nanoseconds, and divided by 1,000,000. -/
theorem enableAdmin_recovery_delay (w : World) (o : Options)
    (h : (windows.enableAdmin w o).1 = none) :
    ∃ bin, w.host.executable = some bin ∧
      (windows.enableAdmin w o).2.svc o.Label = .present
        { binaryPath := bin,
          config := { StartType := StartAutomatic, DisplayName := o.Name,
                      Description := o.Description },
          args := o.Arguments,
          actions := [{ Type_ := ServiceRestart, Delay := 0 }],
          resetPeriod := 0 } := by
  obtain ⟨_, _, _, _, bin, hexe, hsvc⟩ := windows_enableAdmin_ok w o h
  exact ⟨bin, hexe, by rw [hsvc]; rfl⟩

theorem enableAdmin_recovery_delay_witness :
    (windows.enableAdmin sampleWorld sampleSystemOptions).1 = none ∧
      ∃ bin, sampleWorld.host.executable = some bin ∧
        (windows.enableAdmin sampleWorld sampleSystemOptions).2.svc sampleSystemOptions.Label =
          .present
            { binaryPath := bin,
              config := { StartType := StartAutomatic, DisplayName := sampleSystemOptions.Name,
                          Description := sampleSystemOptions.Description },
              args := sampleSystemOptions.Arguments,
              actions := [{ Type_ := ServiceRestart, Delay := 0 }],
              resetPeriod := 0 } :=
  ⟨by decide, enableAdmin_recovery_delay sampleWorld sampleSystemOptions (by decide)⟩

/-! ### The signal of the Linux backend -/

/-- What `IsEnabled` on Linux does where the unit file is: it runs the `status` command,
answers `(true, nil)` when the command exits with code 0, and answers false together with an
error when the command exits with another code. -/
theorem linux_isEnabled_of_present (w : World) (o : Options) (path : GoString)
    (argv : List GoString) (hp : linux.getSystemdUnitFilePath w o = .ok path)
    (hst : osStat w path = none)
    (hargv : linux.systemctlArgv o "status".toList = some argv) :
    (linux.IsEnabled w o).2.log = w.log ++ [.exec argv] ∧
      (w.host.run argv = .exited 0 → (linux.IsEnabled w o).1 = (true, none)) ∧
      (w.host.run argv ≠ .exited 0 →
        (linux.IsEnabled w o).1.1 = false ∧ (linux.IsEnabled w o).1.2 ≠ none) := by
  obtain ⟨hiff, hcode⟩ := systemctlRun_ok_iff w o "status".toList argv hargv
  have hlog := systemctlRun_log w o "status".toList argv hargv
  unfold linux.IsEnabled
  rw [hp]
  simp only
  rw [hst]
  simp only
  split
  · rename_i c e w1 hs
    have hw1 : (linux.systemctlRun w o "status".toList).2 = w1 := by rw [hs]
    rw [hs] at hiff
    refine ⟨by rw [← hw1]; exact hlog, ?_, ?_⟩
    · intro h0
      have := hiff.2 h0
      simp at this
    · intro _
      simp [Wrapf]
  · rename_i c w1 hs
    have hw1 : (linux.systemctlRun w o "status".toList).2 = w1 := by rw [hs]
    rw [hs] at hiff hcode
    refine ⟨by rw [← hw1]; exact hlog, ?_, ?_⟩
    · intro _
      have hc0 : c = 0 := hcode rfl
      simp [hc0]
    · intro hne
      exact absurd (hiff.1 rfl) hne

/-- C11: the code at a failing input. The unit file is present and `systemctl status` runs
and exits with code 3; `IsEnabled` answers false together with a non-nil error (the
`*exec.ExitError` of `cmd.Run`, wrapped twice), where the claim says `(false, nil)`. The
command that was run is `systemctl status com.acme.sync.service`, without `sudo` in the user
scope. -/
theorem inactive_unit_reported_as_error :
    registered .linux inactiveUnitWorld sampleOptions = some true ∧
      inactiveUnitWorld.host.run
          ["systemctl".toList, "status".toList, "com.acme.sync.service".toList] = .exited 3 ∧
      (IsEnabled .linux inactiveUnitWorld sampleOptions).1 =
        (false, some (.wrapped "autostart: checking systemd service status".toList
          (.wrapped "autostart: running systemctl status".toList (.exit 3)))) ∧
      (IsEnabled .linux inactiveUnitWorld sampleOptions).2.log =
        [.exec ["systemctl".toList, "status".toList, "com.acme.sync.service".toList]] := by
  decide

/-! ### A scope that is neither user nor system -/

theorem invalid_mode_ne (o : Options) (h : ¬ ValidMode o) :
    ¬ o.Mode = ModeUser ∧ ¬ o.Mode = ModeSystem :=
  ⟨fun e => h (Or.inl e), fun e => h (Or.inr e)⟩

theorem darwin_path_invalid (w : World) (o : Options) (h : ¬ ValidMode o) :
    darwin.getPlistFilePath w o = .error (.wrapped "autostart".toList .invalidMode) := by
  obtain ⟨hu, hs⟩ := invalid_mode_ne o h
  simp [darwin.getPlistFilePath, darwin.getPlistDir, hu, hs]

theorem linux_path_invalid (w : World) (o : Options) (h : ¬ ValidMode o) :
    linux.getSystemdUnitFilePath w o = .error (.wrapped "autostart".toList .invalidMode) := by
  obtain ⟨hu, hs⟩ := invalid_mode_ne o h
  simp [linux.getSystemdUnitFilePath, linux.getSystemdDir, hu, hs]

theorem IsEnabled_invalid (pf : Platform) (w : World) (o : Options) (h : ¬ ValidMode o) :
    ∃ e, IsEnabled pf w o = ((false, some e), w) ∧ IsInvalidMode e = true := by
  obtain ⟨hu, hs⟩ := invalid_mode_ne o h
  cases pf with
  | darwin =>
    refine ⟨.wrapped "autostart: getting plist file path".toList
      (.wrapped "autostart".toList .invalidMode), ?_, rfl⟩
    simp [IsEnabled, darwin.IsEnabled, darwin_path_invalid w o h, Wrapf]
  | linux =>
    refine ⟨.wrapped "autostart".toList (.wrapped "autostart".toList .invalidMode), ?_, rfl⟩
    simp [IsEnabled, linux.IsEnabled, linux_path_invalid w o h, Wrap]
  | windows =>
    refine ⟨.wrapped "autostart".toList .invalidMode, ?_, rfl⟩
    simp [IsEnabled, windows.IsEnabled, hu, hs, Wrap]

theorem Disable_invalid (pf : Platform) (w : World) (o : Options) (h : ¬ ValidMode o) :
    ∃ e, Disable pf w o = (some e, w) ∧ IsInvalidMode e = true := by
  obtain ⟨hu, hs⟩ := invalid_mode_ne o h
  cases pf with
  | darwin =>
    refine ⟨.wrapped "autostart".toList (.wrapped "autostart".toList .invalidMode), ?_, rfl⟩
    simp [Disable, darwin.Disable, darwin_path_invalid w o h, Wrap]
  | linux =>
    refine ⟨.wrapped "autostart: disabling systemd service".toList .invalidMode, ?_, rfl⟩
    simp [Disable, linux.Disable, linux.systemctlRun, linux.systemctlArgv, hu, hs, Wrapf]
  | windows =>
    refine ⟨.wrapped "autostart".toList .invalidMode, ?_, rfl⟩
    simp [Disable, windows.Disable, hu, hs, Wrap]

theorem Enable_invalid (pf : Platform) (w : World) (o : Options) (h : ¬ ValidMode o) :
    ∃ e, Enable pf w o = (some e, w) ∧ (IsInvalidMode e = true ↔ preambleOk pf w = true) := by
  obtain ⟨hu, hs⟩ := invalid_mode_ne o h
  cases pf with
  | darwin =>
    cases hexe : w.host.executable with
    | none =>
      refine ⟨.wrapped "autostart: getting executable path".toList (.os "executable".toList),
        ?_, ?_⟩
      · simp [Enable, darwin.Enable, osExecutable, hexe, Wrapf]
      · simp [preambleOk, hexe, IsInvalidMode]
    | some bin =>
      cases ht : w.host.plistTemplate with
      | none =>
        refine ⟨.wrapped "autostart: parsing plist template".toList (.os "parse".toList),
          ?_, ?_⟩
        · simp [Enable, darwin.Enable, osExecutable, hexe, ht, Wrapf]
        · simp [preambleOk, hexe, ht, IsInvalidMode]
      | some tmpl =>
        refine ⟨.wrapped "autostart".toList (.wrapped "autostart".toList .invalidMode),
          ?_, ?_⟩
        · simp [Enable, darwin.Enable, osExecutable, hexe, ht, darwin_path_invalid w o h, Wrap]
        · simp [preambleOk, hexe, ht, IsInvalidMode]
  | linux =>
    cases hexe : w.host.executable with
    | none =>
      refine ⟨.wrapped "autostart: creating systemd unit file".toList
        (.wrapped "autostart: getting executable path".toList (.os "executable".toList)),
        ?_, ?_⟩
      · simp [Enable, linux.Enable, linux.createSystemdUnitFile, osExecutable, hexe, Wrapf]
      · simp [preambleOk, hexe, IsInvalidMode]
    | some bin =>
      cases ht : w.host.systemdTemplate with
      | none =>
        refine ⟨.wrapped "autostart: creating systemd unit file".toList
          (.wrapped "autostart: parsing systemd unit template".toList (.os "parse".toList)),
          ?_, ?_⟩
        · simp [Enable, linux.Enable, linux.createSystemdUnitFile, osExecutable, hexe, ht,
            Wrapf]
        · simp [preambleOk, hexe, ht, IsInvalidMode]
      | some tmpl =>
        refine ⟨.wrapped "autostart: creating systemd unit file".toList
          (.wrapped "autostart".toList (.wrapped "autostart".toList .invalidMode)), ?_, ?_⟩
        · simp [Enable, linux.Enable, linux.createSystemdUnitFile, osExecutable, hexe, ht,
            linux_path_invalid w o h, Wrap, Wrapf]
        · simp [preambleOk, hexe, ht, IsInvalidMode]
  | windows =>
    refine ⟨.invalidMode, ?_, ?_⟩
    · simp [Enable, windows.Enable, hu, hs]
    · simp [preambleOk, IsInvalidMode]

/-- C12, as stated, fails: on macOS, where `os.Executable` fails, `Enable` with a scope that
is neither user nor system returns the error of that step, for which
`errors.Is(err, ErrInvalidMode)` does not hold. -/
theorem enable_invalid_mode_other_error :
    ¬ ValidMode invalidOptions ∧
      (Enable .darwin noExecutableWorld invalidOptions).1 =
        some (.wrapped "autostart: getting executable path".toList
          (.os "executable".toList)) ∧
      IsInvalidMode (.wrapped "autostart: getting executable path".toList
        (.os "executable".toList)) = false := by
  decide

/-- C12, amended: for every configuration whose scope is neither user nor system, on each
of the three backends, `IsEnabled`, `Enable` and `Disable` each return an error and leave
the world as it was: no file is created, overwritten or removed, no subprocess is started
and no native call is made. For `IsEnabled` (which answers false) and `Disable` the error
satisfies `errors.Is(err, ErrInvalidMode)`; for `Enable` it does so on Windows, and on macOS
and Linux exactly when `os.Executable` and the parsing of the template, which come first,
succeed (otherwise the error is theirs). -/
theorem invalid_mode_rejected (pf : Platform) (w : World) (o : Options) (h : ¬ ValidMode o) :
    (∃ e, IsEnabled pf w o = ((false, some e), w) ∧ IsInvalidMode e = true) ∧
      (∃ e, Disable pf w o = (some e, w) ∧ IsInvalidMode e = true) ∧
      (∃ e, Enable pf w o = (some e, w) ∧
        (IsInvalidMode e = true ↔ preambleOk pf w = true)) :=
  ⟨IsEnabled_invalid pf w o h, Disable_invalid pf w o h, Enable_invalid pf w o h⟩

theorem invalid_mode_rejected_witness :
    ¬ ValidMode invalidOptions ∧
      ((∃ e, IsEnabled .linux sampleWorld invalidOptions = ((false, some e), sampleWorld) ∧
          IsInvalidMode e = true) ∧
        (∃ e, Disable .linux sampleWorld invalidOptions = (some e, sampleWorld) ∧
          IsInvalidMode e = true) ∧
        (∃ e, Enable .linux sampleWorld invalidOptions = (some e, sampleWorld) ∧
          (IsInvalidMode e = true ↔ preambleOk .linux sampleWorld = true))) :=
  ⟨by decide, invalid_mode_rejected .linux sampleWorld invalidOptions (by decide)⟩

/-! ### Log file paths and the redirection of the process streams -/

theorem Clean_ne_nil (path : GoString) : Clean path ≠ [] := by
  unfold Clean
  split
  · simp
  · simp only
    split
    · simp
    · split
      · simp
      · assumption

theorem Join_ne_nil (l : List GoString) (h : ∃ e ∈ l, e ≠ []) : Join l ≠ [] := by
  induction l with
  | nil => obtain ⟨e, he, _⟩ := h; simp at he
  | cons x xs ih =>
    unfold Join
    by_cases hx : x = []
    · rw [if_pos hx]
      apply ih
      obtain ⟨e, he, hne⟩ := h
      rcases List.mem_cons.1 he with he | he
      · rw [he] at hne; exact absurd hx hne
      · exact ⟨e, he, hne⟩
    · rw [if_neg hx]
      exact Clean_ne_nil _

theorem platformJoin_ne_nil (pf : Platform) (join : List GoString → GoString)
    (hjoin : pf = .windows → ∀ l : List GoString, (∃ e ∈ l, e ≠ []) → join l ≠ [])
    (l : List GoString) (h : ∃ e ∈ l, e ≠ []) : platformJoin pf join l ≠ [] := by
  cases pf with
  | darwin => exact Join_ne_nil l h
  | linux => exact Join_ne_nil l h
  | windows => exact hjoin rfl l h

@[simp] theorem osOpenAppend_host (dirOf : GoString → GoString) (w : World) (p : GoString) :
    (osOpenAppend dirOf w p).2.host = w.host := by
  unfold osOpenAppend
  split
  · rfl
  · split
    · split <;> rfl
    · rfl
    · rfl

theorem OverrideStdout_host (dirOf : GoString → GoString) (pr : Process) (s : Stream)
    (p : GoString) : (OverrideStdout dirOf pr s p).2.world.host = pr.world.host := by
  unfold OverrideStdout
  split
  · rfl
  · split
    · rename_i e w1 hm
      have := osMkdirAll_host pr.world (dirOf p)
      rw [hm] at this
      exact this
    · rename_i w1 hm
      have h1 := osMkdirAll_host pr.world (dirOf p)
      rw [hm] at h1
      split
      · rename_i e w2 ho
        have h2 := osOpenAppend_host dirOf w1 p
        rw [ho] at h2
        exact h2.trans h1
      · rename_i w2 ho
        have h2 := osOpenAppend_host dirOf w1 p
        rw [ho] at h2
        exact h2.trans h1

/-- With a non-empty path `OverrideStdout` either fails or binds the process's stdout to
the log file and hands back the writer over both. -/
theorem OverrideStdout_ok (dirOf : GoString → GoString) (pr : Process) (s : Stream)
    (p : GoString) (hp : p ≠ []) (h : (OverrideStdout dirOf pr s p).1.2 = none) :
    (OverrideStdout dirOf pr s p).1.1 = some (.multi s (.logFile p)) ∧
      (OverrideStdout dirOf pr s p).2.stdout = .logFile p ∧
      (OverrideStdout dirOf pr s p).2.stderr = pr.stderr := by
  unfold OverrideStdout at h ⊢
  rw [if_neg hp] at h ⊢
  split at h
  · simp at h
  · split at h
    · simp at h
    · exact ⟨rfl, rfl, rfl⟩

/-- With a non-empty path `OverrideStderr` either fails or binds the process's stderr to
the log file. -/
theorem OverrideStderr_ok (dirOf : GoString → GoString) (pr : Process) (s : Stream)
    (p : GoString) (hp : p ≠ []) (h : (OverrideStderr dirOf pr s p).1 = none) :
    (OverrideStderr dirOf pr s p).2.stderr = .logFile p ∧
      (OverrideStderr dirOf pr s p).2.stdout = pr.stdout := by
  unfold OverrideStderr at h ⊢
  rw [if_neg hp] at h ⊢
  split at h
  · simp at h
  · split at h
    · simp at h
    · exact ⟨rfl, rfl⟩

theorem StdOutPath_ne_nil (pf : Platform) (join : List GoString → GoString)
    (getenv : GoString → GoString) (o : Options)
    (hjoin : pf = .windows → ∀ l : List GoString, (∃ e ∈ l, e ≠ []) → join l ≠ []) :
    StdOutPath pf join getenv o ≠ [] := by
  unfold StdOutPath
  by_cases ho : o.StdOutPath ≠ []
  · rw [if_pos ho]; exact ho
  · rw [if_neg ho]
    exact platformJoin_ne_nil pf join hjoin _ ⟨"stdout.log".toList, by simp, by decide⟩

theorem StdErrPath_ne_nil (pf : Platform) (join : List GoString → GoString)
    (getenv : GoString → GoString) (o : Options)
    (hjoin : pf = .windows → ∀ l : List GoString, (∃ e ∈ l, e ≠ []) → join l ≠ []) :
    StdErrPath pf join getenv o ≠ [] := by
  unfold StdErrPath
  by_cases ho : o.StdErrPath ≠ []
  · rw [if_pos ho]; exact ho
  · rw [if_neg ho]
    exact platformJoin_ne_nil pf join hjoin _ ⟨"stderr.err".toList, by simp, by decide⟩

/-- C13: for every configuration, `StdOutPath` and `StdErrPath` are never the empty string:
each is the configured override when that is non-empty and otherwise
`filepath.Join(DataDir(), Logs, "stdout.log")`, resp. `"stderr.err"`; so `Stdio` never takes
the pass-through branches of `OverrideStdout` and `OverrideStderr`: when it returns no
error, both process streams are bound to their log files and the writer is the
`io.MultiWriter` over the former stdout and the log file. (`filepath.Join` of the Windows
build is taken to give a non-empty path when one of its elements is non-empty.) -/
theorem stdio_never_passes_through (pf : Platform) (winDir : GoString → GoString)
    (pr : Process) (o : Options)
    (hjoin : pf = .windows → ∀ l : List GoString, (∃ e ∈ l, e ≠ []) →
      pr.world.host.winJoin l ≠ []) :
    StdOutPath pf pr.world.host.winJoin pr.world.host.getenv o ≠ [] ∧
      StdErrPath pf pr.world.host.winJoin pr.world.host.getenv o ≠ [] ∧
      StdOutPath pf pr.world.host.winJoin pr.world.host.getenv o =
        (if o.StdOutPath ≠ [] then o.StdOutPath
         else platformJoin pf pr.world.host.winJoin
           [DataDir pf pr.world.host.winJoin pr.world.host.getenv o, Logs pf,
            "stdout.log".toList]) ∧
      StdErrPath pf pr.world.host.winJoin pr.world.host.getenv o =
        (if o.StdErrPath ≠ [] then o.StdErrPath
         else platformJoin pf pr.world.host.winJoin
           [DataDir pf pr.world.host.winJoin pr.world.host.getenv o, Logs pf,
            "stderr.err".toList]) ∧
      ((Stdio pf winDir pr o).1.2 = none →
        (Stdio pf winDir pr o).1.1 = some (.multi pr.stdout
            (.logFile (StdOutPath pf pr.world.host.winJoin pr.world.host.getenv o))) ∧
          (Stdio pf winDir pr o).2.stdout =
            .logFile (StdOutPath pf pr.world.host.winJoin pr.world.host.getenv o) ∧
          (Stdio pf winDir pr o).2.stderr =
            .logFile (StdErrPath pf pr.world.host.winJoin pr.world.host.getenv o)) := by
  have hout := StdOutPath_ne_nil pf pr.world.host.winJoin pr.world.host.getenv o hjoin
  have herr := StdErrPath_ne_nil pf pr.world.host.winJoin pr.world.host.getenv o hjoin
  refine ⟨hout, herr, rfl, rfl, ?_⟩
  intro h
  unfold Stdio at h ⊢
  split at h
  · simp at h
  · rename_i wr pr1 h1
    have hpr1 : (OverrideStdout (platformDir pf winDir) pr pr.stdout
        (StdOutPath pf pr.world.host.winJoin pr.world.host.getenv o)).2 = pr1 := by rw [h1]
    have hhost : pr1.world.host = pr.world.host := by
      rw [← hpr1]; exact OverrideStdout_host _ _ _ _
    obtain ⟨hw, hso, hse⟩ := OverrideStdout_ok (platformDir pf winDir) pr pr.stdout _ hout
      (by rw [h1])
    rw [h1] at hw hso hse
    simp only at hw hso hse
    rw [hhost] at h ⊢
    split at h
    · simp at h
    · rename_i pr2 h2
      obtain ⟨hse2, hso2⟩ := OverrideStderr_ok (platformDir pf winDir) pr1 pr1.stderr _ herr
        (by rw [h2])
      rw [h2] at hse2 hso2
      simp only at hse2 hso2
      exact ⟨hw, hso2.trans hso, hse2⟩

theorem stdio_never_passes_through_witness :
    (Stdio .linux (fun p => p) sampleProcess sampleOptions).1.2 = none ∧
      (Stdio .linux (fun p => p) sampleProcess sampleOptions).2.stdout =
        .logFile "/home/u/.local/share/Acme/Sync/logs/stdout.log".toList ∧
      StdOutPath .linux sampleProcess.world.host.winJoin sampleProcess.world.host.getenv
        sampleOptions ≠ [] :=
  ⟨by decide, by decide,
    (stdio_never_passes_through .linux (fun p => p) sampleProcess sampleOptions
      (fun h => absurd h (by decide))).1⟩

end Autostart
